import Mathlib

/-!
# A shallow embedding of `go.jsonconv`

The Go package `jsonconv` implements a mutable JSON value tree (`JsonValue`) with
path navigation (`Get`), mutation (`Set`, `Append`, `Insert`, `Delete`, `Swap`),
serialisation (`marshalToBuffer`) and merge (`MergeFrom`).

Modelling conventions.

* A `*JsonValue` tree is a pure value.  A method that mutates its receiver returns the
  receiver's state after the call together with the returned `error` (`none` for `nil`).
  The pointer results of `Set`, `Append` and `Insert` (the inserted node on success, `nil`
  on failure) carry no further information and are left out.
* A mutation performed through a pointer obtained from `Get` is written back at the slot
  that `Get` read (`putChild`, `putAt`): the tree is an ownership hierarchy, no node is
  reachable along two paths.
* `map[string]*JsonValue` is an association list with the operations of a Go map
  (`mapLookup`, `mapAssign`, `mapDelete`); the list order stands for the iteration order
  of the map, which Go leaves unspecified.
* `int` is 64 bits wide; `int64` and `int` values are `Int`, `uint64` values are `Nat`.
* A Go run-time panic is the outcome `Error.runtimePanic`; it is not an `error` value.
-/

namespace jsonconv

/-- Go `string`, read as its sequence of Unicode scalar values (valid UTF-8). -/
abbrev GoString := String

/-- Go `bool`. -/
abbrev GoBool := Bool

/-- The package's error values (jsonconv.go), the two `strconv` error kinds that the
package passes through, and the outcome of a Go run-time panic. -/
inductive Error where
  | DataTypeError
  | ParaError
  | JsonFormatError
  | JsonTypeError
  | IndexOutOfBoundsError
  | NotAnArrayError
  | NotAnObjectError
  | NotAStringError
  | NotANumberError
  | NotABoolError
  | ObjectNotFoundError
  /-- A `*strconv.NumError` wrapping `strconv.ErrSyntax`. -/
  | strconvSyntaxErr
  /-- A `*strconv.NumError` wrapping `strconv.ErrRange`. -/
  | strconvRangeErr
  /-- The call did not return: the Go run time panicked. -/
  | runtimePanic
  deriving DecidableEq, Repr

/-- The `ValueType` constants (jsonvalue.go, same numbering as `jsonparser`); `NotExist`
is the zero value. -/
inductive ValueType where
  | NotExist
  | String
  | Number
  | Object
  | Array
  | Boolean
  | Null
  | Unknown
  deriving DecidableEq, Repr

/-! ## Go run-time and standard-library primitives used by the package -/

/-- An IEEE-754 binary64 value (`float64`): a signed magnitude `m * 2 ^ e`, an infinity or
a NaN.  The functions below build finite values with `m` odd, or `m = 0` and `e = 0`. -/
inductive Float64 where
  | finite (neg : Bool) (m : Nat) (e : Int)
  | inf (neg : Bool)
  | nan
  deriving DecidableEq, Repr

/-- Number of binary digits of `n`, computed with at most `fuel` halvings. -/
def bitLengthAux : Nat → Nat → Nat
  | 0, _ => 0
  | fuel + 1, n => if n = 0 then 0 else bitLengthAux fuel (n / 2) + 1

/-- Number of binary digits of `n` (`0` for `0`). -/
def bitLength (n : Nat) : Nat := bitLengthAux n n

/-- Move trailing zero bits of the significand into the exponent, at most `fuel` of them. -/
def stripZeroBits : Nat → Nat → Int → Nat × Int
  | 0, m, e => (m, e)
  | fuel + 1, m, e => if m % 2 = 0 then stripZeroBits fuel (m / 2) (e + 1) else (m, e)

/-- The finite value `m * 2 ^ e` with the trailing zero bits of `m` moved into the exponent. -/
def Float64.normalize (neg : Bool) (m : Nat) (e : Int) : Float64 :=
  if m = 0 then .finite neg 0 0
  else .finite neg (stripZeroBits m m e).1 (stripZeroBits m m e).2

/-- The integer `floor (log2 (num / den))`, for positive `num` and `den`. -/
def floorLog2Ratio (num den : Nat) : Int :=
  let k : Int := (bitLength num : Int) - (bitLength den : Int)
  if 0 ≤ k then (if den * 2 ^ k.toNat ≤ num then k else k - 1)
  else (if den ≤ num * 2 ^ (-k).toNat then k else k - 1)

/-- Round the exact rational `num / den` (`den > 0`) to the nearest binary64 value, ties to
even: 53 significant bits, least exponent `-1074`, overflow to infinity. -/
def Float64.round (neg : Bool) (num den : Nat) : Float64 :=
  if num = 0 then .finite neg 0 0
  else
    let e : Int := max (floorLog2Ratio num den - 52) (-1074)
    let n := if 0 ≤ e then num else num * 2 ^ (-e).toNat
    let d := if 0 ≤ e then den * 2 ^ e.toNat else den
    let q := n / d
    let r := n % d
    let q := if d < 2 * r ∨ (2 * r = d ∧ q % 2 = 1) then q + 1 else q
    if 971 < e ∨ (e = 971 ∧ 2 ^ 53 ≤ q) then .inf neg else Float64.normalize neg q e

/-- The conversion `float64(i)` of an `int64`. -/
def Float64.ofInt64 (i : Int) : Float64 := Float64.round (decide (i < 0)) i.natAbs 1

/-- The conversion `float64(u)` of a `uint64`. -/
def Float64.ofUint64 (u : Nat) : Float64 := Float64.round false u 1

/-- The Go comparison `x == y` on `float64`: NaN differs from everything, the two zeros are
equal. -/
def Float64.eq : Float64 → Float64 → Bool
  | .finite n1 m1 e1, .finite n2 m2 e2 =>
      let lo := min e1 e2
      let v1 := m1 * 2 ^ (e1 - lo).toNat
      let v2 := m2 * 2 ^ (e2 - lo).toNat
      decide (v1 = v2) && (decide (v1 = 0) || (n1 == n2))
  | .inf n1, .inf n2 => n1 == n2
  | _, _ => false

/-- The conversion `int64(f)`: truncation toward zero.  Go leaves the result
implementation-defined when the value does not fit; the model returns `-2 ^ 63`, as amd64
does. -/
def Float64.toInt64 : Float64 → Int
  | .finite neg m e =>
      let mag : Nat := if 0 ≤ e then m * 2 ^ e.toNat else m / 2 ^ (-e).toNat
      let v : Int := if neg then -(mag : Int) else (mag : Int)
      if -(2 : Int) ^ 63 ≤ v ∧ v < (2 : Int) ^ 63 then v else -(2 : Int) ^ 63
  | _ => -(2 : Int) ^ 63

/-- The conversion `uint64(i)` of an `int64`: two's complement wrap-around. -/
def uint64OfInt64 (i : Int) : Nat := (i % (2 : Int) ^ 64).toNat

/-- The conversion `int64(u)` of a `uint64`: two's complement wrap-around. -/
def int64OfUint64 (u : Nat) : Int :=
  if u % 2 ^ 64 < 2 ^ 63 then ((u % 2 ^ 64 : Nat) : Int) else ((u % 2 ^ 64 : Nat) : Int) - (2 : Int) ^ 64

/-- Decimal digits of a natural number, most significant first (`strconv.FormatUint(u, 10)`). -/
def FormatUint (u : Nat) : List Char := Nat.toDigits 10 u

/-- The text `strconv.FormatInt(i, 10)`. -/
def FormatInt (i : Int) : List Char :=
  if i < 0 then '-' :: Nat.toDigits 10 i.natAbs else Nat.toDigits 10 i.natAbs

/-- The text `fmt.Sprintf("%.<prec>f", f)`: the exact value rounded to `prec` decimals, ties
to even. -/
def Float64.formatF (prec : Nat) : Float64 → List Char
  | .nan => "NaN".data
  | .inf false => "+Inf".data
  | .inf true => "-Inf".data
  | .finite neg m e =>
      let n := if 0 ≤ e then m * 10 ^ prec * 2 ^ e.toNat else m * 10 ^ prec
      let d := if 0 ≤ e then 1 else 2 ^ (-e).toNat
      let q := n / d
      let r := n % d
      let q := if d < 2 * r ∨ (2 * r = d ∧ q % 2 = 1) then q + 1 else q
      let ds := Nat.toDigits 10 q
      let ds := List.replicate (prec + 1 - ds.length) '0' ++ ds
      let ip := ds.take (ds.length - prec)
      let fp := ds.drop (ds.length - prec)
      (if neg then ['-'] else []) ++ ip ++ (if prec = 0 then [] else '.' :: fp)

/-- The Go function `strings.TrimRight(s, cutset)` for a one-character cutset. -/
def trimRight (s : List Char) (c : Char) : List Char :=
  (s.reverse.dropWhile (fun x => x == c)).reverse

/-- Digit value of a character in bases up to 36 (`strconv.ParseUint`), if it is a digit
or a letter. -/
def digitOf (c : Char) : Option Nat :=
  if '0' ≤ c ∧ c ≤ '9' then some (c.toNat - '0'.toNat)
  else if 'a' ≤ c ∧ c ≤ 'z' then some (c.toNat - 'a'.toNat + 10)
  else if 'A' ≤ c ∧ c ≤ 'Z' then some (c.toNat - 'A'.toNat + 10)
  else none

/-- The digit loop of `strconv.ParseUint(s, base, bitSize)` for an explicit base: `n` is
the value read so far. -/
def parseUintLoop (base bitSize : Nat) : List Char → Nat → Nat × Option Error
  | [], n => (n, none)
  | c :: cs, n =>
      match digitOf c with
      | none => (0, some .strconvSyntaxErr)
      | some d =>
          if base ≤ d then (0, some .strconvSyntaxErr)
          else if 2 ^ bitSize ≤ n * base + d then (2 ^ bitSize - 1, some .strconvRangeErr)
          else parseUintLoop base bitSize cs (n * base + d)

/-- The Go function `strconv.ParseUint(s, base, bitSize)` for `2 ≤ base ≤ 36`. -/
def ParseUint (s : List Char) (base bitSize : Nat) : Nat × Option Error :=
  match s with
  | [] => (0, some .strconvSyntaxErr)
  | _ => parseUintLoop base bitSize s 0

/-- The Go function `strconv.ParseInt(s, base, bitSize)` for `2 ≤ base ≤ 36`: an optional
sign, then `ParseUint`; a value out of range is clamped and reported with `ErrRange`. -/
def ParseInt (s : List Char) (base bitSize : Nat) : Int × Option Error :=
  match s with
  | [] => (0, some .strconvSyntaxErr)
  | c :: cs =>
      let neg := c == '-'
      let body := if c == '+' ∨ c == '-' then cs else c :: cs
      match ParseUint body base bitSize with
      | (_, some .strconvSyntaxErr) => (0, some .strconvSyntaxErr)
      | (un, _) =>
          let cutoff := 2 ^ (bitSize - 1)
          if ¬ neg ∧ cutoff ≤ un then ((cutoff : Int) - 1, some .strconvRangeErr)
          else if neg ∧ cutoff < un then (-(cutoff : Int), some .strconvRangeErr)
          else (if neg then -(un : Int) else (un : Int), none)

/-- Read a run of decimal digits: the value and the number of digits read so far are
carried along, the unread rest is returned. -/
def readDigits : List Char → Nat → Nat → Nat × Nat × List Char
  | [], acc, n => (acc, n, [])
  | c :: cs, acc, n =>
      if '0' ≤ c ∧ c ≤ '9' then readDigits cs (acc * 10 + (c.toNat - '0'.toNat)) (n + 1)
      else (acc, n, c :: cs)

/-- Case-insensitive test that `s` starts with the lower-case word `w`; returns the rest. -/
def dropWordIgnoreCase : List Char → List Char → Option (List Char)
  | s, [] => some s
  | [], _ :: _ => none
  | c :: cs, w :: ws => if c.toLower == w then dropWordIgnoreCase cs ws else none

/-- The special values accepted by `strconv.ParseFloat`: `NaN`, and an optionally signed
`Inf` or `Infinity`, case ignored, with nothing after them. -/
def parseFloatSpecial (s : List Char) : Option Float64 :=
  let signed := match s with
    | '+' :: r => some (false, r)
    | '-' :: r => some (true, r)
    | _ => none
  let body := match signed with
    | some (_, r) => r
    | none => s
  let neg := match signed with
    | some (b, _) => b
    | none => false
  if dropWordIgnoreCase body "infinity".data = some [] ∨ dropWordIgnoreCase body "inf".data = some [] then
    some (.inf neg)
  else if signed = none ∧ dropWordIgnoreCase s "nan".data = some [] then some .nan
  else none

/-- The decimal grammar of `strconv.ParseFloat`: sign, digits with at most one point and at
least one digit, optional exponent.  Returns sign, all mantissa digits as a number, and
the decimal exponent; `none` when the text is not of that form. -/
def readDecimalFloat (s : List Char) : Option (Bool × Nat × Int) :=
  let neg := match s with
    | '-' :: _ => true
    | _ => false
  let s1 := match s with
    | '+' :: r => r
    | '-' :: r => r
    | _ => s
  match readDigits s1 0 0 with
  | (a, na, r1) =>
      let afterPoint := match r1 with
        | '.' :: r => readDigits r a 0
        | _ => (a, 0, r1)
      match afterPoint with
      | (mant, nf, r2) =>
          if na + nf = 0 then none
          else
            match r2 with
            | [] => some (neg, mant, -(nf : Int))
            | c :: r3 =>
                if c == 'e' ∨ c == 'E' then
                  let eneg := match r3 with
                    | '-' :: _ => true
                    | _ => false
                  let r4 := match r3 with
                    | '+' :: r => r
                    | '-' :: r => r
                    | _ => r3
                  match readDigits r4 0 0 with
                  | (ev, ne, []) =>
                      if ne = 0 then none
                      else some (neg, mant, (if eneg then -(ev : Int) else (ev : Int)) - (nf : Int))
                  | _ => none
                else none

/-- The Go function `strconv.ParseFloat(s, 64)` on decimal literals and the special values:
the correctly rounded value, `ErrSyntax` for text outside the grammar, `ErrRange` (with an
infinity) on overflow.  Hexadecimal literals and digit-separating underscores, which
later Go releases also accept, are outside this model and read as `ErrSyntax`. -/
def ParseFloat (s : List Char) : Float64 × Option Error :=
  match parseFloatSpecial s with
  | some f => (f, none)
  | none =>
      match readDecimalFloat s with
      | none => (.finite false 0 0, some .strconvSyntaxErr)
      | some (neg, mant, ex) =>
          let f := if 0 ≤ ex then Float64.round neg (mant * 10 ^ ex.toNat) 1
                   else Float64.round neg mant (10 ^ (-ex).toNat)
          match f with
          | .inf _ => (f, some .strconvRangeErr)
          | _ => (f, none)

/-- The Go function `strconv.ParseBool`. -/
def ParseBool (s : List Char) : GoBool × Option Error :=
  if s = "1".data ∨ s = "t".data ∨ s = "T".data ∨ s = "TRUE".data ∨ s = "true".data
      ∨ s = "True".data then (true, none)
  else if s = "0".data ∨ s = "f".data ∨ s = "F".data ∨ s = "FALSE".data ∨ s = "false".data
      ∨ s = "False".data then (false, none)
  else (false, some .strconvSyntaxErr)

/-! ## The value tree (jsonvalue.go) -/

/-- The struct `JsonValue`.  The fields are, in the order of the source: `valueType`,
`stringValue`, `intValue`, `floatValue`, `boolValue`, `uintValue`, `objChildren`,
`arrChildren`, `mustSigned`, `mustUnsigned`, `mustFloat`. -/
inductive JsonValue where
  | mk (valueType : ValueType) (stringValue : GoString) (intValue : Int)
      (floatValue : Float64) (boolValue : GoBool) (uintValue : Nat)
      (objChildren : List (GoString × JsonValue)) (arrChildren : List JsonValue)
      (mustSigned mustUnsigned mustFloat : GoBool)

/-- Field `valueType`. -/
def JsonValue.valueType : JsonValue → ValueType
  | .mk vt _ _ _ _ _ _ _ _ _ _ => vt

/-- Field `stringValue`. -/
def JsonValue.stringValue : JsonValue → GoString
  | .mk _ s _ _ _ _ _ _ _ _ _ => s

/-- Field `intValue`. -/
def JsonValue.intValue : JsonValue → Int
  | .mk _ _ i _ _ _ _ _ _ _ _ => i

/-- Field `floatValue`. -/
def JsonValue.floatValue : JsonValue → Float64
  | .mk _ _ _ f _ _ _ _ _ _ _ => f

/-- Field `boolValue`. -/
def JsonValue.boolValue : JsonValue → GoBool
  | .mk _ _ _ _ b _ _ _ _ _ _ => b

/-- Field `uintValue`. -/
def JsonValue.uintValue : JsonValue → Nat
  | .mk _ _ _ _ _ u _ _ _ _ _ => u

/-- Field `objChildren`. -/
def JsonValue.objChildren : JsonValue → List (GoString × JsonValue)
  | .mk _ _ _ _ _ _ oc _ _ _ _ => oc

/-- Field `arrChildren`. -/
def JsonValue.arrChildren : JsonValue → List JsonValue
  | .mk _ _ _ _ _ _ _ ac _ _ _ => ac

/-- Field `mustSigned`. -/
def JsonValue.mustSigned : JsonValue → GoBool
  | .mk _ _ _ _ _ _ _ _ ms _ _ => ms

/-- Field `mustUnsigned`. -/
def JsonValue.mustUnsigned : JsonValue → GoBool
  | .mk _ _ _ _ _ _ _ _ _ mu _ => mu

/-- Field `mustFloat`. -/
def JsonValue.mustFloat : JsonValue → GoBool
  | .mk _ _ _ _ _ _ _ _ _ _ mf => mf

/-- The assignment `obj.objChildren = oc`. -/
def JsonValue.setObjChildren : JsonValue → List (GoString × JsonValue) → JsonValue
  | .mk vt s i f b u _ ac ms mu mf, oc => .mk vt s i f b u oc ac ms mu mf

/-- The assignment `obj.arrChildren = ac`. -/
def JsonValue.setArrChildren : JsonValue → List JsonValue → JsonValue
  | .mk vt s i f b u oc _ ms mu mf, ac => .mk vt s i f b u oc ac ms mu mf

/-- The zero value `new(JsonValue)`. -/
def JsonValue.zero : JsonValue :=
  .mk .NotExist "" 0 (.finite false 0 0) false 0 [] [] false false false

/-- Map read `m[k]` with the comma-ok result. -/
def mapLookup {α : Type} : List (GoString × α) → GoString → Option α
  | [], _ => none
  | (k, v) :: rest, key => if k = key then some v else mapLookup rest key

/-- Map write `m[k] = v`: an existing entry is overwritten, else a new entry is added. -/
def mapAssign {α : Type} : List (GoString × α) → GoString → α → List (GoString × α)
  | [], key, v => [(key, v)]
  | (k, w) :: rest, key, v =>
      if k = key then (k, v) :: rest else (k, w) :: mapAssign rest key v

/-- Map removal `delete(m, k)`. -/
def mapDelete {α : Type} : List (GoString × α) → GoString → List (GoString × α)
  | [], _ => []
  | (k, w) :: rest, key => if k = key then mapDelete rest key else (k, w) :: mapDelete rest key

/-- The keys of a map. -/
def mapKeys {α : Type} (m : List (GoString × α)) : List GoString := m.map Prod.fst

/-- An argument of dynamic type (`interface{}`) as the path functions tell them apart: a
`string`, a signed integer (`int8` … `int64`, `int`), an unsigned integer (`uint8` …
`uint64`, `uint`), or a value of any other type. -/
inductive PathArg where
  | str (s : GoString)
  | int (i : Int)
  | uint (u : Nat)
  | other
  deriving DecidableEq, Repr

/-- The call `reflect.ValueOf(x).Int()`: the value of a signed integer, a panic for every
other kind. -/
def reflectInt : PathArg → Except Error Int
  | .int i => .ok i
  | _ => .error .runtimePanic

/-- The method `Length` (and `Len`). -/
def JsonValue.Length (obj : JsonValue) : Nat :=
  if obj.valueType = .Array then obj.arrChildren.length
  else if obj.valueType = .Object then obj.objChildren.length
  else 0

/-- The method `IsNull`. -/
def JsonValue.IsNull (obj : JsonValue) : GoBool := decide (obj.valueType = .Null)

/-- The method `IsString`. -/
def JsonValue.IsString (obj : JsonValue) : GoBool := decide (obj.valueType = .String)

/-- The method `IsNumber`. -/
def JsonValue.IsNumber (obj : JsonValue) : GoBool := decide (obj.valueType = .Number)

/-- The method `IsObject`. -/
def JsonValue.IsObject (obj : JsonValue) : GoBool := decide (obj.valueType = .Object)

/-- The method `IsArray`. -/
def JsonValue.IsArray (obj : JsonValue) : GoBool := decide (obj.valueType = .Array)

/-- The method `IsBool` (and `IsBoollean`). -/
def JsonValue.IsBool (obj : JsonValue) : GoBool := decide (obj.valueType = .Boolean)

/-- The method `GetByKey(keys ...string)`. -/
def JsonValue.GetByKey (obj : JsonValue) : List GoString → Except Error JsonValue
  | [] => if obj.valueType ≠ .Object then .error .NotAnObjectError else .ok obj
  | [k] =>
      if obj.valueType ≠ .Object then .error .NotAnObjectError
      else match mapLookup obj.objChildren k with
        | none => .error .ObjectNotFoundError
        | some child => .ok child
  | k :: k2 :: ks =>
      if obj.valueType ≠ .Object then .error .NotAnObjectError
      else match mapLookup obj.objChildren k with
        | none => .error .ObjectNotFoundError
        | some first_child =>
            match first_child.GetByKey (k2 :: ks) with
            | .error _ => .error .ObjectNotFoundError
            | .ok child => .ok child

/-- The method `GetAtIndex(index int)`. -/
def JsonValue.GetAtIndex (obj : JsonValue) (index : Int) : Except Error JsonValue :=
  if obj.valueType = .Array then
    if 0 ≤ index ∧ index < (obj.Length : Int) then
      match obj.arrChildren.get? index.toNat with
      | some child => .ok child
      | none => .error .runtimePanic
    else .error .IndexOutOfBoundsError
  else .error .NotAnArrayError

/-- The method `Get(first interface{}, keys ...interface{})`.  The branches
`len(keys) == 1` and `len(keys) > 1` of the source make the same call,
`child.Get(keys[0], keys[1:]...)`, and are one case here. -/
def JsonValue.Get (obj : JsonValue) (first : PathArg) (keys : List PathArg) :
    Except Error JsonValue :=
  match first with
  | .str s =>
      match obj.GetByKey [s] with
      | .error err => .error err
      | .ok child =>
          match keys with
          | [] => .ok child
          | k0 :: ks => child.Get k0 ks
  | .int i =>
      match obj.GetAtIndex i with
      | .error err => .error err
      | .ok child =>
          match keys with
          | [] => .ok child
          | k0 :: ks => child.Get k0 ks
  | .uint _ => .error .runtimePanic
  | .other => .error .ParaError

/-! ## Mutation (jsonvalue.go)

`Get` hands out a pointer into the tree; a method called on that pointer changes the node
in place.  `putChild` and `putAt` store the changed node back in the slot `Get` read it
from. -/

/-- Store `child` in the slot of `this` that the path argument `p` addresses. -/
def JsonValue.putChild (this : JsonValue) (p : PathArg) (child : JsonValue) : JsonValue :=
  match p with
  | .str k => this.setObjChildren (mapAssign this.objChildren k child)
  | .int i => this.setArrChildren (this.arrChildren.set i.toNat child)
  | _ => this

/-- Store `node` at the place that `Get` reaches from `this` along `path`; the empty path
is `this` itself. -/
def JsonValue.putAt (this : JsonValue) : List PathArg → JsonValue → JsonValue
  | [], node => node
  | p :: ps, node =>
      match this.Get p [] with
      | .ok child => this.putChild p (child.putAt ps node)
      | .error _ => this

/-- The method `Set(newOne, first, keys...)`: the receiver after the call and the error.
The cases `1` and `default` of the source make the same call,
`child.Set(newOne, keys[0], keys[1:]...)`, and are one case here. -/
def JsonValue.Set (this newOne : JsonValue) (first : PathArg) (keys : List PathArg) :
    JsonValue × Option Error :=
  match keys with
  | [] =>
      match first with
      | .str key =>
          if this.IsObject then (this.setObjChildren (mapAssign this.objChildren key newOne), none)
          else (this, some .NotAnObjectError)
      | .int _ | .uint _ =>
          if this.IsArray then
            match reflectInt first with
            | .error e => (this, some e)
            | .ok index =>
                if 0 ≤ index ∧ index < (this.arrChildren.length : Int) then
                  (this.setArrChildren (this.arrChildren.set index.toNat newOne), none)
                else (this, some .runtimePanic)
          else (this, some .NotAnArrayError)
      | .other => (this, some .DataTypeError)
  | k0 :: ks =>
      match this.Get first [] with
      | .error err => (this, some err)
      | .ok child =>
          let r := child.Set newOne k0 ks
          (this.putChild first r.1, r.2)

/-- The branch `0 == len(keys)` of `Append`: the receiver itself is the target. -/
def JsonValue.appendHere (this newOne : JsonValue) : JsonValue × Option Error :=
  if this.valueType = .Array then (this.setArrChildren (this.arrChildren ++ [newOne]), none)
  else (this, some .NotAnArrayError)

/-- The method `Append(newOne, keys...)`; `newOne` is `none` for a nil pointer.  The inner
call `child.Append(newOne)` has no keys and is `appendHere`. -/
def JsonValue.Append (this : JsonValue) (newOne : Option JsonValue) (keys : List PathArg) :
    JsonValue × Option Error :=
  match newOne with
  | none => (this, some .ParaError)
  | some v =>
      match keys with
      | [] => this.appendHere v
      | k0 :: ks =>
          match this.Get k0 ks with
          | .error err => (this, some err)
          | .ok child =>
              let r := child.appendHere v
              (this.putAt (k0 :: ks) r.1, r.2)

/-- The branch `0 == keys_count` of `Insert`: the receiver itself is the target array and
`index` is the insertion index. -/
def JsonValue.insertHere (this newOne : JsonValue) (index : PathArg) : JsonValue × Option Error :=
  if this.valueType ≠ .Array then (this, some .NotAnArrayError)
  else
    match index with
    | .int _ | .uint _ =>
        match reflectInt index with
        | .error e => (this, some e)
        | .ok i =>
            if 0 ≤ i ∧ i < (this.arrChildren.length : Int) then
              (this.setArrChildren
                (this.arrChildren.take i.toNat ++ ([newOne] ++ this.arrChildren.drop i.toNat)), none)
            else (this, some .IndexOutOfBoundsError)
    | _ => (this, some .DataTypeError)

/-- The method `Insert(newOne, index, keys...)`; `newOne` is `none` for a nil pointer.
With keys, the target is `Get(index, keys[0])` when there is one key and
`Get(index, keys[:keys_count-2]...)` otherwise, and the inner call
`child.Insert(newOne, keys[keys_count-1])` has no keys and is `insertHere`. -/
def JsonValue.Insert (this : JsonValue) (newOne : Option JsonValue) (index : PathArg)
    (keys : List PathArg) : JsonValue × Option Error :=
  match newOne with
  | none => (this, some .ParaError)
  | some v =>
      match keys with
      | [] => this.insertHere v index
      | k0 :: ks =>
          let keys_count := (k0 :: ks).length
          let path := if keys_count = 1 then [k0] else (k0 :: ks).take (keys_count - 2)
          match this.Get index path with
          | .error err => (this, some err)
          | .ok child =>
              let r := child.insertHere v ((k0 :: ks).getLast (List.cons_ne_nil k0 ks))
              (this.putAt (index :: path) r.1, r.2)

/-- The second half of `Delete`: remove from `parent` what the last key names.  `first` is
the first argument of the call, which the integer branch reads through `reflect`. -/
def JsonValue.deleteChild (parent : JsonValue) (first last_key : PathArg) :
    JsonValue × Option Error :=
  match last_key with
  | .str last_key_str =>
      if parent.IsObject = false then (parent, some .ObjectNotFoundError)
      else
        match parent.Get (.str last_key_str) [] with
        | .error err => (parent, some err)
        | .ok _ => (parent.setObjChildren (mapDelete parent.objChildren last_key_str), none)
  | .int _ | .uint _ =>
      match reflectInt first with
      | .error e => (parent, some e)
      | .ok index =>
          if 0 ≤ index ∧ index < (parent.arrChildren.length : Int) then
            (parent.setArrChildren
              (parent.arrChildren.take index.toNat ++ parent.arrChildren.drop (index.toNat + 1)), none)
          else (parent, some .IndexOutOfBoundsError)
  | .other => (parent, some .DataTypeError)

/-- The method `Delete(first, keys...)`.  The parent is the receiver for no keys,
`Get(first)` for one key and `Get(first, keys[1:]...)` otherwise; every error of that `Get`
is returned as `ObjectNotFoundError`. -/
def JsonValue.Delete (obj : JsonValue) (first : PathArg) (keys : List PathArg) :
    JsonValue × Option Error :=
  match keys with
  | [] => obj.deleteChild first first
  | [k0] =>
      match obj.Get first [] with
      | .error .runtimePanic => (obj, some .runtimePanic)
      | .error _ => (obj, some .ObjectNotFoundError)
      | .ok parent =>
          let r := parent.deleteChild first k0
          (obj.putAt [first] r.1, r.2)
  | k0 :: k1 :: ks =>
      match obj.Get first (k1 :: ks) with
      | .error .runtimePanic => (obj, some .runtimePanic)
      | .error _ => (obj, some .ObjectNotFoundError)
      | .ok parent =>
          let r := parent.deleteChild first ((k0 :: k1 :: ks).getLast (List.cons_ne_nil k0 (k1 :: ks)))
          (obj.putAt (first :: k1 :: ks) r.1, r.2)

/-- The method `Swap(i, j int)`.  The guard compares both indices with the length only;
the exchange `arrChildren[i], arrChildren[j] = arrChildren[j], arrChildren[i]` reads both
elements before it writes, and panics on a negative index. -/
def JsonValue.Swap (this : JsonValue) (i j : Int) : JsonValue × Option Error :=
  if this.IsArray = false then (this, some .NotAnArrayError)
  else if (this.Length : Int) ≤ i ∨ (this.Length : Int) ≤ j then
    (this, some .IndexOutOfBoundsError)
  else if i < 0 ∨ j < 0 then (this, some .runtimePanic)
  else
    match this.arrChildren.get? i.toNat, this.arrChildren.get? j.toNat with
    | some x, some y =>
        (this.setArrChildren ((this.arrChildren.set i.toNat y).set j.toNat x), none)
    | _, _ => (this, some .runtimePanic)

/-! ## Constructors and number predicates (valueshortcuts.go) -/

/-- The function `NewString`. -/
def NewString (s : GoString) : JsonValue :=
  .mk .String s 0 (.finite false 0 0) false 0 [] [] false false false

/-- The function `NewInt64`. -/
def NewInt64 (i : Int) : JsonValue :=
  .mk .Number "" i (Float64.ofInt64 i) false (uint64OfInt64 i) [] []
    (decide (i < 0)) (decide (¬ i < 0)) false

/-- The function `NewUint64`. -/
def NewUint64 (i : Nat) : JsonValue :=
  .mk .Number "" (int64OfUint64 i) (Float64.ofUint64 i) false i [] []
    false (decide (i &&& 0x1000000000000000 ≠ 0)) false

/-- The function `NewFloat`. -/
def NewFloat (f : Float64) : JsonValue :=
  .mk .Number "" f.toInt64 f false 0 [] [] true false true

/-- The function `NewBool` (and `NewBoolean`). -/
def NewBool (b : GoBool) : JsonValue :=
  .mk .Boolean "" 0 (.finite false 0 0) b 0 [] [] false false false

/-- The function `NewNull`. -/
def NewNull : JsonValue :=
  .mk .Null "" 0 (.finite false 0 0) false 0 [] [] false false false

/-- The function `NewObject`. -/
def NewObject : JsonValue :=
  .mk .Object "" 0 (.finite false 0 0) false 0 [] [] false false false

/-- The function `NewArray`. -/
def NewArray : JsonValue :=
  .mk .Array "" 0 (.finite false 0 0) false 0 [] [] false false false

/-- The method `Int64`. -/
def JsonValue.Int64 (obj : JsonValue) : Int :=
  if obj.valueType = .Number then obj.intValue else 0

/-- The method `Uint64`. -/
def JsonValue.Uint64 (obj : JsonValue) : Nat :=
  if obj.valueType = .Number then obj.uintValue else 0

/-- The method `Float`. -/
def JsonValue.Float (obj : JsonValue) : Float64 :=
  if obj.valueType = .Number then obj.floatValue else .finite false 0 0

/-- The method `IsFloat`. -/
def JsonValue.IsFloat (this : JsonValue) : GoBool :=
  if this.IsNumber then this.mustFloat else false

/-- The method `IsUnsigned`. -/
def JsonValue.IsUnsigned (this : JsonValue) : GoBool :=
  if this.IsNumber then
    if this.mustFloat then false
    else if this.mustUnsigned then true
    else decide (0 ≤ this.Int64)
  else false

/-- The method `IsSigned`. -/
def JsonValue.IsSigned (this : JsonValue) : GoBool :=
  if this.IsNumber = false then false
  else
    if this.mustFloat then false
    else if this.mustUnsigned then false
    else decide (this.Int64 < 0)

/-- The method `String`. -/
def JsonValue.String (obj : JsonValue) : GoString :=
  if obj.valueType = .String then obj.stringValue else ""

/-- The method `Bool` (and `Boolean`). -/
def JsonValue.Bool (obj : JsonValue) : GoBool :=
  if obj.valueType = .Boolean then obj.boolValue else false

/-! ## Typed getters (valueshortcuts.go) -/

/-- The method `GetUint64(first, keys...)`: the value and the error. -/
def JsonValue.GetUint64 (obj : JsonValue) (first : PathArg) (keys : List PathArg) :
    Nat × Option Error :=
  match obj.Get first keys with
  | .error err => (0, some err)
  | .ok child =>
      if child.IsNumber = false then (0, some .NotANumberError)
      else (child.Uint64, none)

/-- The method `GetUint32(first, keys...)`, which converts the result of `GetUint64`. -/
def JsonValue.GetUint32 (obj : JsonValue) (first : PathArg) (keys : List PathArg) :
    Nat × Option Error :=
  ((obj.GetUint64 first keys).1 % 2 ^ 32, (obj.GetUint64 first keys).2)

/-- The method `GetUint(first, keys...)`.  Its body is
`ret, err := obj.GetUint(first, keys...); return uint(ret), err`: the first statement calls
`GetUint` itself with the same arguments.  The last argument bounds the depth of calls;
the result is `none` when that depth is used up before a call has returned. -/
def JsonValue.GetUint (obj : JsonValue) (first : PathArg) (keys : List PathArg) :
    Nat → Option (Nat × Option Error)
  | 0 => none
  | depth + 1 =>
      match obj.GetUint first keys depth with
      | none => none
      | some r => some (r.1 % 2 ^ 64, r.2)

/-! ## Options and text encoding (jsonconv.go) -/

/-- The type `Filter`. -/
inductive Filter where
  | Normal
  | IncludeMode
  | ExcludeMode
  deriving DecidableEq, Repr

/-- The type `Sort` (named `GoSort` here, `Sort` being a keyword). -/
inductive GoSort where
  | Random
  | DictAsc
  | DictDesc
  deriving DecidableEq, Repr

/-- The struct `Option` of the package (named `JsonOption` here, `Option` being taken). -/
structure JsonOption where
  ShowNull : GoBool
  FloatDigits : Nat
  SortMode : GoSort
  TimeDigits : Nat
  FilterMode : Filter
  FilterList : List GoString
  OverrideArray : GoBool
  OverrideObject : GoBool
  deriving DecidableEq, Repr

/-- The variable `dftOption`. -/
def dftOption : JsonOption :=
  { ShowNull := false, FloatDigits := 0, SortMode := .Random, TimeDigits := 0,
    FilterMode := .Normal, FilterList := [], OverrideArray := false, OverrideObject := false }

/-- The text `fmt.Sprintf("\\u%04x", chr)`. -/
def unicodeEscape (chr : Char) : List Char :=
  let ds := Nat.toDigits 16 chr.toNat
  '\x5c' :: 'u' :: (List.replicate (4 - ds.length) '0' ++ ds)

/-- One iteration of the loop of `escapeJsonString`: the text written for `chr`. -/
def escapeRune (chr : Char) (ensureAscii : GoBool) : List Char :=
  if chr = '\x22' then ['\x5c', '\x22']
  else if chr = '/' then ['\x5c', '/']
  else if chr = '\x08' then ['\x5c', 'b']
  else if chr = '\x0c' then ['\x5c', 'f']
  else if chr = '\t' then ['\x5c', 't']
  else if chr = '\n' then ['\x5c', 'n']
  else if chr = '\r' then ['\x5c', 'r']
  else if chr = '<' then (if ensureAscii then "\\u003c".data else ['<'])
  else if chr = '>' then (if ensureAscii then "\\u003e".data else ['>'])
  else if chr = '&' then (if ensureAscii then "\\u0026".data else ['&'])
  else if chr = '%' then "\\u0025".data
  else if ensureAscii ∧ chr.toNat > 0x127 then unicodeEscape chr
  else [chr]

/-- The function `escapeJsonString`, on the characters of the text. -/
def escapeJsonChars (s : List Char) (ensureAscii : GoBool) : List Char :=
  s.flatMap (fun chr => escapeRune chr ensureAscii)

/-- The function `escapeJsonString`. -/
def escapeJsonString (s : GoString) (ensureAscii : GoBool) : GoString :=
  ⟨escapeJsonChars s.data ensureAscii⟩

/-- The function `convertFloatToString`. -/
def convertFloatToString (f : Float64) (digits : Nat) : List Char :=
  if digits = 0 then trimRight (trimRight (f.formatF 6) '0') '.'
  else f.formatF digits

/-! ## Key order (valuesort.go) -/

/-- The test `strings.Compare(a, b) < 0`: byte-wise lexicographic order of the UTF-8
encodings, which is the lexicographic order of the scalar values. -/
def compareLess : List Char → List Char → GoBool
  | [], [] => false
  | [], _ :: _ => true
  | _ :: _, [] => false
  | x :: xs, y :: ys =>
      if x.toNat < y.toNat then true
      else if y.toNat < x.toNat then false
      else compareLess xs ys

/-- The method `Less` of `ascending` and of `descending`, on two keys. -/
def keyLess (mode : GoSort) (a b : GoString) : GoBool :=
  match mode with
  | .DictAsc => compareLess a.data b.data
  | .DictDesc => compareLess b.data a.data
  | .Random => false

/-- Insert a pair into a list ordered by `keyLess mode`. -/
def sortInsert {α : Type} (mode : GoSort) (p : GoString × α) :
    List (GoString × α) → List (GoString × α)
  | [] => [p]
  | q :: rest => if keyLess mode q.1 p.1 then q :: sortInsert mode p rest else p :: q :: rest

/-- The call `sort.Sort` on a list of pairs with the order `keyLess mode`.  The keys of a
map are distinct, so the ordered result does not depend on the sorting algorithm. -/
def sortPairs {α : Type} (mode : GoSort) : List (GoString × α) → List (GoString × α)
  | [] => []
  | p :: rest => sortInsert mode p (sortPairs mode rest)

/-- The function `sortObjects` on the entries of an object: the pairs in map order, sorted
for `DictAsc` and `DictDesc`, left as they are otherwise. -/
def sortObjects {α : Type} (entries : List (GoString × α)) (mode : GoSort) : List (GoString × α) :=
  match mode with
  | .Random => entries
  | _ => sortPairs mode entries

/-! ## Marshal (jsonvalue.go) -/

/-- The closure `marshal_child_func` run over the members in emission order: each member
is its key, whether the child is null, and the text the child's own `marshalToBuffer`
wrote.  `is_first` is the flag of the source. -/
def emitObjectMembers (showNull : GoBool) :
    List (GoString × GoBool × List Char) → GoBool → List Char
  | [], _ => []
  | (key, isNull, text) :: rest, is_first =>
      if isNull ∧ showNull = false then emitObjectMembers showNull rest is_first
      else
        (if is_first then [] else [',']) ++ ('\x22' :: (escapeJsonString key true).data)
          ++ ['\x22', ':'] ++ text ++ emitObjectMembers showNull rest false

/-- The loop over `arrChildren` in `marshalToBuffer`, each child given by whether it is
null and the text its own `marshalToBuffer` wrote. -/
def emitArrayMembers (showNull : GoBool) : List (GoBool × List Char) → GoBool → List Char
  | [], _ => []
  | (isNull, text) :: rest, is_first =>
      if isNull ∧ showNull = false then emitArrayMembers showNull rest is_first
      else (if is_first then [] else [',']) ++ text ++ emitArrayMembers showNull rest false

mutual
/-- The method `marshalToBuffer` under the option `opt`: the text written to the buffer
and the returned error.  A child writes to the shared buffer exactly the text it would
write to a buffer of its own, so the children's texts are computed first
(`marshalObjChildren`, `marshalArrChildren`) and emitted in the order of the source; the
error of a child is dropped, as in the source. -/
def JsonValue.marshalWith (opt : JsonOption) : JsonValue → List Char × Option Error
  | .mk vt s i f b u oc ac _ mu mf =>
      match vt with
      | .String => ('\x22' :: (escapeJsonString s true).data ++ ['\x22'], none)
      | .Number =>
          if mf then (convertFloatToString f opt.FloatDigits, none)
          else if mu then (FormatUint u, none)
          else if Float64.eq (Float64.ofInt64 i) f then (FormatInt i, none)
          else (convertFloatToString f opt.FloatDigits, none)
      | .Null => ("null".data, none)
      | .Boolean =>
          if b then ("true".data, none) else ("false".data, none)
      | .Object =>
          ('\x7b' :: emitObjectMembers opt.ShowNull
              (sortObjects (marshalObjChildren opt oc) opt.SortMode) true ++ ['\x7d'], none)
      | .Array => ('[' :: emitArrayMembers opt.ShowNull (marshalArrChildren opt ac) true ++ [']'], none)
      | _ => ([], some .JsonTypeError)
/-- The members of an object in map order: key, `IsNull` of the child, text of the child. -/
def marshalObjChildren (opt : JsonOption) :
    List (GoString × JsonValue) → List (GoString × GoBool × List Char)
  | [] => []
  | (key, child) :: rest =>
      (key, child.IsNull, (child.marshalWith opt).1) :: marshalObjChildren opt rest
/-- The elements of an array in order: `IsNull` of the child, text of the child. -/
def marshalArrChildren (opt : JsonOption) : List JsonValue → List (GoBool × List Char)
  | [] => []
  | child :: rest => (child.IsNull, (child.marshalWith opt).1) :: marshalArrChildren opt rest
end

/-! ## Merge (valuemerge.go) -/

/-- The method `copyFrom`: seven fields are copied; `uintValue`, `mustSigned`,
`mustUnsigned` and `mustFloat` of the receiver stay. -/
def JsonValue.copyFrom : JsonValue → JsonValue → JsonValue
  | .mk _ _ _ _ _ u _ _ ms mu mf, .mk vt s i f b _ oc ac _ _ _ => .mk vt s i f b u oc ac ms mu mf

mutual
/-- The method `MergeFrom` for a source that is not nil, under the option `opt`: the
receiver `dst` after the call and the returned error. -/
def JsonValue.mergeFromNode (opt : JsonOption) (dst : JsonValue) :
    JsonValue → JsonValue × Option Error
  | .mk vt s i f b u oc ac ms mu mf =>
      match dst.valueType with
      | .String | .Number | .Boolean | .Null =>
          (dst.copyFrom (.mk vt s i f b u oc ac ms mu mf), none)
      | .Object =>
          if vt ≠ .Object then (dst.copyFrom (.mk vt s i f b u oc ac ms mu mf), none)
          else if opt.OverrideObject then (dst.copyFrom (.mk vt s i f b u oc ac ms mu mf), none)
          else (mergeEachChild opt dst oc, none)
      | .Array =>
          if vt ≠ .Array then (dst.copyFrom (.mk vt s i f b u oc ac ms mu mf), none)
          else if opt.OverrideArray then (dst.copyFrom (.mk vt s i f b u oc ac ms mu mf), none)
          else (dst.setArrChildren (dst.arrChildren ++ ac), none)
      | _ => (dst, some .JsonTypeError)
/-- The loop `from.ObjectForeach(...)` of `MergeFrom` over the entries of the source: a key
that `to.Get` does not find is `Set`, a key it finds is merged into the child found. -/
def mergeEachChild (opt : JsonOption) (dst : JsonValue) : List (GoString × JsonValue) → JsonValue
  | [] => dst
  | (key, value) :: rest =>
      match dst.Get (.str key) [] with
      | .error _ => mergeEachChild opt (dst.Set value (.str key) []).1 rest
      | .ok to_child =>
          mergeEachChild opt (dst.putChild (.str key) (to_child.mergeFromNode opt value).1) rest
end

/-- The method `MergeFrom(from, optList...)`; `src` is `none` for a nil pointer. -/
def JsonValue.MergeFrom (dst : JsonValue) (src : Option JsonValue) (optList : List JsonOption) :
    JsonValue × Option Error :=
  match src with
  | none => (dst, none)
  | some node =>
      match optList with
      | [] => dst.mergeFromNode dftOption node
      | opt :: _ => dst.mergeFromNode opt node

/-- The method `marshalToBuffer(buff, opts...)`: the text written and the error. -/
def JsonValue.marshalToBuffer (obj : JsonValue) (opts : List JsonOption) : List Char × Option Error :=
  match opts with
  | [] => obj.marshalWith dftOption
  | opt :: _ => obj.marshalWith opt

/-- The method `MarshalToString(opts...)`. -/
def JsonValue.MarshalToString (obj : JsonValue) (opts : List JsonOption) : GoString × Option Error :=
  match obj.marshalToBuffer opts with
  | (_, some err) => ("", some err)
  | (buff, none) => (⟨buff⟩, none)

/-! ## Parsing (jsonvalue.go) -/

/-- The variable `escapeMap`. -/
def escapeMap (chr : Char) : Option Char :=
  if chr = '\x22' then some '\x22'
  else if chr = '/' then some '/'
  else if chr = 'b' then some '\x08'
  else if chr = 'f' then some '\x0c'
  else if chr = 't' then some '\t'
  else if chr = 'n' then some '\n'
  else none

/-- Number of bytes of the UTF-8 encoding of a character. -/
def runeLen (c : Char) : Nat :=
  if c.toNat < 0x80 then 1 else if c.toNat < 0x800 then 2 else if c.toNat < 0x10000 then 3 else 4

/-- Number of bytes of a text (`len(s)`). -/
def byteLen (s : List Char) : Nat := (s.map runeLen).sum

/-- The character `WriteRune(rune(unicode))` writes: the scalar value itself, and U+FFFD
for a number that is not a scalar value. -/
def runeOfInt (unicode : Int) : Char :=
  if h : unicode.toNat.isValidChar ∧ 0 ≤ unicode then Char.ofNatAux unicode.toNat h.1
  else Char.ofNat 0xFFFD

/-- The loop of `stringFromEscapedBytes` over the characters still to read, with the
variables `escaping` and `skip` and the buffer `b` of the source.  In the case `'u'` the
source tests `i+5 > len(s)` on bytes and parses the four bytes `s[i+1 : i+5]`; these are
the next four characters when those are ASCII, and otherwise hold a byte that is no
digit, as does the list of the next four characters, so `ParseInt` fails alike. -/
def unescapeLoop : List Char → GoBool → Nat → List Char → Except Error (List Char)
  | [], escaping, _, b => .ok (if escaping then b ++ ['\x5c'] else b)
  | chr :: rest, escaping, skip, b =>
      if 0 < skip then unescapeLoop rest escaping (skip - 1) b
      else if escaping then
        if chr = '\x22' ∨ chr = '/' ∨ chr = 'b' ∨ chr = 'f' ∨ chr = 't' ∨ chr = 'n' ∨ chr = 'r' then
          match escapeMap chr with
          | some write_chr => unescapeLoop rest false 0 (b ++ [write_chr])
          | none => unescapeLoop rest false 0 b
        else if chr = 'u' then
          if byteLen rest < 4 then .error .JsonFormatError
          else
            match ParseInt (rest.take 4) 16 32 with
            | (_, some err) => .error err
            | (unicode, none) => unescapeLoop rest false 4 (b ++ [runeOfInt unicode])
        else unescapeLoop rest false 0 (b ++ ['\x5c', chr])
      else if chr = '\x5c' then unescapeLoop rest true 0 b
      else unescapeLoop rest false 0 (b ++ [chr])

/-- The function `stringFromEscapedBytes`. -/
def stringFromEscapedBytes (input : List Char) : Except Error GoString :=
  match unescapeLoop input false 0 [] with
  | .ok b => .ok ⟨b⟩
  | .error err => .error err

/-- The tokenizer `github.com/buger/jsonparser`, which is not part of the package.
`ObjectEach data` is the list of `(key, value, dataType)` triples the callback is called
with, in source order, and the error the tokenizer itself ends with; `ArrayEach data` is
the list of `(value, dataType)` pairs the callback is called with. -/
structure Tokenizer where
  ObjectEach : List Char → List (List Char × List Char × ValueType) × Option Error
  ArrayEach : List Char → List (List Char × ValueType)

/-- A parser of a nested span: receiver before, span, receiver after and error. -/
abbrev SpanParser := JsonValue → List Char → JsonValue × Option Error

/-- The closure `add_child` of `parseObject`. -/
def add_child (obj : JsonValue) (key : List Char) (child : JsonValue) : JsonValue × Option Error :=
  match stringFromEscapedBytes key with
  | .ok key_str => (obj.setObjChildren (mapAssign obj.objChildren key_str child), none)
  | .error key_err => (obj, some key_err)

/-- The callback that `parseObject` passes to `ObjectEach`, for one member; `parseObject`
and `parseArray` are the methods called on a nested span. -/
def parseObjectCallback (parseObject parseArray : SpanParser) (obj : JsonValue)
    (key value : List Char) (dataType : ValueType) : JsonValue × Option Error :=
  match dataType with
  | .String =>
      match stringFromEscapedBytes value with
      | .error err => (obj, some err)
      | .ok str_value => add_child obj key (NewString str_value)
  | .Number =>
      match ParseInt value 10 64 with
      | (_, some _) => (obj, none)
      | (i, none) =>
          match ParseFloat value with
          | (_, some _) => (obj, none)
          | (f, none) => add_child obj key (.mk .Number "" i f false 0 [] [] false false false)
  | .Object =>
      match parseObject NewObject value with
      | (_, some err) => (obj, some err)
      | (child, none) => add_child obj key child
  | .Array =>
      match parseArray NewArray value with
      | (_, some err) => (obj, some err)
      | (child, none) => add_child obj key child
  | .Boolean =>
      match ParseBool value with
      | (_, some err) => (obj, some err)
      | (b, none) => add_child obj key (NewBool b)
  | .Null => add_child obj key NewNull
  | _ => (obj, none)

/-- The loop of `jsonparser.ObjectEach` over the members: it stops at the first error the
callback returns. -/
def objectEachLoop (parseObject parseArray : SpanParser) :
    JsonValue → List (List Char × List Char × ValueType) → JsonValue × Option Error
  | obj, [] => (obj, none)
  | obj, (key, value, dataType) :: rest =>
      match parseObjectCallback parseObject parseArray obj key value dataType with
      | (obj1, some err) => (obj1, some err)
      | (obj1, none) => objectEachLoop parseObject parseArray obj1 rest

/-- The callback that `parseArray` passes to `ArrayEach`, for one element.  The state is
the receiver and the named result `err`, which the callback may overwrite. -/
def parseArrayCallback (parseObject parseArray : SpanParser) (st : JsonValue × Option Error)
    (value : List Char) (dataType : ValueType) : JsonValue × Option Error :=
  match dataType with
  | .String =>
      match stringFromEscapedBytes value with
      | .error loc_err => (st.1, some loc_err)
      | .ok str_value => (st.1.setArrChildren (st.1.arrChildren ++ [NewString str_value]), st.2)
  | .Number =>
      (st.1.setArrChildren (st.1.arrChildren ++
        [.mk .Number "" (ParseInt value 10 64).1 (ParseFloat value).1 false 0 [] []
          false false false]), st.2)
  | .Object =>
      match parseObject NewObject value with
      | (_, some err) => (st.1, some err)
      | (child, none) => (st.1.setArrChildren (st.1.arrChildren ++ [child]), none)
  | .Array =>
      match parseArray NewArray value with
      | (_, some err) => (st.1, some err)
      | (child, none) => (st.1.setArrChildren (st.1.arrChildren ++ [child]), none)
  | .Boolean =>
      match ParseBool value with
      | (_, some loc_err) => (st.1, some loc_err)
      | (b, none) => (st.1.setArrChildren (st.1.arrChildren ++ [NewBool b]), st.2)
  | .Null => (st.1.setArrChildren (st.1.arrChildren ++ [NewNull]), st.2)
  | _ => st

/-- The loop of `jsonparser.ArrayEach` over the elements; the callback has no result. -/
def arrayEachLoop (parseObject parseArray : SpanParser) :
    JsonValue × Option Error → List (List Char × ValueType) → JsonValue × Option Error
  | st, [] => st
  | st, (value, dataType) :: rest =>
      arrayEachLoop parseObject parseArray (parseArrayCallback parseObject parseArray st value dataType) rest

mutual
/-- The method `parseObject(data)` with the tokenizer `tk`.  The first argument bounds the
nesting depth: a tokenizer hands back spans shorter than its input, so the length of the
input is never used up; used up, the call is a run-time failure (stack exhaustion). -/
def JsonValue.parseObject (tk : Tokenizer) : Nat → SpanParser
  | 0, obj, _ => (obj, some .runtimePanic)
  | depth + 1, obj, data =>
      match objectEachLoop (JsonValue.parseObject tk depth) (JsonValue.parseArray tk depth) obj
          (tk.ObjectEach data).1 with
      | (obj1, some err) => (obj1, some err)
      | (obj1, none) => (obj1, (tk.ObjectEach data).2)
/-- The method `parseArray(data)` with the tokenizer `tk`; the first argument as for
`parseObject`. -/
def JsonValue.parseArray (tk : Tokenizer) : Nat → SpanParser
  | 0, obj, _ => (obj, some .runtimePanic)
  | depth + 1, obj, data =>
      if byteLen data < 2 then (obj, some .JsonFormatError)
      else if data.getLast? ≠ some ']' then (obj, some .JsonFormatError)
      else
        arrayEachLoop (JsonValue.parseObject tk depth) (JsonValue.parseArray tk depth) (obj, none)
          (tk.ArrayEach data)
end

/-- The number branch of `NewFromString`, on the text `s[index:]` whose first character
is `chr`. -/
def newNumber (chr : Char) (text : List Char) : Except Error JsonValue :=
  match ParseFloat text with
  | (_, some err) => .error err
  | (floatValue, none) =>
      let mustSigned := decide (chr = '-')
      match ParseInt text 10 64 with
      | (intValue, none) =>
          .ok (.mk .Number "" intValue floatValue false (uint64OfInt64 intValue) [] []
            mustSigned false false)
      | (intValue, some .strconvRangeErr) =>
          match ParseUint text 10 64 with
          | (_, some err) => .error err
          | (uintValue, none) =>
              .ok (.mk .Number "" intValue floatValue false uintValue [] [] mustSigned true false)
      | (_, some _) =>
          .ok (.mk .Number "" floatValue.toInt64 floatValue false
            (uint64OfInt64 floatValue.toInt64) [] [] mustSigned false true)

/-- The Go function `strings.IndexRune(s, '\x22')` followed by the slice `s[:next]`: the text
before the first double quote, if there is one. -/
def beforeQuote : List Char → Option (List Char)
  | [] => none
  | c :: rest =>
      if c = '\x22' then some []
      else match beforeQuote rest with
        | none => none
        | some t => some (c :: t)

/-- The loop of `NewFromString` over the characters of `s` from `index` on. -/
def newFromChars (tk : Tokenizer) : List Char → Except Error JsonValue
  | [] => .error .JsonFormatError
  | chr :: rest =>
      if chr = ' ' ∨ chr = '\r' ∨ chr = '\n' ∨ chr = '\t' then newFromChars tk rest
      else if chr = '\x7b' then
        match JsonValue.parseObject tk (chr :: rest).length NewObject (chr :: rest) with
        | (_, some err) => .error err
        | (obj, none) => .ok obj
      else if chr = '[' then
        match JsonValue.parseArray tk (chr :: rest).length NewArray (chr :: rest) with
        | (_, some err) => .error err
        | (obj, none) => .ok obj
      else if ('0' ≤ chr ∧ chr ≤ '9') ∨ chr = '-' then newNumber chr (chr :: rest)
      else if chr = '\x22' then
        match beforeQuote rest with
        | none => .error .JsonFormatError
        | some text => .ok (.mk .String ⟨text⟩ 0 (.finite false 0 0) false 0 [] [] false false false)
      else if chr = 't' then
        if chr :: rest = "true".data then
          .ok (.mk .Boolean "" 0 (.finite false 0 0) true 0 [] [] false false false)
        else .error .JsonFormatError
      else if chr = 'f' then
        if chr :: rest = "false".data then
          .ok (.mk .Boolean "" 0 (.finite false 0 0) false 0 [] [] false false false)
        else .error .JsonFormatError
      else if chr = 'n' then
        if chr :: rest = "null".data then
          .ok (.mk .Null "" 0 (.finite false 0 0) false 0 [] [] false false false)
        else .error .JsonFormatError
      else newFromChars tk rest

/-- The function `NewFromString` (and `NewFromBytes`) with the tokenizer `tk`. -/
def NewFromString (tk : Tokenizer) (s : GoString) : Except Error JsonValue :=
  newFromChars tk s.data

/-! ## Definitions that follow the wording of the specification -/

/-- A path segment as the specification has it (§4.4): a text key or a signed integer
index. -/
inductive Segment where
  | key (k : GoString)
  | index (i : Int)
  deriving DecidableEq, Repr

/-- The dynamic argument that carries a segment. -/
def Segment.toArg : Segment → PathArg
  | .key k => .str k
  | .index i => .int i

/-- One step of `Get` in the words of the specification (§4.4): a text segment against a
non-object fails `NotAnObjectError`, a missing key fails `ObjectNotFoundError`, an integer
segment against a non-array fails `NotAnArrayError`, an out-of-range index fails
`IndexOutOfBoundsError`; otherwise the step reaches the child. -/
def stepSpec (v : JsonValue) : Segment → Except Error JsonValue
  | .key k =>
      if v.valueType ≠ .Object then .error .NotAnObjectError
      else match mapLookup v.objChildren k with
        | none => .error .ObjectNotFoundError
        | some child => .ok child
  | .index i =>
      if v.valueType ≠ .Array then .error .NotAnArrayError
      else if h : i < 0 ∨ (v.arrChildren.length : Int) ≤ i then .error .IndexOutOfBoundsError
      else .ok (v.arrChildren.get ⟨i.toNat, by
        simp only [not_or, not_lt, not_le] at h
        exact (Int.toNat_lt h.1).2 h.2⟩)

/-- The walk of a path in the words of the specification (§4.4): the segments are taken
left to right, the empty path is the receiver, the first failing step ends the walk. -/
def walkSpec (v : JsonValue) : List Segment → Except Error JsonValue
  | [] => .ok v
  | p :: ps =>
      match stepSpec v p with
      | .error err => .error err
      | .ok child => walkSpec child ps

/-- An array node with the given children. -/
def arrayOf (children : List JsonValue) : JsonValue := NewArray.setArrChildren children

/-- An object node with the given entries. -/
def objectOf (entries : List (GoString × JsonValue)) : JsonValue := NewObject.setObjChildren entries

/-! ## Example documents -/

/-- What the tokenizer reports, by its contract (§6 of the specification), for the example
documents used below: one `(key, raw value, coarse type)` triple per member, in source
order.  Other spans are reported empty. -/
def exampleTokenizer : Tokenizer where
  ObjectEach := fun data =>
    if data = "\x7b\"x\":1.5\x7d".data then ([("x".data, "1.5".data, .Number)], none)
    else if data = "\x7b\"a\":1\x7d".data then ([("a".data, "1".data, .Number)], none)
    else if data = "\x7b\"a\":0,\"b\":2\x7d".data then
      ([("a".data, "0".data, .Number), ("b".data, "2".data, .Number)], none)
    else ([], none)
  ArrayEach := fun _ => []

/-- The tree a successful parse returned, `NewObject` standing in after an error. -/
def parsed (r : Except Error JsonValue) : JsonValue :=
  match r with
  | .ok v => v
  | .error _ => NewObject

/-- The document `{"arr":[1]}`. -/
def docArr : JsonValue := objectOf [("arr", arrayOf [NewInt64 1])]

/-- The document `{"a":{"arr":[1]}}`. -/
def docNestedArr : JsonValue := objectOf [("a", objectOf [("arr", arrayOf [NewInt64 1])])]

/-- The document `{"a":{"b":{"c":1},"c":{"c":3}}}`. -/
def docAbc : JsonValue :=
  objectOf [("a", objectOf [("b", objectOf [("c", NewInt64 1)]), ("c", objectOf [("c", NewInt64 3)])])]

/-- The document `[[10],[20,30]]`. -/
def docRows : JsonValue := arrayOf [arrayOf [NewInt64 10], arrayOf [NewInt64 20, NewInt64 30]]

/-- The characters on which `NewFromString` dispatches (§4.2 of the specification): an
opening brace or bracket, a digit or minus sign, a double quote, and `t`, `f`, `n`. -/
def isSignificant (c : Char) : GoBool :=
  decide (c = '\x7b' ∨ c = '[' ∨ ('0' ≤ c ∧ c ≤ '9') ∨ c = '-' ∨ c = '\x22' ∨ c = 't' ∨ c = 'f'
    ∨ c = 'n')

/-- The value of a decimal integer literal without sign, given by its digits. -/
def decimalValue (ds : List Char) : Nat :=
  ds.foldl (fun acc c => acc * 10 + (c.toNat - '0'.toNat)) 0

/-- The value of a hexadecimal digit, `none` for any other character. -/
def hexDigitValue (c : Char) : Option Nat :=
  if '0' ≤ c ∧ c ≤ '9' then some (c.toNat - '0'.toNat)
  else if 'a' ≤ c ∧ c ≤ 'f' then some (c.toNat - 'a'.toNat + 10)
  else if 'A' ≤ c ∧ c ≤ 'F' then some (c.toNat - 'A'.toNat + 10)
  else none

/-- The characters that the encoder never leaves raw (§4.3 of the specification): `<`,
`>`, `&`, `%` and the control characters backspace, form feed, tab, line feed, carriage
return. -/
def mustNotStayRaw (c : Char) : GoBool :=
  decide (c = '<' ∨ c = '>' ∨ c = '&' ∨ c = '%' ∨ c = '\x08' ∨ c = '\x0c' ∨ c = '\t' ∨ c = '\n'
    ∨ c = '\r')

/-- The text of one object member: the quoted escaped key, a colon, the value's text. -/
def memberText (key : GoString) (text : List Char) : List Char :=
  ('\x22' :: (escapeJsonString key true).data) ++ ['\x22', ':'] ++ text

/-- The children that are emitted under `ShowNull = showNull`: all of them when it is
set, those that are not null otherwise. -/
def isEmitted (showNull : GoBool) (isNull : GoBool) : GoBool := showNull || !isNull

/-- Texts joined by exactly one comma between neighbours: none before the first, none
after the last, the empty text for no texts. -/
def joinWithComma : List (List Char) → List Char
  | [] => []
  | [x] => x
  | x :: y :: rest => x ++ ',' :: joinWithComma (y :: rest)

/-- The method `Int`; `int` is 64 bits wide, the conversion `int(obj.intValue)` changes
nothing. -/
def JsonValue.Int (obj : JsonValue) : Int :=
  if obj.valueType = .Number then obj.intValue else 0

/-! # Theorems -/

/-! ## Field lemmas -/

@[simp] theorem valueType_setObjChildren (v : JsonValue) (m : List (GoString × JsonValue)) :
    (v.setObjChildren m).valueType = v.valueType := by
  cases v; rfl

@[simp] theorem objChildren_setObjChildren (v : JsonValue) (m : List (GoString × JsonValue)) :
    (v.setObjChildren m).objChildren = m := by
  cases v; rfl

@[simp] theorem arrChildren_setObjChildren (v : JsonValue) (m : List (GoString × JsonValue)) :
    (v.setObjChildren m).arrChildren = v.arrChildren := by
  cases v; rfl

@[simp] theorem valueType_setArrChildren (v : JsonValue) (l : List JsonValue) :
    (v.setArrChildren l).valueType = v.valueType := by
  cases v; rfl

@[simp] theorem arrChildren_setArrChildren (v : JsonValue) (l : List JsonValue) :
    (v.setArrChildren l).arrChildren = l := by
  cases v; rfl

@[simp] theorem objChildren_setArrChildren (v : JsonValue) (l : List JsonValue) :
    (v.setArrChildren l).objChildren = v.objChildren := by
  cases v; rfl

@[simp] theorem setArrChildren_setArrChildren (v : JsonValue) (l l2 : List JsonValue) :
    (v.setArrChildren l).setArrChildren l2 = v.setArrChildren l2 := by
  cases v; rfl

theorem setArrChildren_self (v : JsonValue) : v.setArrChildren v.arrChildren = v := by
  cases v; rfl

theorem setArrChildren_inj (v : JsonValue) (l l2 : List JsonValue)
    (h : v.setArrChildren l = v.setArrChildren l2) : l = l2 := by
  have := congrArg JsonValue.arrChildren h
  simpa using this

/-! ## Navigation: `Get` and the walk of the specification -/

theorem Get_one_step (obj : JsonValue) (p : Segment) :
    obj.Get p.toArg [] = stepSpec obj p := by
  cases p with
  | key k =>
      simp only [Segment.toArg, JsonValue.Get, JsonValue.GetByKey, stepSpec]
      by_cases hv : obj.valueType = .Object
      · simp only [hv, ne_eq, not_true_eq_false, if_false]
        cases mapLookup obj.objChildren k <;> rfl
      · simp [hv]
  | index i =>
      simp only [Segment.toArg, JsonValue.Get, JsonValue.GetAtIndex, stepSpec, JsonValue.Length]
      by_cases hv : obj.valueType = .Array
      · simp only [hv, ne_eq, not_true_eq_false, if_false, if_true]
        by_cases hr : i < 0 ∨ (obj.arrChildren.length : Int) ≤ i
        · have : ¬ (0 ≤ i ∧ i < (obj.arrChildren.length : Int)) := by omega
          simp [hr, this]
        · have h2 : 0 ≤ i ∧ i < (obj.arrChildren.length : Int) := by omega
          have h3 : i.toNat < obj.arrChildren.length := (Int.toNat_lt h2.1).2 h2.2
          simp [hr, h2, List.get?_eq_get h3]
      · simp [hv]

theorem Get_eq_walkSpec (obj : JsonValue) (p : Segment) (ps : List Segment) :
    obj.Get p.toArg (ps.map Segment.toArg) = walkSpec obj (p :: ps) := by
  induction ps generalizing obj p with
  | nil =>
      rw [List.map_nil, Get_one_step, walkSpec]
      cases stepSpec obj p <;> rfl
  | cons q qs ih =>
      have h1 := Get_one_step obj p
      rw [walkSpec, ← h1]
      cases p with
      | key k =>
          simp only [Segment.toArg, JsonValue.Get, List.map_cons]
          cases obj.GetByKey [k] with
          | error e => rfl
          | ok c => simp only []; exact ih c q
      | index i =>
          simp only [Segment.toArg, JsonValue.Get, List.map_cons]
          cases obj.GetAtIndex i with
          | error e => rfl
          | ok c => simp only []; exact ih c q

/-- C1: for every tree and every non-empty path of text keys and signed integer indices,
`Get` is the left-to-right walk of the specification: it returns the child reached when
every step succeeds and otherwise the error of the first failing step
(`NotAnObjectError`, `ObjectNotFoundError`, `NotAnArrayError`, `IndexOutOfBoundsError`);
and `GetAtIndex(5)` on every two-element array fails with `IndexOutOfBoundsError`. -/
theorem Get_walks_path :
    (∀ (obj : JsonValue) (p : Segment) (ps : List Segment),
      obj.Get p.toArg (ps.map Segment.toArg) = walkSpec obj (p :: ps)) ∧
    (∀ a b : JsonValue, (arrayOf [a, b]).GetAtIndex 5 = .error .IndexOutOfBoundsError) :=
  ⟨Get_eq_walkSpec, fun _ _ => rfl⟩

/-! ## `Set` and `Insert` on an array -/

/-- C2 (the code departs from the claim): on an array, `Set(value, i)` with `i < 0` or
`i >= Length` does not return `IndexOutOfBoundsError`: the unchecked slot assignment
panics, the array as it was; with `0 <= i < Length` it overwrites slot `i` only. -/
theorem Set_index_unchecked (a v : JsonValue) (i : Int) (ha : a.valueType = .Array) :
    ((i < 0 ∨ (a.arrChildren.length : Int) ≤ i) →
      a.Set v (.int i) [] = (a, some .runtimePanic)) ∧
    ((0 ≤ i ∧ i < (a.arrChildren.length : Int)) →
      a.Set v (.int i) [] = (a.setArrChildren (a.arrChildren.set i.toNat v), none)) := by
  constructor
  · intro h
    have h2 : ¬ (0 ≤ i ∧ i < (a.arrChildren.length : Int)) := by omega
    simp [JsonValue.Set, JsonValue.IsArray, ha, reflectInt, h2]
  · intro h
    simp [JsonValue.Set, JsonValue.IsArray, ha, reflectInt, h]

/-- C2, at the failing input: `Set(9, 5)` on the array `[1, 2]` panics. -/
theorem Set_index_unchecked_witness :
    (arrayOf [NewInt64 1, NewInt64 2]).Set (NewInt64 9) (.int 5) []
      = (arrayOf [NewInt64 1, NewInt64 2], some .runtimePanic) :=
  (Set_index_unchecked (arrayOf [NewInt64 1, NewInt64 2]) (NewInt64 9) 5 rfl).1 (by decide)

/-- C9 (the code departs from the claim): on an array of length `n`, `Insert(v, i)` with an
index of a signed integer type and `0 <= i < n` succeeds and the array becomes
`a[0..i) ++ [v] ++ a[i..n)`, of length `n + 1`; with `i < 0` or `i >= n` (every index on an
empty array) it returns `IndexOutOfBoundsError` and the array is unchanged.  With an index
of an unsigned integer type, which the type switch admits as well, the call
`reflect.ValueOf(index).Int()` panics whatever the index is, in range or not, and the
array is as it was. -/
theorem Insert_at_index (a v : JsonValue) (i : Int) (ha : a.valueType = .Array) :
    ((0 ≤ i ∧ i < (a.arrChildren.length : Int)) →
      a.Insert (some v) (.int i) []
          = (a.setArrChildren (a.arrChildren.take i.toNat ++ [v] ++ a.arrChildren.drop i.toNat), none)
        ∧ (a.Insert (some v) (.int i) []).1.arrChildren.length = a.arrChildren.length + 1) ∧
    ((i < 0 ∨ (a.arrChildren.length : Int) ≤ i) →
      a.Insert (some v) (.int i) [] = (a, some .IndexOutOfBoundsError)) ∧
    (∀ u : Nat, a.Insert (some v) (.uint u) [] = (a, some .runtimePanic)) := by
  refine ⟨?_, ?_, ?_⟩
  · intro h
    have h3 : i.toNat ≤ a.arrChildren.length := by omega
    simp [JsonValue.Insert, JsonValue.insertHere, ha, reflectInt, h, List.length_take,
      List.length_drop]
    omega
  · intro h
    have h2 : ¬ (0 ≤ i ∧ i < (a.arrChildren.length : Int)) := by omega
    simp [JsonValue.Insert, JsonValue.insertHere, ha, reflectInt, h2]
  · intro u
    simp [JsonValue.Insert, JsonValue.insertHere, ha, reflectInt]

/-- C9, on `[1, 2]`: `Insert(9, 1)` gives `[1, 9, 2]`, `Insert(9, 2)` is out of bounds, and
at the failing input `Insert(9, uint(0))` panics although the index is in range. -/
theorem Insert_at_index_witness :
    (arrayOf [NewInt64 1, NewInt64 2]).Insert (some (NewInt64 9)) (.int 1) []
        = (arrayOf [NewInt64 1, NewInt64 9, NewInt64 2], none) ∧
    (arrayOf [NewInt64 1, NewInt64 2]).Insert (some (NewInt64 9)) (.int 2) []
        = (arrayOf [NewInt64 1, NewInt64 2], some .IndexOutOfBoundsError) ∧
    (arrayOf [NewInt64 1, NewInt64 2]).Insert (some (NewInt64 9)) (.uint 0) []
        = (arrayOf [NewInt64 1, NewInt64 2], some .runtimePanic) :=
  ⟨((Insert_at_index (arrayOf [NewInt64 1, NewInt64 2]) (NewInt64 9) 1 rfl).1 (by decide)).1,
   (Insert_at_index (arrayOf [NewInt64 1, NewInt64 2]) (NewInt64 9) 2 rfl).2.1 (by decide),
   (Insert_at_index (arrayOf [NewInt64 1, NewInt64 2]) (NewInt64 9) 0 rfl).2.2 0⟩


/-! ## Map lemmas -/

theorem mapLookup_mapAssign {α : Type} (m : List (GoString × α)) (k : GoString) (v : α)
    (k2 : GoString) :
    mapLookup (mapAssign m k v) k2 = if k = k2 then some v else mapLookup m k2 := by
  induction m with
  | nil => simp [mapAssign, mapLookup]
  | cons e rest ih =>
      obtain ⟨a, w⟩ := e
      by_cases hak : a = k
      · subst hak
        by_cases hk : a = k2 <;> simp [mapAssign, mapLookup, hk]
      · by_cases hk : k = k2
        · subst hk
          simp [mapAssign, mapLookup, hak, ih]
        · simp [mapAssign, mapLookup, hak, ih, hk]

theorem mem_mapKeys_iff {α : Type} (m : List (GoString × α)) (k : GoString) :
    k ∈ mapKeys m ↔ mapLookup m k ≠ none := by
  induction m with
  | nil => simp [mapKeys, mapLookup]
  | cons e rest ih =>
      obtain ⟨a, w⟩ := e
      by_cases hak : a = k
      · simp [mapKeys, mapLookup, hak]
      · have hka : ¬ k = a := fun h => hak h.symm
        simp only [mapKeys, List.map_cons, List.mem_cons, hka, false_or, mapLookup, hak, if_false]
        exact ih

/-! ## Merge -/

theorem Get_key_of_object (dst : JsonValue) (key : GoString) (h : dst.valueType = .Object) :
    dst.Get (.str key) [] =
      match mapLookup dst.objChildren key with
      | none => .error .ObjectNotFoundError
      | some child => .ok child := by
  have := Get_one_step dst (.key key)
  simp only [Segment.toArg, stepSpec, h, ne_eq, not_true_eq_false, if_false] at this
  exact this

theorem mergeEachChild_valueType (opt : JsonOption) (es : List (GoString × JsonValue)) :
    ∀ dst : JsonValue, (mergeEachChild opt dst es).valueType = dst.valueType := by
  induction es with
  | nil => intro dst; simp [mergeEachChild]
  | cons e rest ih =>
      intro dst
      obtain ⟨key, value⟩ := e
      rw [mergeEachChild]
      cases hg : dst.Get (.str key) [] with
      | error err =>
          simp only []
          rw [ih]
          simp only [JsonValue.Set]
          split <;> simp
      | ok c =>
          simp only []
          rw [ih]
          simp [JsonValue.putChild]

theorem mergeEachChild_lookup (opt : JsonOption) (es : List (GoString × JsonValue))
    (hnd : (mapKeys es).Nodup) :
    ∀ dst : JsonValue, dst.valueType = .Object → ∀ k : GoString,
      mapLookup (mergeEachChild opt dst es).objChildren k =
        match mapLookup es k with
        | none => mapLookup dst.objChildren k
        | some v =>
            match mapLookup dst.objChildren k with
            | none => some v
            | some c => some (c.mergeFromNode opt v).1 := by
  induction es with
  | nil => intro dst _ k; simp [mergeEachChild, mapLookup]
  | cons e rest ih =>
      obtain ⟨key, value⟩ := e
      have hnd2 : (mapKeys rest).Nodup := (List.nodup_cons.mp hnd).2
      have hnot : mapLookup rest key = none := by
        have h1 : key ∉ mapKeys rest := (List.nodup_cons.mp hnd).1
        by_contra hc
        exact h1 ((mem_mapKeys_iff rest key).2 hc)
      intro dst hdst k
      rw [mergeEachChild, Get_key_of_object dst key hdst]
      cases hl : mapLookup dst.objChildren key with
      | none =>
          simp only []
          have hset : (dst.Set value (.str key) []).1
              = dst.setObjChildren (mapAssign dst.objChildren key value) := by
            simp [JsonValue.Set, JsonValue.IsObject, hdst]
          rw [hset, ih hnd2 _ (by simp [hdst]) k]
          simp only [objChildren_setObjChildren, mapLookup_mapAssign, mapLookup]
          by_cases hk : key = k
          · subst hk
            simp [hnot, hl]
          · simp [hk]
      | some c =>
          simp only []
          rw [ih hnd2 _ (by simp [JsonValue.putChild, hdst]) k]
          simp only [JsonValue.putChild, objChildren_setObjChildren, mapLookup_mapAssign, mapLookup]
          by_cases hk : key = k
          · subst hk
            simp [hnot, hl]
          · simp [hk]


theorem MergeFrom_objects_eq (d s : JsonValue) (opt : JsonOption)
    (hd : d.valueType = .Object) (hs : s.valueType = .Object) (ho : opt.OverrideObject = false) :
    d.MergeFrom (some s) [opt] = (mergeEachChild opt d s.objChildren, none) := by
  cases s with
  | mk vt st i f b u oc ac ms mu mf =>
      simp only [JsonValue.valueType] at hs
      subst hs
      simp [JsonValue.MergeFrom, JsonValue.mergeFromNode, hd, ho, JsonValue.objChildren]

/-- C6: merging a source object into a destination object with `OverrideObject = false`
succeeds and leaves an object whose key set is the union of both key sets; a key only in
the destination keeps its child, a key only in the source gets the source's child, and a
key in both gets the destination's child after the source's child has been merged into it
with the same options.  The keys of the source are distinct, as the keys of a Go map
are. -/
theorem MergeFrom_object_per_key (d s : JsonValue) (opt : JsonOption)
    (hd : d.valueType = .Object) (hs : s.valueType = .Object)
    (ho : opt.OverrideObject = false) (hnd : (mapKeys s.objChildren).Nodup) :
    (d.MergeFrom (some s) [opt]).2 = none ∧
    (d.MergeFrom (some s) [opt]).1.valueType = .Object ∧
    (∀ k, k ∈ mapKeys (d.MergeFrom (some s) [opt]).1.objChildren ↔
      (k ∈ mapKeys d.objChildren ∨ k ∈ mapKeys s.objChildren)) ∧
    (∀ k, k ∉ mapKeys s.objChildren →
      mapLookup (d.MergeFrom (some s) [opt]).1.objChildren k = mapLookup d.objChildren k) ∧
    (∀ k v, mapLookup s.objChildren k = some v → k ∉ mapKeys d.objChildren →
      mapLookup (d.MergeFrom (some s) [opt]).1.objChildren k = some v) ∧
    (∀ k v c, mapLookup s.objChildren k = some v → mapLookup d.objChildren k = some c →
      mapLookup (d.MergeFrom (some s) [opt]).1.objChildren k
        = some (c.MergeFrom (some v) [opt]).1) := by
  rw [MergeFrom_objects_eq d s opt hd hs ho]
  have hl := mergeEachChild_lookup opt s.objChildren hnd d hd
  refine ⟨rfl, ?_, ?_, ?_, ?_, ?_⟩
  · simpa [hd] using mergeEachChild_valueType opt s.objChildren d
  · intro k
    rw [mem_mapKeys_iff, mem_mapKeys_iff, mem_mapKeys_iff]
    simp only []
    rw [hl k]
    cases h1 : mapLookup s.objChildren k <;> cases h2 : mapLookup d.objChildren k <;> simp
  · intro k hk
    have h1 : mapLookup s.objChildren k = none := by
      by_contra hc
      exact hk ((mem_mapKeys_iff _ k).2 hc)
    simp only []
    rw [hl k, h1]
  · intro k v hv hk
    have h2 : mapLookup d.objChildren k = none := by
      by_contra hc
      exact hk ((mem_mapKeys_iff _ k).2 hc)
    simp only []
    rw [hl k, hv, h2]
  · intro k v c hv hc
    simp only []
    rw [hl k, hv, hc]
    rfl

/-- C6, on the example: merging the parsed `{"a":1}` into the parsed `{"a":0,"b":2}` with
both override flags false gives a tree that marshals, keys ascending, as
`{"a":1,"b":2}`; its key set is the union. -/
theorem MergeFrom_object_per_key_witness :
    ((parsed (NewFromString exampleTokenizer "\x7b\"a\":0,\"b\":2\x7d")).MergeFrom
        (some (parsed (NewFromString exampleTokenizer "\x7b\"a\":1\x7d"))) [dftOption]).1.MarshalToString
        [{ dftOption with SortMode := .DictAsc }] = ("\x7b\"a\":1,\"b\":2\x7d", none) ∧
    (∀ k, k ∈ mapKeys ((parsed (NewFromString exampleTokenizer "\x7b\"a\":0,\"b\":2\x7d")).MergeFrom
        (some (parsed (NewFromString exampleTokenizer "\x7b\"a\":1\x7d"))) [dftOption]).1.objChildren ↔
      (k ∈ mapKeys (parsed (NewFromString exampleTokenizer "\x7b\"a\":0,\"b\":2\x7d")).objChildren ∨
        k ∈ mapKeys (parsed (NewFromString exampleTokenizer "\x7b\"a\":1\x7d")).objChildren)) :=
  ⟨by rfl,
   (MergeFrom_object_per_key (parsed (NewFromString exampleTokenizer "\x7b\"a\":0,\"b\":2\x7d"))
      (parsed (NewFromString exampleTokenizer "\x7b\"a\":1\x7d")) dftOption (by rfl) (by rfl) (by rfl)
      (by decide)).2.2.1⟩

/-- C7: merging a source array into a destination array with `OverrideArray = false`
leaves the destination's children followed by the source's children; the merge is not
idempotent: repeating it appends the source's children once more, and changes the result
whenever the source is not empty. -/
theorem MergeFrom_array_appends (d s : JsonValue) (opt : JsonOption)
    (hd : d.valueType = .Array) (hs : s.valueType = .Array) (ho : opt.OverrideArray = false) :
    d.MergeFrom (some s) [opt] = (d.setArrChildren (d.arrChildren ++ s.arrChildren), none) ∧
    (d.MergeFrom (some s) [opt]).1.arrChildren.length
      = d.arrChildren.length + s.arrChildren.length ∧
    ((d.MergeFrom (some s) [opt]).1.MergeFrom (some s) [opt]).1.arrChildren
      = d.arrChildren ++ s.arrChildren ++ s.arrChildren ∧
    (s.arrChildren ≠ [] →
      ((d.MergeFrom (some s) [opt]).1.MergeFrom (some s) [opt]).1 ≠ (d.MergeFrom (some s) [opt]).1) := by
  have key : ∀ x : JsonValue, x.valueType = .Array →
      x.MergeFrom (some s) [opt] = (x.setArrChildren (x.arrChildren ++ s.arrChildren), none) := by
    intro x hx
    cases s with
    | mk vt st i f b u oc ac ms mu mf =>
        simp only [JsonValue.valueType] at hs
        subst hs
        simp [JsonValue.MergeFrom, JsonValue.mergeFromNode, hx, ho, JsonValue.arrChildren]
  have h2 := key (d.setArrChildren (d.arrChildren ++ s.arrChildren)) (by simp [hd])
  refine ⟨key d hd, ?_, ?_, ?_⟩
  · rw [key d hd]; simp
  · rw [key d hd]; simp only []; rw [h2]; simp
  · intro hne
    rw [key d hd]; simp only []; rw [h2]
    simp only [arrChildren_setArrChildren, setArrChildren_setArrChildren]
    intro h
    have := setArrChildren_inj _ _ _ h
    have hlen := congrArg List.length this
    simp only [List.length_append] at hlen
    have : s.arrChildren.length = 0 := by omega
    exact hne (List.length_eq_zero.mp this)

/-- C7, on the example: merging `[1,2]` into `[0]` gives `[0,1,2]`, and merging `[1,2]`
into that gives `[0,1,2,1,2]`. -/
theorem MergeFrom_array_appends_witness :
    (arrayOf [NewInt64 0]).MergeFrom (some (arrayOf [NewInt64 1, NewInt64 2])) [dftOption]
        = (arrayOf [NewInt64 0, NewInt64 1, NewInt64 2], none) ∧
    ((arrayOf [NewInt64 0]).MergeFrom (some (arrayOf [NewInt64 1, NewInt64 2])) [dftOption]).1.MarshalToString []
        = ("[0,1,2]", none) ∧
    (((arrayOf [NewInt64 0]).MergeFrom (some (arrayOf [NewInt64 1, NewInt64 2])) [dftOption]).1.MergeFrom
        (some (arrayOf [NewInt64 1, NewInt64 2])) [dftOption]).1.MarshalToString []
        = ("[0,1,2,1,2]", none) :=
  ⟨(MergeFrom_array_appends (arrayOf [NewInt64 0]) (arrayOf [NewInt64 1, NewInt64 2]) dftOption
      rfl rfl rfl).1, by rfl, by rfl⟩


/-! ## Behaviour at the inputs where the code departs from the specification -/

/-- C3 (the code departs from the claim): a tokenizer reports the member of `{"x":1.5}` as
the key `x` with the raw value `1.5` of coarse type number; `parseObject` then drops the
member, because `strconv.ParseInt` rejects the text and the callback returns without
adding a child: the parse succeeds with an empty object and `Get("x")` fails with
`ObjectNotFoundError`.  The callback does so for every receiver. -/
theorem parseObject_drops_fraction (tk : Tokenizer)
    (h : tk.ObjectEach "\x7b\"x\":1.5\x7d".data = ([("x".data, "1.5".data, .Number)], none)) :
    NewFromString tk "\x7b\"x\":1.5\x7d" = .ok NewObject ∧
    NewObject.Get (.str "x") [] = .error .ObjectNotFoundError ∧
    (∀ (po pa : SpanParser) (obj : JsonValue),
      parseObjectCallback po pa obj "x".data "1.5".data .Number = (obj, none)) := by
  refine ⟨?_, rfl, fun _ _ _ => rfl⟩
  have hp : JsonValue.parseObject tk 9 NewObject "\x7b\"x\":1.5\x7d".data = (NewObject, none) := by
    rw [JsonValue.parseObject, h]
    rfl
  have hn : NewFromString tk "\x7b\"x\":1.5\x7d"
      = (match JsonValue.parseObject tk 9 NewObject "\x7b\"x\":1.5\x7d".data with
          | (_, some err) => .error err
          | (obj, none) => .ok obj) := rfl
  rw [hn, hp]

/-- C3, with the tokenizer output of the example: `{"x":1.5}` parses to the empty
object. -/
theorem parseObject_drops_fraction_witness :
    NewFromString exampleTokenizer "\x7b\"x\":1.5\x7d" = .ok NewObject :=
  (parseObject_drops_fraction exampleTokenizer rfl).1

/-- C4 (the code departs from the claim): the valid text `"/"` parses to the string `/`,
which marshals as `"\/"`, which parses to the two-character string `\/`: the re-parsed tree
differs from the tree marshaled.  Likewise `1.0` parses with `mustFloat` set and marshals
as `1`, which parses with `mustFloat` clear.  Inside an array the string U+1F600, which
`parseArray` builds from the raw value U+1F600, marshals as `\u1f600`, and `parseArray`
builds from that raw value the two-character string U+1F60, `0`. -/
theorem roundtrip_changes_tree (tk : Tokenizer) :
    NewFromString tk "\"/\"" = .ok (NewString "/") ∧
    (NewString "/").MarshalToString [] = ("\"\\/\"", none) ∧
    NewFromString tk "\"\\/\"" = .ok (NewString "\\/") ∧
    NewString "\\/" ≠ NewString "/" ∧
    (parsed (NewFromString tk "1.0")).mustFloat = true ∧
    (parsed (NewFromString tk "1.0")).MarshalToString [] = ("1", none) ∧
    (parsed (NewFromString tk "1")).mustFloat = false ∧
    (∀ po pa : SpanParser,
      parseArrayCallback po pa (NewArray, none) [Char.ofNat 0x1F600] .String
        = (arrayOf [NewString ⟨[Char.ofNat 0x1F600]⟩], none)) ∧
    (arrayOf [NewString ⟨[Char.ofNat 0x1F600]⟩]).MarshalToString [] = ("[\"\\u1f600\"]", none) ∧
    (∀ po pa : SpanParser,
      parseArrayCallback po pa (NewArray, none) "\\u1f600".data .String
        = (arrayOf [NewString ⟨[Char.ofNat 0x1F60, '0']⟩], none)) := by
  refine ⟨rfl, rfl, rfl, ?_, rfl, rfl, rfl, fun _ _ => rfl, rfl, fun _ _ => rfl⟩
  intro h
  have := congrArg JsonValue.stringValue h
  exact absurd this (by decide)

/-- C5 (the code departs from the claim): `copyFrom` leaves `uintValue` and the three
number flags of the destination in place.  Merging `NewInt64(5)` into `NewInt64(7)` leaves
a value that marshals as `7`, with `Uint64() = 7`; merging `NewFloat(1.5)` into
`NewInt64(-3)` leaves a value with `mustFloat` clear. -/
theorem MergeFrom_scalar_keeps_flags :
    (NewInt64 5).MarshalToString [] = ("5", none) ∧
    ((NewInt64 7).MergeFrom (some (NewInt64 5)) []).1.MarshalToString [] = ("7", none) ∧
    ((NewInt64 7).MergeFrom (some (NewInt64 5)) []).1.Int64 = 5 ∧
    ((NewInt64 7).MergeFrom (some (NewInt64 5)) []).1.Uint64 = 7 ∧
    (NewFloat (.finite false 3 (-1))).mustFloat = true ∧
    ((NewInt64 (-3)).MergeFrom (some (NewFloat (.finite false 3 (-1)))) []).1.mustFloat = false ∧
    ((NewInt64 (-3)).MergeFrom (some (NewFloat (.finite false 3 (-1)))) []).1.IsFloat = false := by
  refine ⟨rfl, rfl, rfl, rfl, rfl, rfl, rfl⟩

/-- C8 (the code departs from the claim): with one path segment `Insert` resolves
`Get(p1, atIndex)`, the element at the insertion index, and with more segments it resolves
`Get(p1 … p(n-1))`, the parent of the array.  On `{"arr":[1]}` the call
`Insert(v, "arr", 0)` fails with `NotAnArrayError` and on `{"a":{"arr":[1]}}` so does
`Insert(v, "a", "arr", 0)`; the tree is unchanged, although `Get` resolves the array and a
direct `Insert(v, 0)` on it gives `[v, 1]`. -/
theorem Insert_with_path_misses_array :
    docArr.Insert (some (NewInt64 7)) (.str "arr") [.int 0] = (docArr, some .NotAnArrayError) ∧
    docNestedArr.Insert (some (NewInt64 7)) (.str "a") [.str "arr", .int 0]
      = (docNestedArr, some .NotAnArrayError) ∧
    docArr.Get (.str "arr") [] = .ok (arrayOf [NewInt64 1]) ∧
    (arrayOf [NewInt64 1]).Insert (some (NewInt64 7)) (.int 0) []
      = (arrayOf [NewInt64 7, NewInt64 1], none) := by
  refine ⟨rfl, rfl, rfl, rfl⟩

/-- C10 (the code departs from the claim): `Delete` reads the index of an integer terminal
from its first argument and, with three or more segments, resolves the parent through
`Get(first, keys[1:]...)`, which skips the second segment.  `Delete("arr", 0)` on
`{"arr":[1]}` panics; `Delete(1, 0)` on `[[10],[20,30]]` removes element `1` of the second
row; `Delete("a","b","c")` on `{"a":{"b":{"c":1},"c":{"c":3}}}` removes key `c` of the
object at `a.c` and leaves the object at `a.b` as it was. -/
theorem Delete_with_path_misses_entry :
    docArr.Delete (.str "arr") [.int 0] = (docArr, some .runtimePanic) ∧
    docRows.Delete (.int 1) [.int 0]
      = (arrayOf [arrayOf [NewInt64 10], arrayOf [NewInt64 20]], none) ∧
    docAbc.Delete (.str "a") [.str "b", .str "c"]
      = (objectOf [("a", objectOf [("b", objectOf [("c", NewInt64 1)]), ("c", objectOf [])])],
          none) := by
  refine ⟨rfl, rfl, rfl⟩


/-! ## `Delete`, `Swap` and `Set` on the receiver itself -/

/-- C11: on an array of length `n`, `Delete(i)` with the signed index `i` as the only
path segment and `0 <= i < n` succeeds and the array becomes `a[0..i) ++ a[i+1..n)`, of
length `n - 1`; with `i < 0` or `i >= n` it returns `IndexOutOfBoundsError` and the array
is unchanged. -/
theorem Delete_at_index (a : JsonValue) (i : Int) (ha : a.valueType = .Array) :
    ((0 ≤ i ∧ i < (a.arrChildren.length : Int)) →
      a.Delete (.int i) []
          = (a.setArrChildren (a.arrChildren.take i.toNat ++ a.arrChildren.drop (i.toNat + 1)), none)
        ∧ (a.Delete (.int i) []).1.arrChildren.length + 1 = a.arrChildren.length
        ∧ (a.Delete (.int i) []).1.valueType = .Array) ∧
    ((i < 0 ∨ (a.arrChildren.length : Int) ≤ i) →
      a.Delete (.int i) [] = (a, some .IndexOutOfBoundsError)) := by
  constructor
  · intro h
    have h3 : i.toNat < a.arrChildren.length := by omega
    simp [JsonValue.Delete, JsonValue.deleteChild, reflectInt, h, List.length_take,
      List.length_drop, ha]
    omega
  · intro h
    have h2 : ¬ (0 ≤ i ∧ i < (a.arrChildren.length : Int)) := by omega
    simp [JsonValue.Delete, JsonValue.deleteChild, reflectInt, h2]

/-- C11, on `[1, 2, 3]`: `Delete(1)` gives `[1, 3]`, and `Delete(3)` is out of bounds. -/
theorem Delete_at_index_witness :
    (arrayOf [NewInt64 1, NewInt64 2, NewInt64 3]).Delete (.int 1) []
        = (arrayOf [NewInt64 1, NewInt64 3], none) ∧
    (arrayOf [NewInt64 1, NewInt64 2, NewInt64 3]).Delete (.int 3) []
        = (arrayOf [NewInt64 1, NewInt64 2, NewInt64 3], some .IndexOutOfBoundsError) :=
  ⟨((Delete_at_index (arrayOf [NewInt64 1, NewInt64 2, NewInt64 3]) 1 rfl).1 (by decide)).1,
   (Delete_at_index (arrayOf [NewInt64 1, NewInt64 2, NewInt64 3]) 3 rfl).2 (by decide)⟩

/-- C12 (the code departs from the claim): `Swap(i, j)` returns `NotAnArrayError` on a value
that is not an array, returns `IndexOutOfBoundsError` and changes nothing when an index is
`>= length`, and exchanges the two elements when both indices are in range; but with both
indices below the length and one of them negative it does not return
`IndexOutOfBoundsError`: the unchecked element access panics. -/
theorem Swap_negative_unchecked (v : JsonValue) (i j : Int) :
    (v.valueType ≠ .Array → v.Swap i j = (v, some .NotAnArrayError)) ∧
    (v.valueType = .Array → ((v.arrChildren.length : Int) ≤ i ∨ (v.arrChildren.length : Int) ≤ j) →
      v.Swap i j = (v, some .IndexOutOfBoundsError)) ∧
    (v.valueType = .Array → i < (v.arrChildren.length : Int) → j < (v.arrChildren.length : Int) →
      (i < 0 ∨ j < 0) → v.Swap i j = (v, some .runtimePanic)) ∧
    (v.valueType = .Array → ∀ (hi : 0 ≤ i ∧ i < (v.arrChildren.length : Int))
        (hj : 0 ≤ j ∧ j < (v.arrChildren.length : Int)),
      v.Swap i j = (v.setArrChildren
        ((v.arrChildren.set i.toNat (v.arrChildren.get ⟨j.toNat, (Int.toNat_lt hj.1).2 hj.2⟩)).set
          j.toNat (v.arrChildren.get ⟨i.toNat, (Int.toNat_lt hi.1).2 hi.2⟩)), none)) := by
  refine ⟨?_, ?_, ?_, ?_⟩
  · intro h
    simp [JsonValue.Swap, JsonValue.IsArray, h]
  · intro h hr
    simp [JsonValue.Swap, JsonValue.IsArray, JsonValue.Length, h, hr]
  · intro h hi hj hn
    have h2 : ¬ ((v.arrChildren.length : Int) ≤ i ∨ (v.arrChildren.length : Int) ≤ j) := by omega
    simp [JsonValue.Swap, JsonValue.IsArray, JsonValue.Length, h, h2, hn]
  · intro h hi hj
    have h2 : ¬ ((v.arrChildren.length : Int) ≤ i ∨ (v.arrChildren.length : Int) ≤ j) := by omega
    have h3 : ¬ (i < 0 ∨ j < 0) := by omega
    have hi2 : i.toNat < v.arrChildren.length := (Int.toNat_lt hi.1).2 hi.2
    have hj2 : j.toNat < v.arrChildren.length := (Int.toNat_lt hj.1).2 hj.2
    simp [JsonValue.Swap, JsonValue.IsArray, JsonValue.Length, h, h2, h3,
      List.getElem?_eq_getElem hi2, List.getElem?_eq_getElem hj2]

/-- C12, at the failing input: `Swap(-1, 0)` on the array `[1, 2]` panics; `Swap(0, 1)`
gives `[2, 1]`. -/
theorem Swap_negative_unchecked_witness :
    (arrayOf [NewInt64 1, NewInt64 2]).Swap (-1) 0
        = (arrayOf [NewInt64 1, NewInt64 2], some .runtimePanic) ∧
    (arrayOf [NewInt64 1, NewInt64 2]).Swap 0 1 = (arrayOf [NewInt64 2, NewInt64 1], none) :=
  ⟨(Swap_negative_unchecked (arrayOf [NewInt64 1, NewInt64 2]) (-1) 0).2.2.1 rfl (by decide)
      (by decide) (by decide),
   (Swap_negative_unchecked (arrayOf [NewInt64 1, NewInt64 2]) 0 1).2.2.2 rfl (by decide)
      (by decide)⟩

theorem length_mapAssign {α : Type} (m : List (GoString × α)) (k : GoString) (v : α) :
    (mapAssign m k v).length = if (mapLookup m k).isNone then m.length + 1 else m.length := by
  induction m with
  | nil => simp [mapAssign, mapLookup]
  | cons e rest ih =>
      obtain ⟨a, w⟩ := e
      by_cases hak : a = k
      · simp [mapAssign, mapLookup, hak]
      · simp only [mapAssign, mapLookup, hak, if_false, List.length_cons, ih]
        split <;> rfl

/-- C13: on an object, `Set(v, k)` succeeds; afterwards `Get(k)` returns `v`, every other
key resolves as before, and `Length` has grown by one exactly when `k` was absent.  On a
receiver that is not an object `Set(v, k)` returns `NotAnObjectError` and changes
nothing. -/
theorem Set_key (o v : JsonValue) (k : GoString) :
    (o.valueType = .Object →
      (o.Set v (.str k) []).2 = none ∧
      (o.Set v (.str k) []).1.Get (.str k) [] = .ok v ∧
      (∀ k2, k2 ≠ k → (o.Set v (.str k) []).1.Get (.str k2) [] = o.Get (.str k2) []) ∧
      (o.Set v (.str k) []).1.Length
        = (if (mapLookup o.objChildren k).isNone then o.Length + 1 else o.Length)) ∧
    (o.valueType ≠ .Object → o.Set v (.str k) [] = (o, some .NotAnObjectError)) := by
  constructor
  · intro h
    have hs : o.Set v (.str k) [] = (o.setObjChildren (mapAssign o.objChildren k v), none) := by
      simp [JsonValue.Set, JsonValue.IsObject, h]
    rw [hs]
    have ho2 : (o.setObjChildren (mapAssign o.objChildren k v)).valueType = .Object := by
      simp [h]
    refine ⟨rfl, ?_, ?_, ?_⟩
    · simp only []
      rw [Get_key_of_object _ k ho2]
      simp [mapLookup_mapAssign]
    · intro k2 hk
      simp only []
      rw [Get_key_of_object _ k2 ho2, Get_key_of_object _ k2 h]
      have : ¬ k = k2 := fun e => hk e.symm
      simp [mapLookup_mapAssign, this]
    · simp [JsonValue.Length, h, length_mapAssign]
  · intro h
    simp [JsonValue.Set, JsonValue.IsObject, h]

/-- C13, on `{"a":1}`: setting the absent key `b` makes the length `2`, setting the present
key `a` keeps it `1`; on an array `Set(v, "a")` is `NotAnObjectError`. -/
theorem Set_key_witness :
    ((objectOf [("a", NewInt64 1)]).Set (NewInt64 2) (.str "b") []).1.Length = 2 ∧
    ((objectOf [("a", NewInt64 1)]).Set (NewInt64 2) (.str "a") []).1.Length = 1 ∧
    ((objectOf [("a", NewInt64 1)]).Set (NewInt64 2) (.str "a") []).1.Get (.str "a") []
      = .ok (NewInt64 2) ∧
    (arrayOf []).Set (NewInt64 2) (.str "a") [] = (arrayOf [], some .NotAnObjectError) :=
  ⟨((Set_key (objectOf [("a", NewInt64 1)]) (NewInt64 2) "b").1 rfl).2.2.2,
   ((Set_key (objectOf [("a", NewInt64 1)]) (NewInt64 2) "a").1 rfl).2.2.2,
   ((Set_key (objectOf [("a", NewInt64 1)]) (NewInt64 2) "a").1 rfl).2.1,
   (Set_key (arrayOf []) (NewInt64 2) "a").2 (by decide)⟩


/-! ## The entry point `NewFromString` -/

theorem newFromChars_skip (tk : Tokenizer) (c : Char) (rest : List Char)
    (h : isSignificant c = false) : newFromChars tk (c :: rest) = newFromChars tk rest := by
  simp only [isSignificant, decide_eq_false_iff_not, not_or] at h
  obtain ⟨h1, h2, h3, h4, h5, h6, h7, h8⟩ := h
  rw [newFromChars]
  simp only [h1, h2, h3, h4, h5, h6, h7, h8, if_false, or_self, ite_self]

theorem newFromChars_skip_all (tk : Tokenizer) (pre rest : List Char)
    (h : ∀ c ∈ pre, isSignificant c = false) :
    newFromChars tk (pre ++ rest) = newFromChars tk rest := by
  induction pre with
  | nil => rfl
  | cons c cs ih =>
      rw [List.cons_append, newFromChars_skip tk c _ (h c (List.mem_cons_self c cs))]
      exact ih (fun x hx => h x (List.mem_cons_of_mem c hx))

/-- C14, as stated, fails: the first character of `x1` that is not whitespace is `x`, none
of the dispatch characters, and `NewFromString` does not fail with `JsonFormatError`: it
skips `x` and returns the number `1`. -/
theorem NewFromString_x1_accepted :
    NewFromString exampleTokenizer "x1" ≠ .error .JsonFormatError ∧
    NewFromString exampleTokenizer "x1" = NewFromString exampleTokenizer "1" ∧
    (parsed (NewFromString exampleTokenizer "x1")).valueType = .Number ∧
    (parsed (NewFromString exampleTokenizer "x1")).Int64 = 1 := by
  refine ⟨?_, rfl, rfl, rfl⟩
  intro h
  have h2 : NewFromString exampleTokenizer "x1" = .ok (parsed (NewFromString exampleTokenizer "x1")) := rfl
  rw [h] at h2
  exact absurd h2 (by intro h3; cases h3)

/-- C14, amended: `NewFromString` skips every leading character that is none of the
dispatch characters `{`, `[`, `"`, `-`, a digit, `t`, `f`, `n` (whitespace or not) and
parses what follows; it fails with `JsonFormatError` when the text holds no dispatch
character at all. -/
theorem NewFromString_skips_insignificant (tk : Tokenizer) (pre rest : List Char)
    (h : ∀ c ∈ pre, isSignificant c = false) :
    NewFromString tk ⟨pre ++ rest⟩ = NewFromString tk ⟨rest⟩ ∧
    NewFromString tk ⟨pre⟩ = .error .JsonFormatError := by
  constructor
  · exact newFromChars_skip_all tk pre rest h
  · have := newFromChars_skip_all tk pre [] h
    rw [List.append_nil] at this
    exact this

/-- C14, amended, on the example: `x1` parses as `1` does, and `x` alone is rejected. -/
theorem NewFromString_skips_insignificant_witness :
    NewFromString exampleTokenizer "x1" = NewFromString exampleTokenizer "1" ∧
    NewFromString exampleTokenizer "x" = .error .JsonFormatError :=
  NewFromString_skips_insignificant exampleTokenizer "x".data "1".data (by decide)

theorem beforeQuote_append (s : List Char) (h : '\x22' ∉ s) :
    beforeQuote (s ++ ['\x22']) = some s := by
  induction s with
  | nil => rfl
  | cons c cs ih =>
      have hc : c ≠ '\x22' := fun e => h (e ▸ List.mem_cons_self c cs)
      have hcs : '\x22' ∉ cs := fun e => h (List.mem_cons_of_mem c e)
      simp [beforeQuote, hc, ih hcs]

/-- C16: for every text `s` without a double quote, `NewFromString` applied to the quote,
then `s`, then the quote succeeds with a String value whose `String()` is `s` itself,
backslashes included, nothing decoded. -/
theorem NewFromString_quoted_is_raw (tk : Tokenizer) (s : GoString) (h : '\x22' ∉ s.data) :
    NewFromString tk ⟨'\x22' :: (s.data ++ ['\x22'])⟩ = .ok (NewString s) ∧
    (NewString s).IsString = true ∧ (NewString s).String = s := by
  refine ⟨?_, rfl, rfl⟩
  show newFromChars tk ('\x22' :: (s.data ++ ['\x22'])) = .ok (NewString s)
  rw [newFromChars]
  simp [beforeQuote_append s.data h, NewString]

/-- C16, on the text of the test: backslash, `g`, backslash. -/
theorem NewFromString_quoted_is_raw_witness :
    NewFromString exampleTokenizer "\x22\x5cg\x5c\x22" = .ok (NewString "\x5cg\x5c") ∧
    (NewString "\x5cg\x5c").String = "\x5cg\x5c" :=
  ⟨(NewFromString_quoted_is_raw exampleTokenizer "\x5cg\x5c" (by decide)).1, rfl⟩

/-! ## The escape codec -/

/-- C17 (the code departs from the claim): decoding the encoding does not return the
text.  A carriage return is encoded as `\r`, which the decoder drops; the text backslash,
`n` is encoded unchanged and decoded as a line feed; U+1F600 is encoded as `\u1f600` and
decoded as U+1F60 followed by `0`. -/
theorem decode_encode_differs :
    escapeJsonString "\r" true = "\x5cr" ∧
    stringFromEscapedBytes (escapeJsonString "\r" true).data = .ok "" ∧
    escapeJsonString "\x5cn" true = "\x5cn" ∧
    stringFromEscapedBytes (escapeJsonString "\x5cn" true).data = .ok "\n" ∧
    escapeJsonString ⟨[Char.ofNat 0x1F600]⟩ true = "\x5cu1f600" ∧
    stringFromEscapedBytes (escapeJsonString ⟨[Char.ofNat 0x1F600]⟩ true).data
      = .ok ⟨[Char.ofNat 0x1F60, '0']⟩ := by
  refine ⟨rfl, rfl, rfl, rfl, rfl, rfl⟩

theorem escapeRune_raw (c : Char) (h1 : 0x7F < c.toNat) (h2 : c.toNat ≤ 0x127) :
    escapeRune c true = [c] := by
  have hne : ∀ d : Char, d.toNat ≤ 0x7F → c ≠ d := by
    intro d hd e
    rw [e] at h1
    omega
  have h3 : ¬ (0x127 < c.toNat) := by omega
  simp [escapeRune, hne '\x22' (by decide), hne '/' (by decide), hne '\x08' (by decide),
    hne '\x0c' (by decide), hne '\t' (by decide), hne '\n' (by decide), hne '\r' (by decide),
    hne '<' (by decide), hne '>' (by decide), hne '&' (by decide), hne '%' (by decide), h3]

/-- C18 (the code departs from the claim): the output of `escapeJsonString(s, true)` is not
ASCII-only.  The threshold of the default branch is `'\u0127'`, so every character from
U+0080 to U+0127 is written as it is. -/
theorem escapeJsonString_keeps_latin (c : Char) (h1 : 0x7F < c.toNat) (h2 : c.toNat ≤ 0x127) :
    escapeJsonString ⟨[c]⟩ true = ⟨[c]⟩ := by
  simp [escapeJsonString, escapeJsonChars, escapeRune_raw c h1 h2]

/-- C18, at the failing input: U+00E9 is written as it is, a character above `0x7F`. -/
theorem escapeJsonString_keeps_latin_witness :
    escapeJsonString ⟨[Char.ofNat 0xE9]⟩ true = ⟨[Char.ofNat 0xE9]⟩ ∧
    0x7F < (Char.ofNat 0xE9).toNat :=
  ⟨escapeJsonString_keeps_latin (Char.ofNat 0xE9) (by decide) (by decide), by decide⟩

/-- C19 (the code departs from the claim): decoding the body `a\\b` (a, backslash,
backslash, b) yields the same four characters, not the three characters a, backslash, b:
the second backslash is no recognized escape character, so the pair is passed through. -/
theorem decode_double_backslash :
    stringFromEscapedBytes "a\x5c\x5cb".data = .ok "a\x5c\x5cb" ∧
    "a\x5c\x5cb".data.length = 4 ∧
    stringFromEscapedBytes "a\x5c\x5cb".data ≠ .ok "a\x5cb" := by
  refine ⟨rfl, rfl, ?_⟩
  intro h
  have h2 : stringFromEscapedBytes "a\x5c\x5cb".data = .ok "a\x5c\x5cb" := rfl
  rw [h] at h2
  exact absurd (Except.ok.inj h2) (by decide)

/-- C20 (the code departs from the claim): for every character `c` other than `"`, `/`,
`b`, `f`, `t`, `n`, `r` and `u`, decoding backslash `c` yields backslash `c`, and a lone
backslash at the end is kept; but decoding backslash `r` yields the empty text: the
switch lists `r`, `escapeMap` has no entry for it, and nothing is written. -/
theorem decode_unrecognized_escape :
    (∀ c : Char, c ∉ ['\x22', '/', 'b', 'f', 't', 'n', 'r', 'u'] →
      stringFromEscapedBytes ['\x5c', c] = .ok ⟨['\x5c', c]⟩) ∧
    stringFromEscapedBytes ['\x5c', 'r'] = .ok "" ∧
    stringFromEscapedBytes ['\x5c'] = .ok "\x5c" ∧
    stringFromEscapedBytes ['a', '\x5c'] = .ok "a\x5c" := by
  refine ⟨?_, rfl, rfl, rfl⟩
  intro c hc
  simp only [List.mem_cons, List.mem_singleton, not_or, List.mem_nil_iff, or_false] at hc
  obtain ⟨h1, h2, h3, h4, h5, h6, h7, h8⟩ := hc
  simp [stringFromEscapedBytes, unescapeLoop, h1, h2, h3, h4, h5, h6, h7, h8]

/-- C20, on `g`, on the backslash itself and on `r`. -/
theorem decode_unrecognized_escape_witness :
    stringFromEscapedBytes ['\x5c', 'g'] = .ok "\x5cg" ∧
    stringFromEscapedBytes ['\x5c', '\x5c'] = .ok "\x5c\x5c" ∧
    stringFromEscapedBytes ['\x5c', 'r'] = .ok "" :=
  ⟨decode_unrecognized_escape.1 'g' (by decide), decode_unrecognized_escape.1 '\x5c' (by decide),
   decode_unrecognized_escape.2.1⟩


/-! ## Numeric-kind inference on integer literals -/

theorem digit_toNat (c : Char) (h : '0' ≤ c ∧ c ≤ '9') : 48 ≤ c.toNat ∧ c.toNat ≤ 57 := by
  obtain ⟨h1, h2⟩ := h
  have e1 : ('0' : Char).toNat = 48 := rfl
  have e2 : ('9' : Char).toNat = 57 := rfl
  constructor
  · have := Char.le_def.mp h1
    exact e1 ▸ (UInt32.le_def.mp this)
  · have := Char.le_def.mp h2
    exact e2 ▸ (UInt32.le_def.mp this)

theorem digit_ne (c d : Char) (h : '0' ≤ c ∧ c ≤ '9') (hd : d.toNat < 48 ∨ 57 < d.toNat) :
    c ≠ d := by
  intro e
  have := digit_toNat c h
  rw [e] at this
  omega

theorem toLower_digit (c : Char) (h : '0' ≤ c ∧ c ≤ '9') : c.toLower = c := by
  have h1 := digit_toNat c h
  have : ¬ (c.toNat ≥ 65 ∧ c.toNat ≤ 90) := by omega
  simp [Char.toLower, this]

theorem foldl_digits_ge (ds : List Char) (acc : Nat) :
    acc ≤ ds.foldl (fun a c => a * 10 + (c.toNat - '0'.toNat)) acc := by
  induction ds generalizing acc with
  | nil => exact Nat.le_refl _
  | cons c cs ih =>
      rw [List.foldl_cons]
      exact Nat.le_trans (by omega) (ih _)

theorem readDigits_digits (ds : List Char) (h : ∀ c ∈ ds, '0' ≤ c ∧ c ≤ '9') (acc k : Nat) :
    readDigits ds acc k
      = (ds.foldl (fun a c => a * 10 + (c.toNat - '0'.toNat)) acc, k + ds.length, []) := by
  induction ds generalizing acc k with
  | nil => rfl
  | cons c cs ih =>
      have hc := h c (List.mem_cons_self c cs)
      rw [readDigits, if_pos hc, ih (fun x hx => h x (List.mem_cons_of_mem c hx))]
      simp only [List.foldl_cons, List.length_cons]
      congr 2
      omega

theorem parseUintLoop_digits (ds : List Char) (h : ∀ c ∈ ds, '0' ≤ c ∧ c ≤ '9') (acc : Nat)
    (hv : ds.foldl (fun a c => a * 10 + (c.toNat - '0'.toNat)) acc < 2 ^ 64) :
    parseUintLoop 10 64 ds acc
      = (ds.foldl (fun a c => a * 10 + (c.toNat - '0'.toNat)) acc, none) := by
  induction ds generalizing acc with
  | nil => rfl
  | cons c cs ih =>
      have hc := h c (List.mem_cons_self c cs)
      have hn := digit_toNat c hc
      have e0 : ('0' : Char).toNat = 48 := rfl
      rw [List.foldl_cons] at hv
      have hge := foldl_digits_ge cs (acc * 10 + (c.toNat - '0'.toNat))
      have h1 : ¬ (10 ≤ c.toNat - '0'.toNat) := by omega
      have h2 : ¬ (2 ^ 64 ≤ acc * 10 + (c.toNat - '0'.toNat)) := by omega
      rw [parseUintLoop]
      simp only [digitOf, hc, and_self, if_true, h1, h2, if_false]
      rw [ih (fun x hx => h x (List.mem_cons_of_mem c hx)) _ hv]
      rfl

theorem ParseUint_digits (ds : List Char) (hne : ds ≠ []) (h : ∀ c ∈ ds, '0' ≤ c ∧ c ≤ '9')
    (hv : decimalValue ds < 2 ^ 64) : ParseUint ds 10 64 = (decimalValue ds, none) := by
  cases ds with
  | nil => exact absurd rfl hne
  | cons c cs =>
      simp only [ParseUint]
      exact parseUintLoop_digits (c :: cs) h 0 hv

theorem ParseInt_digits (ds : List Char) (hne : ds ≠ []) (h : ∀ c ∈ ds, '0' ≤ c ∧ c ≤ '9')
    (hv : decimalValue ds < 2 ^ 64) :
    ParseInt ds 10 64 =
      if 2 ^ 63 ≤ decimalValue ds then ((2 : Int) ^ 63 - 1, some .strconvRangeErr)
      else ((decimalValue ds : Int), none) := by
  cases ds with
  | nil => exact absurd rfl hne
  | cons c cs =>
      have hc := h c (List.mem_cons_self c cs)
      have n1 : c ≠ '-' := digit_ne c '-' hc (by decide)
      have n2 : c ≠ '+' := digit_ne c '+' hc (by decide)
      simp only [ParseInt, beq_iff_eq, n1, n2, or_self, if_false,
        ParseUint_digits (c :: cs) hne h hv]
      by_cases hr : 2 ^ 63 ≤ decimalValue (c :: cs)
      · simp [hr]
      · simp [hr]

theorem ParseInt_neg_digits (ds : List Char) (hne : ds ≠ []) (h : ∀ c ∈ ds, '0' ≤ c ∧ c ≤ '9')
    (hv : decimalValue ds ≤ 2 ^ 63) :
    ParseInt ('-' :: ds) 10 64 = (-(decimalValue ds : Int), none) := by
  have hv2 : decimalValue ds < 2 ^ 64 := by omega
  have hr : decimalValue ds ≤ 9223372036854775808 := by
    have := hv
    norm_num at this
    exact this
  simp [ParseInt, ParseUint_digits ds hne h hv2, hr]

theorem digit_cases (c : Char) (h : '0' ≤ c ∧ c ≤ '9') :
    c = '0' ∨ c = '1' ∨ c = '2' ∨ c = '3' ∨ c = '4' ∨ c = '5' ∨ c = '6' ∨ c = '7' ∨ c = '8'
      ∨ c = '9' := by
  obtain ⟨h1, h2⟩ := digit_toNat c h
  have hc : c = Char.ofNat c.toNat := (Char.ofNat_toNat c).symm
  generalize c.toNat = n at h1 h2 hc
  subst hc
  interval_cases n <;> decide

theorem bitLengthAux_le (fuel : Nat) : ∀ n m : Nat, n < 2 ^ m → bitLengthAux fuel n ≤ m := by
  induction fuel with
  | zero => intro n m _; simp [bitLengthAux]
  | succ f ih =>
      intro n m h
      rw [bitLengthAux]
      by_cases hn : n = 0
      · simp [hn]
      · simp only [hn, if_false]
        cases m with
        | zero => simp at h; exact absurd h hn
        | succ k =>
            have : n / 2 < 2 ^ k := by
              rw [Nat.pow_succ] at h
              omega
            have := ih (n / 2) k this
            omega

theorem floorLog2Ratio_le (n : Nat) : floorLog2Ratio n 1 ≤ (bitLength n : Int) := by
  have e1 : bitLength 1 = 1 := rfl
  unfold floorLog2Ratio
  simp only [e1]
  split <;> split <;> omega

theorem normalize_ne_inf (neg : Bool) (m : Nat) (e : Int) (b : Bool) :
    Float64.normalize neg m e ≠ .inf b := by
  unfold Float64.normalize
  split <;> simp

theorem round_int_ne_inf (neg : Bool) (n : Nat) (h : n < 2 ^ 65) (b : Bool) :
    Float64.round neg n 1 ≠ .inf b := by
  have hb : (bitLength n : Int) ≤ 65 := by
    have := bitLengthAux_le n n 65 h
    unfold bitLength
    omega
  have hf := floorLog2Ratio_le n
  unfold Float64.round
  by_cases hn : n = 0
  · simp [hn]
  · simp only [hn, if_false]
    have he : ¬ (971 < max (floorLog2Ratio n 1 - 52) (-1074)
        ∨ (max (floorLog2Ratio n 1 - 52) (-1074) = 971 ∧ True)) := by
      omega
    have he1 : ¬ (971 < max (floorLog2Ratio n 1 - 52) (-1074)) := fun x => he (Or.inl x)
    have he2 : ¬ (max (floorLog2Ratio n 1 - 52) (-1074) = 971) := fun x => he (Or.inr ⟨x, trivial⟩)
    simp only [he1, he2, false_and, or_self, if_false]
    exact normalize_ne_inf _ _ _ _


theorem parseFloatSpecial_digit (c : Char) (cs : List Char) (h : '0' ≤ c ∧ c ≤ '9') :
    parseFloatSpecial (c :: cs) = none ∧ parseFloatSpecial ('-' :: c :: cs) = none := by
  rcases digit_cases c h with e | e | e | e | e | e | e | e | e | e <;> subst e <;> exact ⟨rfl, rfl⟩

theorem readDecimalFloat_digits (ds : List Char) (hne : ds ≠ [])
    (h : ∀ c ∈ ds, '0' ≤ c ∧ c ≤ '9') :
    readDecimalFloat ds = some (false, decimalValue ds, 0) ∧
    readDecimalFloat ('-' :: ds) = some (true, decimalValue ds, 0) := by
  have hr := readDigits_digits ds h 0 0
  cases ds with
  | nil => exact absurd rfl hne
  | cons c cs =>
      have hc := h c (List.mem_cons_self c cs)
      constructor
      · rcases digit_cases c hc with e | e | e | e | e | e | e | e | e | e <;> subst e <;>
          simp [readDecimalFloat, hr, decimalValue]
      · simp [readDecimalFloat, hr, decimalValue]

theorem ParseFloat_digits (ds : List Char) (hne : ds ≠ []) (h : ∀ c ∈ ds, '0' ≤ c ∧ c ≤ '9')
    (hv : decimalValue ds < 2 ^ 65) :
    ParseFloat ds = (Float64.round false (decimalValue ds) 1, none) ∧
    ParseFloat ('-' :: ds) = (Float64.round true (decimalValue ds) 1, none) := by
  have hrd := readDecimalFloat_digits ds hne h
  cases ds with
  | nil => exact absurd rfl hne
  | cons c cs =>
      have hc := h c (List.mem_cons_self c cs)
      have hs := parseFloatSpecial_digit c cs hc
      constructor
      · simp only [ParseFloat, hs.1, hrd.1, Int.toNat_zero, pow_zero, mul_one, le_refl, if_true]
        cases hf : Float64.round false (decimalValue (c :: cs)) 1 with
        | inf b => exact absurd hf (round_int_ne_inf false _ hv b)
        | finite _ _ _ => rfl
        | nan => rfl
      · simp only [ParseFloat, hs.2, hrd.2, Int.toNat_zero, pow_zero, mul_one, le_refl, if_true]
        cases hf : Float64.round true (decimalValue (c :: cs)) 1 with
        | inf b => exact absurd hf (round_int_ne_inf true _ hv b)
        | finite _ _ _ => rfl
        | nan => rfl

theorem newFromChars_digit (tk : Tokenizer) (c : Char) (cs : List Char) (h : '0' ≤ c ∧ c ≤ '9') :
    newFromChars tk (c :: cs) = newNumber c (c :: cs) := by
  rcases digit_cases c h with e | e | e | e | e | e | e | e | e | e <;> subst e <;> rfl


theorem foldl_digits_append (ds fs : List Char) (acc : Nat) :
    (ds ++ fs).foldl (fun a c => a * 10 + (c.toNat - '0'.toNat)) acc
      = fs.foldl (fun a c => a * 10 + (c.toNat - '0'.toNat))
          (ds.foldl (fun a c => a * 10 + (c.toNat - '0'.toNat)) acc) :=
  List.foldl_append _ _ _ _

theorem foldl_digits_lt (fs : List Char) (h : ∀ c ∈ fs, '0' ≤ c ∧ c ≤ '9') (acc : Nat) :
    fs.foldl (fun a c => a * 10 + (c.toNat - '0'.toNat)) acc < (acc + 1) * 10 ^ fs.length := by
  induction fs generalizing acc with
  | nil => simp
  | cons c cs ih =>
      have hc := digit_toNat c (h c (List.mem_cons_self c cs))
      have e0 : ('0' : Char).toNat = 48 := rfl
      have := ih (fun x hx => h x (List.mem_cons_of_mem c hx)) (acc * 10 + (c.toNat - '0'.toNat))
      rw [List.foldl_cons, List.length_cons, Nat.pow_succ]
      refine Nat.lt_of_lt_of_le this ?_
      have h2 : acc * 10 + (c.toNat - '0'.toNat) + 1 ≤ (acc + 1) * 10 := by omega
      calc (acc * 10 + (c.toNat - '0'.toNat) + 1) * 10 ^ cs.length
          ≤ ((acc + 1) * 10) * 10 ^ cs.length := Nat.mul_le_mul_right _ h2
        _ = (acc + 1) * (10 ^ cs.length * 10) := by ring

theorem lt_two_pow_bitLengthAux (fuel : Nat) : ∀ n : Nat, n ≤ fuel → n < 2 ^ bitLengthAux fuel n := by
  induction fuel with
  | zero =>
      intro n h
      have : n = 0 := by omega
      subst this
      simp [bitLengthAux]
  | succ f ih =>
      intro n h
      rw [bitLengthAux]
      by_cases hn : n = 0
      · simp [hn]
      · simp only [hn, if_false]
        have := ih (n / 2) (by omega)
        rw [Nat.pow_succ]
        omega

theorem floorLog2Ratio_le_ratio (num den : Nat) (hb : bitLength num ≤ bitLength den + 65) :
    floorLog2Ratio num den ≤ 65 := by
  unfold floorLog2Ratio
  simp only []
  split <;> split <;> omega

theorem round_ne_inf (neg : Bool) (num den : Nat) (h : num < den * 2 ^ 65) (b : Bool) :
    Float64.round neg num den ≠ .inf b := by
  have hden : den < 2 ^ bitLength den := lt_two_pow_bitLengthAux den den (Nat.le_refl _)
  have hnum : num < 2 ^ (bitLength den + 65) := by
    rw [Nat.pow_add]
    exact Nat.lt_of_lt_of_le h (Nat.mul_le_mul_right _ (Nat.le_of_lt hden))
  have hb : bitLength num ≤ bitLength den + 65 := bitLengthAux_le num num _ hnum
  have hf := floorLog2Ratio_le_ratio num den hb
  unfold Float64.round
  by_cases hn : num = 0
  · simp [hn]
  · simp only [hn, if_false]
    have he : ¬ (971 < max (floorLog2Ratio num den - 52) (-1074)
        ∨ (max (floorLog2Ratio num den - 52) (-1074) = 971 ∧ True)) := by
      omega
    have he1 : ¬ (971 < max (floorLog2Ratio num den - 52) (-1074)) := fun x => he (Or.inl x)
    have he2 : ¬ (max (floorLog2Ratio num den - 52) (-1074) = 971) :=
      fun x => he (Or.inr ⟨x, trivial⟩)
    simp only [he1, he2, false_and, or_self, if_false]
    exact normalize_ne_inf _ _ _ _

theorem readDigits_then_point (ds : List Char) (h : ∀ c ∈ ds, '0' ≤ c ∧ c ≤ '9')
    (rest : List Char) (acc k : Nat) :
    readDigits (ds ++ '.' :: rest) acc k
      = (ds.foldl (fun a c => a * 10 + (c.toNat - '0'.toNat)) acc, k + ds.length,
          '.' :: rest) := by
  induction ds generalizing acc k with
  | nil =>
      have hp : ¬ ('0' ≤ '.' ∧ '.' ≤ '9') := by decide
      simp only [List.nil_append, readDigits, hp, if_false, List.foldl_nil, List.length_nil,
        Nat.add_zero]
  | cons c cs ih =>
      have hc := h c (List.mem_cons_self c cs)
      rw [List.cons_append, readDigits, if_pos hc,
        ih (fun x hx => h x (List.mem_cons_of_mem c hx))]
      simp only [List.foldl_cons, List.length_cons]
      congr 2
      omega

theorem readDecimalFloat_fraction (ds fs : List Char) (hne : ds ≠ [])
    (hd : ∀ c ∈ ds, '0' ≤ c ∧ c ≤ '9') (hfne : fs ≠ []) (hf : ∀ c ∈ fs, '0' ≤ c ∧ c ≤ '9') :
    readDecimalFloat (ds ++ '.' :: fs)
      = some (false, decimalValue (ds ++ fs), -(fs.length : Int)) ∧
    readDecimalFloat ('-' :: (ds ++ '.' :: fs))
      = some (true, decimalValue (ds ++ fs), -(fs.length : Int)) := by
  have hr := readDigits_then_point ds hd fs 0 0
  have hr2 := readDigits_digits fs hf (decimalValue ds) 0
  have hval : fs.foldl (fun a c => a * 10 + (c.toNat - '0'.toNat)) (decimalValue ds)
      = decimalValue (ds ++ fs) := (foldl_digits_append ds fs 0).symm
  rw [hval, Nat.zero_add] at hr2
  rw [Nat.zero_add] at hr
  have hlen : 0 < fs.length := by
    cases fs with
    | nil => exact absurd rfl hfne
    | cons _ _ => simp
  have hlen2 : ¬ (ds.length + fs.length = 0) := by omega
  cases ds with
  | nil => exact absurd rfl hne
  | cons c cs =>
      have hc := hd c (List.mem_cons_self c cs)
      have hr1 : readDigits (c :: (cs ++ '.' :: fs)) 0 0
          = (decimalValue (c :: cs), (c :: cs).length, '.' :: fs) := hr
      have hv : decimalValue (c :: cs ++ fs) = decimalValue (c :: (cs ++ fs)) := rfl
      rw [hv] at hr2 ⊢
      constructor
      · have key : ∀ text : List Char,
            (match text with
              | '-' :: _ => true
              | _ => false) = false →
            (match text with
              | '+' :: r => r
              | '-' :: r => r
              | _ => text) = c :: (cs ++ '.' :: fs) →
            readDecimalFloat text
              = some (false, decimalValue (c :: (cs ++ fs)), -(fs.length : Int)) := by
          intro text h1 h2
          unfold readDecimalFloat
          simp only [h1, h2, hr1, hr2, hlen2, if_false]
        rcases digit_cases c hc with e | e | e | e | e | e | e | e | e | e <;> subst e <;>
          exact key _ rfl rfl
      · unfold readDecimalFloat
        simp only [List.cons_append, hr1, hr2, hlen2, if_false]

theorem ParseFloat_fraction (ds fs : List Char) (hne : ds ≠ [])
    (hd : ∀ c ∈ ds, '0' ≤ c ∧ c ≤ '9') (hfne : fs ≠ []) (hf : ∀ c ∈ fs, '0' ≤ c ∧ c ≤ '9') :
    (ParseFloat (ds ++ '.' :: fs)
        = (Float64.round false (decimalValue (ds ++ fs)) (10 ^ fs.length), none)
      ∨ (ParseFloat (ds ++ '.' :: fs)).2 = some .strconvRangeErr) ∧
    (ParseFloat ('-' :: (ds ++ '.' :: fs))
        = (Float64.round true (decimalValue (ds ++ fs)) (10 ^ fs.length), none)
      ∨ (ParseFloat ('-' :: (ds ++ '.' :: fs))).2 = some .strconvRangeErr) ∧
    (decimalValue ds < 2 ^ 64 →
      ParseFloat (ds ++ '.' :: fs)
          = (Float64.round false (decimalValue (ds ++ fs)) (10 ^ fs.length), none) ∧
      ParseFloat ('-' :: (ds ++ '.' :: fs))
          = (Float64.round true (decimalValue (ds ++ fs)) (10 ^ fs.length), none)) := by
  have hrd := readDecimalFloat_fraction ds fs hne hd hfne hf
  have hlen : 0 < fs.length := by
    cases fs with
    | nil => exact absurd rfl hfne
    | cons _ _ => simp
  have hex : ¬ (0 ≤ -(fs.length : Int)) := by omega
  have hto : (-(-(fs.length : Int))).toNat = fs.length := by omega
  have key : ∀ neg : Bool, ∀ text : List Char, parseFloatSpecial text = none →
      readDecimalFloat text = some (neg, decimalValue (ds ++ fs), -(fs.length : Int)) →
      (ParseFloat text = (Float64.round neg (decimalValue (ds ++ fs)) (10 ^ fs.length), none)
        ∨ (ParseFloat text).2 = some .strconvRangeErr) ∧
      (decimalValue ds < 2 ^ 64 →
        ParseFloat text
          = (Float64.round neg (decimalValue (ds ++ fs)) (10 ^ fs.length), none)) := by
    intro neg text hs hr
    simp only [ParseFloat, hs, hr, hex, if_false, hto]
    cases hfl : Float64.round neg (decimalValue (ds ++ fs)) (10 ^ fs.length) with
    | inf b =>
        refine ⟨Or.inr rfl, ?_⟩
        intro hv
        have hlt := foldl_digits_lt fs hf (decimalValue ds)
        have hm : decimalValue (ds ++ fs) < 10 ^ fs.length * 2 ^ 65 := by
          have e : decimalValue (ds ++ fs)
              = fs.foldl (fun a c => a * 10 + (c.toNat - '0'.toNat)) (decimalValue ds) :=
            foldl_digits_append ds fs 0
          rw [e]
          refine Nat.lt_of_lt_of_le hlt ?_
          rw [Nat.mul_comm]
          exact Nat.mul_le_mul_left _ (by omega)
        exact absurd hfl (round_ne_inf neg _ _ hm b)
    | finite _ _ _ => exact ⟨Or.inl rfl, fun _ => rfl⟩
    | nan => exact ⟨Or.inl rfl, fun _ => rfl⟩
  cases ds with
  | nil => exact absurd rfl hne
  | cons c cs =>
      have hc := hd c (List.mem_cons_self c cs)
      have hs := parseFloatSpecial_digit c (cs ++ '.' :: fs) hc
      have k1 := key false ((c :: cs) ++ '.' :: fs) hs.1 hrd.1
      have k2 := key true ('-' :: ((c :: cs) ++ '.' :: fs)) hs.2 hrd.2
      exact ⟨k1.1, k2.1, fun hv => ⟨k1.2 hv, k2.2 hv⟩⟩

theorem parseUintLoop_digits_then (ds : List Char) (h : ∀ c ∈ ds, '0' ≤ c ∧ c ≤ '9')
    (rest : List Char) (acc : Nat)
    (hv : ds.foldl (fun a c => a * 10 + (c.toNat - '0'.toNat)) acc < 2 ^ 64) :
    parseUintLoop 10 64 (ds ++ rest) acc
      = parseUintLoop 10 64 rest (ds.foldl (fun a c => a * 10 + (c.toNat - '0'.toNat)) acc) := by
  induction ds generalizing acc with
  | nil => rfl
  | cons c cs ih =>
      have hc := h c (List.mem_cons_self c cs)
      have hn := digit_toNat c hc
      have e0 : ('0' : Char).toNat = 48 := rfl
      rw [List.foldl_cons] at hv
      have hge := foldl_digits_ge cs (acc * 10 + (c.toNat - '0'.toNat))
      have h1 : ¬ (10 ≤ c.toNat - '0'.toNat) := by omega
      have h2 : ¬ (2 ^ 64 ≤ acc * 10 + (c.toNat - '0'.toNat)) := by omega
      rw [List.cons_append, parseUintLoop]
      simp only [digitOf, hc, and_self, if_true, h1, h2, if_false]
      rw [ih (fun x hx => h x (List.mem_cons_of_mem c hx)) _ hv]
      rfl

theorem parseUintLoop_overflow (ds : List Char) (h : ∀ c ∈ ds, '0' ≤ c ∧ c ≤ '9')
    (rest : List Char) (acc : Nat) (hacc : acc < 2 ^ 64)
    (hv : 2 ^ 64 ≤ ds.foldl (fun a c => a * 10 + (c.toNat - '0'.toNat)) acc) :
    parseUintLoop 10 64 (ds ++ rest) acc = (2 ^ 64 - 1, some .strconvRangeErr) := by
  induction ds generalizing acc with
  | nil =>
      simp only [List.foldl_nil] at hv
      omega
  | cons c cs ih =>
      have hc := h c (List.mem_cons_self c cs)
      have hn := digit_toNat c hc
      have e0 : ('0' : Char).toNat = 48 := rfl
      rw [List.foldl_cons] at hv
      have h1 : ¬ (10 ≤ c.toNat - '0'.toNat) := by omega
      rw [List.cons_append, parseUintLoop]
      by_cases h2 : 2 ^ 64 ≤ acc * 10 + (c.toNat - '0'.toNat)
      · simp only [digitOf, hc, and_self, if_true, h1, h2, if_false]
      · simp only [digitOf, hc, and_self, if_true, h1, h2, if_false]
        exact ih (fun x hx => h x (List.mem_cons_of_mem c hx)) _ (by omega) hv

theorem ParseInt_fraction (ds fs : List Char) (hne : ds ≠ [])
    (hd : ∀ c ∈ ds, '0' ≤ c ∧ c ≤ '9') (hv : decimalValue ds < 2 ^ 64) :
    ParseInt (ds ++ '.' :: fs) 10 64 = (0, some .strconvSyntaxErr) ∧
    ParseInt ('-' :: (ds ++ '.' :: fs)) 10 64 = (0, some .strconvSyntaxErr) := by
  have hl : parseUintLoop 10 64 (ds ++ '.' :: fs) 0 = (0, some .strconvSyntaxErr) := by
    rw [parseUintLoop_digits_then ds hd _ 0 hv]
    rfl
  cases ds with
  | nil => exact absurd rfl hne
  | cons c cs =>
      have hc := hd c (List.mem_cons_self c cs)
      have n1 : c ≠ '-' := digit_ne c '-' hc (by decide)
      have n2 : c ≠ '+' := digit_ne c '+' hc (by decide)
      have hu : ParseUint (c :: cs ++ '.' :: fs) 10 64 = (0, some .strconvSyntaxErr) := by
        simp only [List.cons_append, ParseUint]
        exact hl
      simp only [List.cons_append] at hu ⊢
      constructor
      · simp only [ParseInt, beq_iff_eq, n1, n2, or_self, if_false, hu]
      · simp [ParseInt, hu]

theorem ParseInt_fraction_overflow (ds fs : List Char) (hne : ds ≠ [])
    (hd : ∀ c ∈ ds, '0' ≤ c ∧ c ≤ '9') (hv : 2 ^ 64 ≤ decimalValue ds) :
    ParseUint (ds ++ '.' :: fs) 10 64 = (2 ^ 64 - 1, some .strconvRangeErr) ∧
    ParseInt (ds ++ '.' :: fs) 10 64 = ((2 : Int) ^ 63 - 1, some .strconvRangeErr) := by
  have hl : parseUintLoop 10 64 (ds ++ '.' :: fs) 0 = (2 ^ 64 - 1, some .strconvRangeErr) :=
    parseUintLoop_overflow ds hd _ 0 (by decide) hv
  cases ds with
  | nil => exact absurd rfl hne
  | cons c cs =>
      have hc := hd c (List.mem_cons_self c cs)
      have n1 : c ≠ '-' := digit_ne c '-' hc (by decide)
      have n2 : c ≠ '+' := digit_ne c '+' hc (by decide)
      have hu : ParseUint (c :: cs ++ '.' :: fs) 10 64
          = (2 ^ 64 - 1, some .strconvRangeErr) := by
        simp only [List.cons_append, ParseUint]
        exact hl
      refine ⟨hu, ?_⟩
      simp only [List.cons_append] at hu ⊢
      simp only [ParseInt, beq_iff_eq, n1, n2, or_self, if_false, hu]
      simp

/-- C15 (the code departs from the claim): for a decimal integer literal with digits `ds`
and value `n`, `NewFromString` yields a Number with `Int64() = n` and neither
`mustUnsigned` nor `mustFloat` set when `n <= 2^63-1`, and for the literal with a minus sign
a Number with `Int64() = -n` and neither flag set when `n <= 2^63`; for
`2^63 <= n <= 2^64-1` it yields a Number with `mustUnsigned` set and `Uint64() = n`.  A
literal with a fraction, digits `ds`, a point, digits `fs`, yields `mustFloat` (and with a
minus sign `mustFloat` together with `mustSigned`) when the integer part `ds` is below
`2^64`; but when the integer part is `2^64` or more, `ParseInt` reports the range error
before it reaches the point, the literal is taken for an unsigned integer, and
`NewFromString` fails with the range error of `strconv`. -/
theorem NewFromString_number_kind (tk : Tokenizer) (ds : List Char) (hne : ds ≠ [])
    (hd : ∀ c ∈ ds, '0' ≤ c ∧ c ≤ '9') :
    (decimalValue ds ≤ 2 ^ 63 - 1 →
      ∃ v, NewFromString tk ⟨ds⟩ = .ok v ∧ v.IsNumber = true ∧
        v.Int64 = (decimalValue ds : Int) ∧ v.mustUnsigned = false ∧ v.mustFloat = false) ∧
    (decimalValue ds ≤ 2 ^ 63 →
      ∃ v, NewFromString tk ⟨'-' :: ds⟩ = .ok v ∧ v.IsNumber = true ∧
        v.Int64 = -(decimalValue ds : Int) ∧ v.mustUnsigned = false ∧ v.mustFloat = false) ∧
    (2 ^ 63 ≤ decimalValue ds ∧ decimalValue ds ≤ 2 ^ 64 - 1 →
      ∃ v, NewFromString tk ⟨ds⟩ = .ok v ∧ v.IsNumber = true ∧
        v.mustUnsigned = true ∧ v.mustFloat = false ∧ v.Uint64 = decimalValue ds) ∧
    (∀ fs : List Char, fs ≠ [] → (∀ c ∈ fs, '0' ≤ c ∧ c ≤ '9') →
      (decimalValue ds < 2 ^ 64 →
        (∃ v, NewFromString tk ⟨ds ++ '.' :: fs⟩ = .ok v ∧ v.IsNumber = true ∧
          v.mustFloat = true ∧ v.mustSigned = false ∧ v.mustUnsigned = false) ∧
        (∃ v, NewFromString tk ⟨'-' :: (ds ++ '.' :: fs)⟩ = .ok v ∧ v.IsNumber = true ∧
          v.mustFloat = true ∧ v.mustSigned = true ∧ v.mustUnsigned = false)) ∧
      (2 ^ 64 ≤ decimalValue ds →
        NewFromString tk ⟨ds ++ '.' :: fs⟩ = .error .strconvRangeErr)) := by
  refine ⟨?_, ?_, ?_, ?_⟩
  · intro hv
    have hv1 : decimalValue ds < 2 ^ 65 := by omega
    have hv2 : decimalValue ds < 2 ^ 64 := by omega
    have hv3 : ¬ (2 ^ 63 ≤ decimalValue ds) := by omega
    have hpf := (ParseFloat_digits ds hne hd hv1).1
    have hpi := ParseInt_digits ds hne hd hv2
    rw [if_neg hv3] at hpi
    cases ds with
    | nil => exact absurd rfl hne
    | cons c cs =>
        have hc := hd c (List.mem_cons_self c cs)
        show ∃ v, newFromChars tk (c :: cs) = .ok v ∧ _
        rw [newFromChars_digit tk c cs hc]
        simp only [newNumber, hpf, hpi]
        exact ⟨_, rfl, rfl, rfl, rfl, rfl⟩
  · intro hv
    have hv1 : decimalValue ds < 2 ^ 65 := by omega
    have hpf := (ParseFloat_digits ds hne hd hv1).2
    have hpi := ParseInt_neg_digits ds hne hd hv
    show ∃ v, newFromChars tk ('-' :: ds) = .ok v ∧ _
    have hn : newFromChars tk ('-' :: ds) = newNumber '-' ('-' :: ds) := rfl
    rw [hn]
    simp only [newNumber, hpf, hpi]
    exact ⟨_, rfl, rfl, rfl, rfl, rfl⟩
  · intro hv
    have hv1 : decimalValue ds < 2 ^ 65 := by omega
    have hv2 : decimalValue ds < 2 ^ 64 := by omega
    have hpf := (ParseFloat_digits ds hne hd hv1).1
    have hpi := ParseInt_digits ds hne hd hv2
    rw [if_pos hv.1] at hpi
    have hpu := ParseUint_digits ds hne hd hv2
    cases ds with
    | nil => exact absurd rfl hne
    | cons c cs =>
        have hc := hd c (List.mem_cons_self c cs)
        show ∃ v, newFromChars tk (c :: cs) = .ok v ∧ _
        rw [newFromChars_digit tk c cs hc]
        simp only [newNumber, hpf, hpi, hpu]
        exact ⟨_, rfl, rfl, rfl, rfl, rfl⟩
  · intro fs hfne hf
    have hpf := ParseFloat_fraction ds fs hne hd hfne hf
    constructor
    · intro hv
      have hfl := hpf.2.2 hv
      have hpi := ParseInt_fraction ds fs hne hd hv
      constructor
      · cases ds with
        | nil => exact absurd rfl hne
        | cons c cs =>
            have hc := hd c (List.mem_cons_self c cs)
            have n1 : c ≠ '-' := digit_ne c '-' hc (by decide)
            show ∃ v, newFromChars tk (c :: (cs ++ '.' :: fs)) = .ok v ∧ _
            rw [newFromChars_digit tk c _ hc]
            have h1 := hfl.1
            have h2 := hpi.1
            simp only [List.cons_append] at h1 h2
            simp only [newNumber, h1, h2, n1, decide_False]
            exact ⟨_, rfl, rfl, rfl, rfl, rfl⟩
      · show ∃ v, newFromChars tk ('-' :: (ds ++ '.' :: fs)) = .ok v ∧ _
        have hn : newFromChars tk ('-' :: (ds ++ '.' :: fs))
            = newNumber '-' ('-' :: (ds ++ '.' :: fs)) := rfl
        rw [hn]
        simp only [newNumber, hfl.2, hpi.2]
        exact ⟨_, rfl, rfl, rfl, rfl, rfl⟩
    · intro hv
      have hov := ParseInt_fraction_overflow ds fs hne hd hv
      cases ds with
      | nil => exact absurd rfl hne
      | cons c cs =>
          have hc := hd c (List.mem_cons_self c cs)
          show newFromChars tk (c :: (cs ++ '.' :: fs)) = .error .strconvRangeErr
          rw [newFromChars_digit tk c _ hc]
          have h2 := hov.2
          have h3 := hov.1
          simp only [List.cons_append] at h2 h3
          rcases hpf.1 with h1 | h1
          · simp only [List.cons_append] at h1
            simp only [newNumber, h1, h2, h3]
          · simp only [List.cons_append] at h1
            unfold newNumber
            cases hp : ParseFloat (c :: (cs ++ '.' :: fs)) with
            | mk f e =>
                rw [hp] at h1
                simp only at h1
                subst h1
                rfl

/-- C15, on the examples: `12345` gives `Int() = 12345`; `9223372036854775807` parses
signed; `18446744073709551615` parses unsigned; `1.5` yields `mustFloat` and `-1.5`
`mustFloat` together with `mustSigned`; at the failing input `99999999999999999999.5`
`NewFromString` returns the range error. -/
theorem NewFromString_number_kind_witness :
    (∃ v, NewFromString exampleTokenizer "12345" = .ok v ∧ v.IsNumber = true ∧
      v.Int64 = (decimalValue "12345".data : Int) ∧ v.mustUnsigned = false ∧ v.mustFloat = false) ∧
    (parsed (NewFromString exampleTokenizer "12345")).Int = 12345 ∧
    (∃ v, NewFromString exampleTokenizer "9223372036854775807" = .ok v ∧ v.IsNumber = true ∧
      v.Int64 = (decimalValue "9223372036854775807".data : Int) ∧ v.mustUnsigned = false ∧
      v.mustFloat = false) ∧
    (parsed (NewFromString exampleTokenizer "9223372036854775807")).Int64 = 9223372036854775807 ∧
    (∃ v, NewFromString exampleTokenizer "18446744073709551615" = .ok v ∧ v.IsNumber = true ∧
      v.mustUnsigned = true ∧ v.mustFloat = false ∧
      v.Uint64 = decimalValue "18446744073709551615".data) ∧
    (parsed (NewFromString exampleTokenizer "18446744073709551615")).Uint64
      = 18446744073709551615 ∧
    (∃ v, NewFromString exampleTokenizer "1.5" = .ok v ∧ v.IsNumber = true ∧
      v.mustFloat = true ∧ v.mustSigned = false ∧ v.mustUnsigned = false) ∧
    (∃ v, NewFromString exampleTokenizer "-1.5" = .ok v ∧ v.IsNumber = true ∧
      v.mustFloat = true ∧ v.mustSigned = true ∧ v.mustUnsigned = false) ∧
    (parsed (NewFromString exampleTokenizer "1.5")).mustFloat = true ∧
    (parsed (NewFromString exampleTokenizer "-1.5")).mustFloat = true ∧
    (parsed (NewFromString exampleTokenizer "-1.5")).mustSigned = true ∧
    NewFromString exampleTokenizer "99999999999999999999.5" = .error .strconvRangeErr :=
  ⟨(NewFromString_number_kind exampleTokenizer "12345".data (by decide) (by decide)).1
      (by decide),
   rfl,
   (NewFromString_number_kind exampleTokenizer "9223372036854775807".data (by decide)
      (by decide)).1 (by decide),
   rfl,
   (NewFromString_number_kind exampleTokenizer "18446744073709551615".data (by decide)
      (by decide)).2.2.1 (by decide),
   rfl,
   (((NewFromString_number_kind exampleTokenizer "1".data (by decide) (by decide)).2.2.2
      "5".data (by decide) (by decide)).1 (by decide)).1,
   (((NewFromString_number_kind exampleTokenizer "1".data (by decide) (by decide)).2.2.2
      "5".data (by decide) (by decide)).1 (by decide)).2,
   rfl, rfl, rfl,
   ((NewFromString_number_kind exampleTokenizer "99999999999999999999".data (by decide)
      (by decide)).2.2.2 "5".data (by decide) (by decide)).2 (by decide)⟩


/-! ## Typed getters and number predicates -/

/-- C26 (the code departs from the claim): `GetUint` calls itself with the same arguments
before anything else, so no call returns, whatever depth of calls is allowed; the
sibling `GetUint64` returns `Get`'s error, `NotANumberError` or the unsigned value. -/
theorem GetUint_never_returns :
    (∀ (obj : JsonValue) (first : PathArg) (keys : List PathArg) (depth : Nat),
      obj.GetUint first keys depth = none) ∧
    (arrayOf [NewUint64 7]).GetUint64 (.int 0) [] = (7, none) ∧
    (arrayOf [NewUint64 7]).GetUint64 (.int 1) [] = (0, some .IndexOutOfBoundsError) ∧
    (arrayOf [NewString "x"]).GetUint64 (.int 0) [] = (0, some .NotANumberError) := by
  refine ⟨?_, rfl, rfl, rfl⟩
  intro obj first keys depth
  induction depth with
  | zero => rfl
  | succ d ih => rw [JsonValue.GetUint, ih]

/-- C27 (the code departs from the claim): for a Number, `mustFloat` makes `IsFloat` true
and the other two false, and otherwise `mustUnsigned` makes `IsUnsigned` true and
`IsSigned` false; but `mustSigned` is never consulted: with `mustFloat` and `mustUnsigned`
clear, `IsSigned` is `Int64() < 0` and `IsUnsigned` is `Int64() >= 0` whether or not
`mustSigned` is set.  For a value that is not a Number all three are false. -/
theorem number_predicates (v : JsonValue) :
    (v.valueType = .Number →
      (v.mustFloat = true → v.IsFloat = true ∧ v.IsSigned = false ∧ v.IsUnsigned = false) ∧
      (v.mustFloat = false → v.mustUnsigned = true →
        v.IsFloat = false ∧ v.IsUnsigned = true ∧ v.IsSigned = false) ∧
      (v.mustFloat = false → v.mustUnsigned = false →
        v.IsFloat = false ∧ v.IsSigned = decide (v.Int64 < 0) ∧
          v.IsUnsigned = decide (0 ≤ v.Int64))) ∧
    (v.valueType ≠ .Number → v.IsFloat = false ∧ v.IsSigned = false ∧ v.IsUnsigned = false) := by
  constructor
  · intro h
    refine ⟨?_, ?_, ?_⟩
    · intro hf
      simp [JsonValue.IsFloat, JsonValue.IsSigned, JsonValue.IsUnsigned, JsonValue.IsNumber, h, hf]
    · intro hf hu
      simp [JsonValue.IsFloat, JsonValue.IsSigned, JsonValue.IsUnsigned, JsonValue.IsNumber, h, hf,
        hu]
    · intro hf hu
      simp [JsonValue.IsFloat, JsonValue.IsSigned, JsonValue.IsUnsigned, JsonValue.IsNumber, h, hf,
        hu]
  · intro h
    simp [JsonValue.IsFloat, JsonValue.IsSigned, JsonValue.IsUnsigned, JsonValue.IsNumber, h]

/-- C27, at the failing input: the value parsed from `-0` has `mustSigned` set and the
other two flags clear, and reports `IsSigned() = false` and `IsUnsigned() = true`. -/
theorem number_predicates_witness :
    (parsed (NewFromString exampleTokenizer "-0")).mustSigned = true ∧
    (parsed (NewFromString exampleTokenizer "-0")).IsFloat = false ∧
    (parsed (NewFromString exampleTokenizer "-0")).IsSigned
      = decide ((parsed (NewFromString exampleTokenizer "-0")).Int64 < 0) ∧
    (parsed (NewFromString exampleTokenizer "-0")).IsSigned = false ∧
    (parsed (NewFromString exampleTokenizer "-0")).IsUnsigned = true :=
  ⟨rfl, (((number_predicates (parsed (NewFromString exampleTokenizer "-0"))).1 rfl).2.2 rfl rfl).1,
   (((number_predicates (parsed (NewFromString exampleTokenizer "-0"))).1 rfl).2.2 rfl rfl).2.1,
   rfl, rfl⟩

/-- C30 (the code departs from the claim): `NewUint64(n)` has `Uint64() = n`, and reports
unsigned when `n < 2^63` or bit 60 of `n` is set; but for `2^63 <= n < 2^64` with bit 60
clear `mustUnsigned` stays clear, the signed projection is negative, and the value reports
`IsUnsigned() = false` and `IsSigned() = true`. -/
theorem NewUint64_predicates (n : Nat) (hn : n < 2 ^ 64) :
    (NewUint64 n).Uint64 = n ∧
    (n &&& 0x1000000000000000 ≠ 0 →
      (NewUint64 n).IsUnsigned = true ∧ (NewUint64 n).IsSigned = false) ∧
    (n < 2 ^ 63 → (NewUint64 n).IsUnsigned = true ∧ (NewUint64 n).IsSigned = false) ∧
    (2 ^ 63 ≤ n → n &&& 0x1000000000000000 = 0 →
      (NewUint64 n).IsUnsigned = false ∧ (NewUint64 n).IsSigned = true) := by
  have hm : n % 2 ^ 64 = n := Nat.mod_eq_of_lt hn
  refine ⟨rfl, ?_, ?_, ?_⟩
  · intro hb
    simp [NewUint64, JsonValue.IsUnsigned, JsonValue.IsSigned, JsonValue.IsNumber,
      JsonValue.valueType, JsonValue.mustFloat, JsonValue.mustUnsigned, hb]
  · intro hlt
    by_cases hb : n &&& 0x1000000000000000 = 0
    · simp only [NewUint64, JsonValue.IsUnsigned, JsonValue.IsSigned, JsonValue.IsNumber,
        JsonValue.valueType, JsonValue.mustFloat, JsonValue.mustUnsigned, JsonValue.Int64,
        JsonValue.intValue, int64OfUint64, hm, hb]
      have hlt2 : n < 9223372036854775808 := by omega
      simp [hlt2]
    · simp [NewUint64, JsonValue.IsUnsigned, JsonValue.IsSigned, JsonValue.IsNumber,
        JsonValue.valueType, JsonValue.mustFloat, JsonValue.mustUnsigned, hb]
  · intro hge hb
    have hnlt : ¬ n < 2 ^ 63 := by omega
    simp only [NewUint64, JsonValue.IsUnsigned, JsonValue.IsSigned, JsonValue.IsNumber,
      JsonValue.valueType, JsonValue.mustFloat, JsonValue.mustUnsigned, JsonValue.Int64,
      JsonValue.intValue, int64OfUint64, hm, hb]
    have hnlt2 : ¬ n < 9223372036854775808 := by omega
    simp [hnlt2]
    omega

/-- C30, at the failing input `n = 2^63`: bit 60 is clear, `IsUnsigned()` is false and
`IsSigned()` is true. -/
theorem NewUint64_predicates_witness :
    (NewUint64 (2 ^ 63)).IsUnsigned = false ∧ (NewUint64 (2 ^ 63)).IsSigned = true ∧
    (NewUint64 (2 ^ 63)).Uint64 = 2 ^ 63 :=
  ⟨((NewUint64_predicates (2 ^ 63) (by decide)).2.2.2 (by decide) (by decide)).1,
   ((NewUint64_predicates (2 ^ 63) (by decide)).2.2.2 (by decide) (by decide)).2,
   (NewUint64_predicates (2 ^ 63) (by decide)).1⟩


/-! ## The array guard of `NewFromString` -/

/-- C28: when the first dispatch character of the input is `[` and the span from it to
the end of the input is shorter than two bytes or does not end with `]`,
`NewFromString` fails with `JsonFormatError` and returns no tree. -/
theorem NewFromString_bad_array (tk : Tokenizer) (pre rest : List Char)
    (hpre : ∀ c ∈ pre, isSignificant c = false)
    (hbad : byteLen ('[' :: rest) < 2 ∨ ('[' :: rest).getLast? ≠ some ']') :
    NewFromString tk ⟨pre ++ '[' :: rest⟩ = .error .JsonFormatError := by
  show newFromChars tk (pre ++ '[' :: rest) = .error .JsonFormatError
  rw [newFromChars_skip_all tk pre _ hpre, newFromChars]
  have h1 : JsonValue.parseArray tk (rest.length + 1) NewArray ('[' :: rest)
      = (NewArray, some .JsonFormatError) := by
    rw [JsonValue.parseArray]
    rcases hbad with h | h
    · rw [if_pos h]
    · by_cases h2 : byteLen ('[' :: rest) < 2
      · rw [if_pos h2]
      · rw [if_neg h2, if_pos h]
  simp [h1]

/-- C28, on the examples `[`, `[hahaha` and `[1] ` (with the trailing blank). -/
theorem NewFromString_bad_array_witness :
    NewFromString exampleTokenizer "[" = .error .JsonFormatError ∧
    NewFromString exampleTokenizer "[hahaha" = .error .JsonFormatError ∧
    NewFromString exampleTokenizer " [1] " = .error .JsonFormatError :=
  ⟨NewFromString_bad_array exampleTokenizer [] [] (by decide) (by decide),
   NewFromString_bad_array exampleTokenizer [] "hahaha".data (by decide) (by decide),
   NewFromString_bad_array exampleTokenizer " ".data "1] ".data (by decide) (by decide)⟩

/-! ## Marshaling numbers -/

theorem ite_ne_of {α : Type} (c : Prop) [Decidable c] (a b x : α) (ha : a ≠ x) (hb : b ≠ x) :
    (if c then a else b) ≠ x := by
  split <;> assumption

theorem normalize_ne_nan (neg : Bool) (m : Nat) (e : Int) :
    Float64.normalize neg m e ≠ .nan := by
  unfold Float64.normalize
  split <;> simp

theorem round_ne_nan (neg : Bool) (n d : Nat) : Float64.round neg n d ≠ .nan := by
  unfold Float64.round
  by_cases hn : n = 0
  · simp [hn]
  · simp only [hn, if_false]
    exact ite_ne_of _ _ _ _ (by simp) (normalize_ne_nan _ _ _)

theorem Float64_eq_self (f : Float64) (h : f ≠ .nan) : Float64.eq f f = true := by
  cases f with
  | finite n m e => simp [Float64.eq]
  | inf n => simp [Float64.eq]
  | nan => exact absurd rfl h

/-- C29: for every signed 64-bit integer `i` and every marshal configuration,
`MarshalToString(NewInt64(i))` succeeds and is the decimal representation of `i`: the
decimal digits of `|i|`, after a `-` exactly when `i < 0`. -/
theorem MarshalToString_NewInt64 (i : Int) (opts : List JsonOption)
    (h1 : -(2 : Int) ^ 63 ≤ i) (h2 : i < (2 : Int) ^ 63) :
    (NewInt64 i).MarshalToString opts
      = (⟨if i < 0 then '-' :: Nat.toDigits 10 i.natAbs else Nat.toDigits 10 i.natAbs⟩, none) := by
  have key : ∀ opt : JsonOption, (NewInt64 i).marshalWith opt
      = (if i < 0 then '-' :: Nat.toDigits 10 i.natAbs else Nat.toDigits 10 i.natAbs, none) := by
    intro opt
    by_cases hi : i < 0
    · have he := Float64_eq_self (Float64.ofInt64 i) (round_ne_nan _ _ _)
      simp [NewInt64, JsonValue.marshalWith, hi, he, FormatInt]
    · have hu : uint64OfInt64 i = i.natAbs := by
        unfold uint64OfInt64
        omega
      simp [NewInt64, JsonValue.marshalWith, hi, FormatUint, hu]
  cases opts with
  | nil => simp [JsonValue.MarshalToString, JsonValue.marshalToBuffer, key]
  | cons o os => simp [JsonValue.MarshalToString, JsonValue.marshalToBuffer, key]

/-- C29, on `-45`, on `0` and on the least 64-bit integer. -/
theorem MarshalToString_NewInt64_witness :
    (NewInt64 (-45)).MarshalToString [] = ("-45", none) ∧
    (NewInt64 0).MarshalToString [{ dftOption with FloatDigits := 3 }] = ("0", none) ∧
    (NewInt64 (-9223372036854775808)).MarshalToString [] = ("-9223372036854775808", none) :=
  ⟨MarshalToString_NewInt64 (-45) [] (by decide) (by decide),
   MarshalToString_NewInt64 0 [{ dftOption with FloatDigits := 3 }] (by decide) (by decide),
   MarshalToString_NewInt64 (-9223372036854775808) [] (by decide) (by decide)⟩


/-! ## Key order -/

theorem char_eq_of_toNat (x y : Char) (h : x.toNat = y.toNat) : x = y := by
  apply Char.ext
  apply UInt32.ext
  exact h

theorem compareLess_irrefl (a : List Char) : compareLess a a = false := by
  induction a with
  | nil => rfl
  | cons x xs ih => simp [compareLess, ih]

theorem compareLess_trans (a b c : List Char) (h1 : compareLess a b = true)
    (h2 : compareLess b c = true) : compareLess a c = true := by
  induction a generalizing b c with
  | nil =>
      cases b with
      | nil => simp [compareLess] at h1
      | cons y ys =>
          cases c with
          | nil => simp [compareLess] at h2
          | cons z zs => simp [compareLess]
  | cons x xs ih =>
      cases b with
      | nil => simp [compareLess] at h1
      | cons y ys =>
          cases c with
          | nil => simp [compareLess] at h2
          | cons z zs =>
              simp only [compareLess] at h1 h2 ⊢
              by_cases hxy : x.toNat < y.toNat
              · by_cases hyz : y.toNat < z.toNat
                · have : x.toNat < z.toNat := by omega
                  simp [this]
                · by_cases hzy : z.toNat < y.toNat
                  · simp [hyz, hzy] at h2
                  · have : x.toNat < z.toNat := by omega
                    simp [this]
              · by_cases hyx : y.toNat < x.toNat
                · simp [hxy, hyx] at h1
                · simp only [hxy, hyx, if_false] at h1
                  by_cases hyz : y.toNat < z.toNat
                  · have : x.toNat < z.toNat := by omega
                    simp [this]
                  · by_cases hzy : z.toNat < y.toNat
                    · simp [hyz, hzy] at h2
                    · simp only [hyz, hzy, if_false] at h2
                      have e1 : ¬ x.toNat < z.toNat := by omega
                      have e2 : ¬ z.toNat < x.toNat := by omega
                      simp only [e1, e2, if_false]
                      exact ih ys zs h1 h2

theorem compareLess_asymm (a b : List Char) (h : compareLess a b = true) :
    compareLess b a = false := by
  cases hb : compareLess b a with
  | false => rfl
  | true =>
      have := compareLess_trans a b a h hb
      rw [compareLess_irrefl] at this
      exact absurd this (by decide)

theorem compareLess_total (a b : List Char) (h1 : compareLess a b = false)
    (h2 : compareLess b a = false) : a = b := by
  induction a generalizing b with
  | nil =>
      cases b with
      | nil => rfl
      | cons y ys => simp [compareLess] at h1
  | cons x xs ih =>
      cases b with
      | nil => simp [compareLess] at h2
      | cons y ys =>
          simp only [compareLess] at h1 h2
          by_cases hxy : x.toNat < y.toNat
          · simp [hxy] at h1
          · by_cases hyx : y.toNat < x.toNat
            · simp [hyx] at h2
            · simp only [hxy, hyx, if_false] at h1 h2
              have : x = y := char_eq_of_toNat x y (by omega)
              rw [this, ih ys h1 h2]

theorem keyLess_irrefl (mode : GoSort) (a : GoString) : keyLess mode a a = false := by
  cases mode <;> simp [keyLess, compareLess_irrefl]

theorem keyLess_trans (mode : GoSort) (a b c : GoString) (h1 : keyLess mode a b = true)
    (h2 : keyLess mode b c = true) : keyLess mode a c = true := by
  cases mode with
  | Random => simp [keyLess] at h1
  | DictAsc => exact compareLess_trans _ _ _ h1 h2
  | DictDesc => exact compareLess_trans _ _ _ h2 h1

theorem keyLess_asymm (mode : GoSort) (a b : GoString) (h : keyLess mode a b = true) :
    keyLess mode b a = false := by
  cases mode with
  | Random => rfl
  | DictAsc => exact compareLess_asymm _ _ h
  | DictDesc => exact compareLess_asymm _ _ h

theorem keyLess_total (mode : GoSort) (hm : mode ≠ .Random) (a b : GoString)
    (h1 : keyLess mode a b = false) (h2 : keyLess mode b a = false) : a = b := by
  cases mode with
  | Random => exact absurd rfl hm
  | DictAsc => exact String.ext (compareLess_total _ _ h1 h2)
  | DictDesc => exact String.ext (compareLess_total _ _ h2 h1)

theorem sortPairs_eq_insertionSort {α : Type} (mode : GoSort) (l : List (GoString × α)) :
    sortPairs mode l = List.insertionSort (fun p q => keyLess mode q.1 p.1 = false) l := by
  have hins : ∀ (p : GoString × α) (t : List (GoString × α)),
      sortInsert mode p t = List.orderedInsert (fun p q => keyLess mode q.1 p.1 = false) p t := by
    intro p t
    induction t with
    | nil => rfl
    | cons q rest ih =>
        simp only [sortInsert, List.orderedInsert]
        by_cases hq : keyLess mode q.1 p.1 = true
        · simp [hq, ih]
        · simp [hq]
  induction l with
  | nil => rfl
  | cons p rest ih => rw [sortPairs, List.insertionSort, hins, ih]

theorem sortPairs_perm {α : Type} (mode : GoSort) (l : List (GoString × α)) :
    (sortPairs mode l).Perm l := by
  rw [sortPairs_eq_insertionSort]
  exact List.perm_insertionSort _ l

theorem sortPairs_sorted {α : Type} (mode : GoSort) (l : List (GoString × α)) :
    List.Pairwise (fun p q => keyLess mode q.1 p.1 = false) (sortPairs mode l) := by
  rw [sortPairs_eq_insertionSort]
  have ht : IsTotal (GoString × α) (fun p q => keyLess mode q.1 p.1 = false) :=
    ⟨fun p q => by
      cases h : keyLess mode q.1 p.1 with
      | false => exact Or.inl rfl
      | true => exact Or.inr (keyLess_asymm mode _ _ h)⟩
  have htr : IsTrans (GoString × α) (fun p q => keyLess mode q.1 p.1 = false) :=
    ⟨fun p q r hpq hqr => by
      cases mode with
      | Random => rfl
      | DictAsc =>
          cases h : keyLess .DictAsc r.1 p.1 with
          | false => rfl
          | true =>
              cases hpq2 : keyLess .DictAsc p.1 q.1 with
              | false =>
                  have e := keyLess_total .DictAsc (by decide) _ _ hpq2 hpq
                  rw [e] at h
                  rw [h] at hqr
                  exact absurd hqr (by decide)
              | true =>
                  have := keyLess_trans .DictAsc _ _ _ h hpq2
                  rw [this] at hqr
                  exact absurd hqr (by decide)
      | DictDesc =>
          cases h : keyLess .DictDesc r.1 p.1 with
          | false => rfl
          | true =>
              cases hpq2 : keyLess .DictDesc p.1 q.1 with
              | false =>
                  have e := keyLess_total .DictDesc (by decide) _ _ hpq2 hpq
                  rw [e] at h
                  rw [h] at hqr
                  exact absurd hqr (by decide)
              | true =>
                  have := keyLess_trans .DictDesc _ _ _ h hpq2
                  rw [this] at hqr
                  exact absurd hqr (by decide)⟩
  exact @List.sorted_insertionSort _ _ _ ht htr l


theorem nodup_keys_iff {α : Type} (l : List (GoString × α)) :
    (mapKeys l).Nodup ↔ List.Pairwise (fun p q => p.1 ≠ q.1) l := by
  unfold mapKeys List.Nodup
  rw [List.pairwise_map]

theorem sortPairs_strict {α : Type} (mode : GoSort) (hm : mode ≠ .Random)
    (l : List (GoString × α)) (hnd : (mapKeys l).Nodup) :
    List.Pairwise (fun p q => keyLess mode p.1 q.1 = true) (sortPairs mode l) := by
  have h1 := sortPairs_sorted mode l
  have h2 : List.Pairwise (fun p q => p.1 ≠ q.1) (sortPairs mode l) := by
    rw [← nodup_keys_iff]
    have hp : (mapKeys (sortPairs mode l)).Perm (mapKeys l) := (sortPairs_perm mode l).map _
    exact hp.nodup_iff.mpr hnd
  refine (h1.and h2).imp ?_
  intro p q hpq
  cases h : keyLess mode p.1 q.1 with
  | true => rfl
  | false => exact absurd (keyLess_total mode hm _ _ h hpq.1) hpq.2

theorem sortPairs_unique {α : Type} (mode : GoSort) (hm : mode ≠ .Random)
    (l1 l2 : List (GoString × α)) (hp : l1.Perm l2) (hnd : (mapKeys l2).Nodup) :
    sortPairs mode l1 = sortPairs mode l2 := by
  have hnd1 : (mapKeys l1).Nodup := (hp.map Prod.fst).nodup_iff.mpr hnd
  have s1 := sortPairs_strict mode hm l1 hnd1
  have s2 := sortPairs_strict mode hm l2 hnd
  have hperm : (sortPairs mode l1).Perm (sortPairs mode l2) :=
    ((sortPairs_perm mode l1).trans hp).trans (sortPairs_perm mode l2).symm
  have ha : IsAntisymm (GoString × α) (fun p q => keyLess mode p.1 q.1 = true) :=
    ⟨fun p q h1 h2 => by
      rw [keyLess_asymm mode _ _ h1] at h2
      exact absurd h2 (by decide)⟩
  exact @List.eq_of_perm_of_sorted _ _ ha _ _ hperm s1 s2

theorem sortObjects_map {α β : Type} (f : α → β) (mode : GoSort) (l : List (GoString × α)) :
    sortObjects (l.map (fun e => (e.1, f e.2))) mode
      = (sortObjects l mode).map (fun e => (e.1, f e.2)) := by
  have hins : ∀ (p : GoString × α) (t : List (GoString × α)),
      sortInsert mode (p.1, f p.2) (t.map (fun e => (e.1, f e.2)))
        = (sortInsert mode p t).map (fun e => (e.1, f e.2)) := by
    intro p t
    induction t with
    | nil => rfl
    | cons q rest ih =>
        simp only [List.map_cons, sortInsert]
        by_cases hq : keyLess mode q.1 p.1 = true
        · simp [hq, ih]
        · simp [hq]
  have hs : sortPairs mode (l.map (fun e => (e.1, f e.2)))
      = (sortPairs mode l).map (fun e => (e.1, f e.2)) := by
    induction l with
    | nil => rfl
    | cons p rest ih => simp only [List.map_cons, sortPairs, ih, hins]
  cases mode with
  | Random => rfl
  | DictAsc => exact hs
  | DictDesc => exact hs

theorem marshalObjChildren_eq_map (opt : JsonOption) (oc : List (GoString × JsonValue)) :
    marshalObjChildren opt oc
      = oc.map (fun e => (e.1, (e.2.IsNull, (e.2.marshalWith opt).1))) := by
  induction oc with
  | nil => simp [marshalObjChildren]
  | cons e rest ih =>
      obtain ⟨k, v⟩ := e
      simp [marshalObjChildren, ih]

theorem marshalArrChildren_eq_map (opt : JsonOption) (ac : List JsonValue) :
    marshalArrChildren opt ac = ac.map (fun c => (c.IsNull, (c.marshalWith opt).1)) := by
  induction ac with
  | nil => simp [marshalArrChildren]
  | cons c rest ih => simp [marshalArrChildren, ih]

theorem marshalWith_object (opt : JsonOption) (v : JsonValue) (h : v.valueType = .Object) :
    v.marshalWith opt
      = ('\x7b' :: emitObjectMembers opt.ShowNull
          ((sortObjects v.objChildren opt.SortMode).map
            (fun e => (e.1, (e.2.IsNull, (e.2.marshalWith opt).1)))) true ++ ['\x7d'], none) := by
  cases v with
  | mk vt s i f b u oc ac ms mu mf =>
      simp only [JsonValue.valueType] at h
      subst h
      rw [JsonValue.marshalWith, marshalObjChildren_eq_map]
      simp only [JsonValue.objChildren]
      rw [sortObjects_map (fun c : JsonValue => (c.IsNull, (c.marshalWith opt).1))]

theorem marshalWith_array (opt : JsonOption) (v : JsonValue) (h : v.valueType = .Array) :
    v.marshalWith opt
      = ('[' :: emitArrayMembers opt.ShowNull
          (v.arrChildren.map (fun c => (c.IsNull, (c.marshalWith opt).1))) true ++ [']'], none) := by
  cases v with
  | mk vt s i f b u oc ac ms mu mf =>
      simp only [JsonValue.valueType] at h
      subst h
      rw [JsonValue.marshalWith, marshalArrChildren_eq_map]
      rfl

/-- C24: for an object with entries `entries` (distinct keys, as in a Go map) and the mode
`DictAsc` or `DictDesc`, `sortObjects` returns a permutation of the entries whose keys are
strictly ascending, respectively strictly descending, in the byte-wise lexicographic order;
the result, and with it the marshaled text, is the same for every other iteration order of
the same entries. -/
theorem sortObjects_sorted_permutation (entries : List (GoString × JsonValue)) (mode : GoSort)
    (hm : mode = .DictAsc ∨ mode = .DictDesc) (hnd : (mapKeys entries).Nodup) :
    (sortObjects entries mode).Perm entries ∧
    (mode = .DictAsc →
      List.Pairwise (fun p q => compareLess p.1.data q.1.data = true) (sortObjects entries mode)) ∧
    (mode = .DictDesc →
      List.Pairwise (fun p q => compareLess q.1.data p.1.data = true) (sortObjects entries mode)) ∧
    (∀ entries2 : List (GoString × JsonValue), entries2.Perm entries →
      sortObjects entries2 mode = sortObjects entries mode) ∧
    (∀ (opt : JsonOption) (entries2 : List (GoString × JsonValue)), opt.SortMode = mode →
      entries2.Perm entries →
      (objectOf entries2).marshalWith opt = (objectOf entries).marshalWith opt) := by
  have hne : mode ≠ .Random := by
    rcases hm with h | h <;> rw [h] <;> decide
  have hso : ∀ l : List (GoString × JsonValue), sortObjects l mode = sortPairs mode l := by
    intro l
    rcases hm with h | h <;> rw [h] <;> rfl
  have huniq : ∀ entries2 : List (GoString × JsonValue), entries2.Perm entries →
      sortObjects entries2 mode = sortObjects entries mode := by
    intro e2 hp
    rw [hso, hso]
    exact sortPairs_unique mode hne e2 entries hp hnd
  refine ⟨?_, ?_, ?_, huniq, ?_⟩
  · rw [hso]
    exact sortPairs_perm mode entries
  · intro h
    rw [hso]
    have := sortPairs_strict mode hne entries hnd
    rw [h] at this ⊢
    exact this
  · intro h
    rw [hso]
    have := sortPairs_strict mode hne entries hnd
    rw [h] at this ⊢
    exact this
  · intro opt e2 ho hp
    rw [marshalWith_object opt (objectOf e2) rfl, marshalWith_object opt (objectOf entries) rfl]
    simp only [objectOf, objChildren_setObjChildren, ho]
    rw [huniq e2 hp]

/-- C24, on the example: `{"b":1,"a":2}` marshals with `DictAsc` as `{"a":2,"b":1}` and with
`DictDesc` as `{"b":1,"a":2}`, in either storage order. -/
theorem sortObjects_sorted_permutation_witness :
    (sortObjects [("b", NewInt64 1), ("a", NewInt64 2)] .DictAsc).Perm
      [("b", NewInt64 1), ("a", NewInt64 2)] ∧
    (objectOf [("b", NewInt64 1), ("a", NewInt64 2)]).marshalWith
        { dftOption with SortMode := .DictAsc } = ("\x7b\"a\":2,\"b\":1\x7d".data, none) ∧
    (objectOf [("a", NewInt64 2), ("b", NewInt64 1)]).marshalWith
        { dftOption with SortMode := .DictAsc }
      = (objectOf [("b", NewInt64 1), ("a", NewInt64 2)]).marshalWith
        { dftOption with SortMode := .DictAsc } ∧
    (objectOf [("b", NewInt64 1), ("a", NewInt64 2)]).marshalWith
        { dftOption with SortMode := .DictDesc } = ("\x7b\"b\":1,\"a\":2\x7d".data, none) :=
  ⟨(sortObjects_sorted_permutation [("b", NewInt64 1), ("a", NewInt64 2)] .DictAsc (Or.inl rfl)
      (by decide)).1,
   rfl,
   (sortObjects_sorted_permutation [("b", NewInt64 1), ("a", NewInt64 2)] .DictAsc (Or.inl rfl)
      (by decide)).2.2.2.2 { dftOption with SortMode := .DictAsc }
      [("a", NewInt64 2), ("b", NewInt64 1)] rfl (List.Perm.swap _ _ _),
   rfl⟩


/-! ## Emission of members -/

theorem joinWithComma_cons (t : List Char) (ts : List (List Char)) :
    joinWithComma (t :: ts) = t ++ ts.flatMap (fun x => ',' :: x) := by
  induction ts generalizing t with
  | nil => simp [joinWithComma]
  | cons y rest ih => simp [joinWithComma, ih y]

theorem isEmitted_eq_false (showNull isNull : GoBool) :
    isEmitted showNull isNull = false ↔ (isNull = true ∧ showNull = false) := by
  cases showNull <;> cases isNull <;> simp [isEmitted]

theorem emitArrayMembers_rest {α : Type} (showNull : GoBool) (isNull : α → GoBool)
    (txt : α → List Char) (l : List α) :
    emitArrayMembers showNull (l.map (fun c => (isNull c, txt c))) false
      = ((l.filter (fun c => isEmitted showNull (isNull c))).map txt).flatMap
          (fun x => ',' :: x) := by
  induction l with
  | nil => rfl
  | cons c rest ih =>
      simp only [List.map_cons, emitArrayMembers]
      by_cases h : isNull c = true ∧ showNull = false
      · have he : isEmitted showNull (isNull c) = false := (isEmitted_eq_false _ _).mpr h
        rw [if_pos h, ih]
        simp only [List.filter_cons, he, Bool.false_eq_true, if_false]
      · have he : isEmitted showNull (isNull c) = true := by
          cases hh : isEmitted showNull (isNull c) with
          | true => rfl
          | false => exact absurd ((isEmitted_eq_false _ _).mp hh) h
        rw [if_neg h, ih]
        simp only [List.filter_cons, he, if_true]
        simp

theorem emitArrayMembers_first {α : Type} (showNull : GoBool) (isNull : α → GoBool)
    (txt : α → List Char) (l : List α) :
    emitArrayMembers showNull (l.map (fun c => (isNull c, txt c))) true
      = joinWithComma ((l.filter (fun c => isEmitted showNull (isNull c))).map txt) := by
  induction l with
  | nil => rfl
  | cons c rest ih =>
      simp only [List.map_cons, emitArrayMembers]
      by_cases h : isNull c = true ∧ showNull = false
      · have he : isEmitted showNull (isNull c) = false := (isEmitted_eq_false _ _).mpr h
        rw [if_pos h, ih]
        simp only [List.filter_cons, he, Bool.false_eq_true, if_false]
      · have he : isEmitted showNull (isNull c) = true := by
          cases hh : isEmitted showNull (isNull c) with
          | true => rfl
          | false => exact absurd ((isEmitted_eq_false _ _).mp hh) h
        rw [if_neg h, emitArrayMembers_rest]
        simp only [List.filter_cons, he, if_true, List.map_cons, joinWithComma_cons]
        simp

theorem emitObjectMembers_rest {α : Type} (showNull : GoBool) (isNull : α → GoBool)
    (txt : α → List Char) (l : List (GoString × α)) :
    emitObjectMembers showNull (l.map (fun e => (e.1, (isNull e.2, txt e.2)))) false
      = ((l.filter (fun e => isEmitted showNull (isNull e.2))).map
          (fun e => memberText e.1 (txt e.2))).flatMap (fun x => ',' :: x) := by
  induction l with
  | nil => rfl
  | cons c rest ih =>
      simp only [List.map_cons, emitObjectMembers]
      by_cases h : isNull c.2 = true ∧ showNull = false
      · have he : isEmitted showNull (isNull c.2) = false := (isEmitted_eq_false _ _).mpr h
        rw [if_pos h, ih]
        simp only [List.filter_cons, he, Bool.false_eq_true, if_false]
      · have he : isEmitted showNull (isNull c.2) = true := by
          cases hh : isEmitted showNull (isNull c.2) with
          | true => rfl
          | false => exact absurd ((isEmitted_eq_false _ _).mp hh) h
        rw [if_neg h, ih]
        simp only [List.filter_cons, he, if_true]
        simp [memberText]

theorem emitObjectMembers_first {α : Type} (showNull : GoBool) (isNull : α → GoBool)
    (txt : α → List Char) (l : List (GoString × α)) :
    emitObjectMembers showNull (l.map (fun e => (e.1, (isNull e.2, txt e.2)))) true
      = joinWithComma ((l.filter (fun e => isEmitted showNull (isNull e.2))).map
          (fun e => memberText e.1 (txt e.2))) := by
  induction l with
  | nil => rfl
  | cons c rest ih =>
      simp only [List.map_cons, emitObjectMembers]
      by_cases h : isNull c.2 = true ∧ showNull = false
      · have he : isEmitted showNull (isNull c.2) = false := (isEmitted_eq_false _ _).mpr h
        rw [if_pos h, ih]
        simp only [List.filter_cons, he, Bool.false_eq_true, if_false]
      · have he : isEmitted showNull (isNull c.2) = true := by
          cases hh : isEmitted showNull (isNull c.2) with
          | true => rfl
          | false => exact absurd ((isEmitted_eq_false _ _).mp hh) h
        rw [if_neg h, emitObjectMembers_rest]
        simp only [List.filter_cons, he, if_true, List.map_cons, joinWithComma_cons]
        simp [memberText]

theorem marshalWith_array_join (opt : JsonOption) (v : JsonValue) (h : v.valueType = .Array) :
    v.marshalWith opt
      = ('[' :: joinWithComma
            ((v.arrChildren.filter (fun c => isEmitted opt.ShowNull c.IsNull)).map
              (fun c => (c.marshalWith opt).1)) ++ [']'], none) := by
  rw [marshalWith_array opt v h,
    emitArrayMembers_first opt.ShowNull JsonValue.IsNull (fun c => (c.marshalWith opt).1)]

theorem marshalWith_object_join (opt : JsonOption) (v : JsonValue) (h : v.valueType = .Object) :
    v.marshalWith opt
      = ('\x7b' :: joinWithComma
            (((sortObjects v.objChildren opt.SortMode).filter
                (fun e => isEmitted opt.ShowNull e.2.IsNull)).map
              (fun e => memberText e.1 (e.2.marshalWith opt).1)) ++ ['\x7d'], none) := by
  rw [marshalWith_object opt v h,
    emitObjectMembers_first opt.ShowNull JsonValue.IsNull (fun c => (c.marshalWith opt).1)]

/-- C25: the marshaled text of an array is `[`, the texts of the emitted children joined by
exactly one comma, `]`; the marshaled text of an object is an opening brace, the members
`"escaped-key":value` of the emitted children in the order of `sortObjects` joined by exactly
one comma, a closing brace; when no child is emitted the text is `[]`, respectively an empty
pair of braces.  A child is emitted unless it is null and `ShowNull` is off. -/
theorem marshalWith_joins_members (opt : JsonOption) (v : JsonValue) :
    (v.valueType = .Array →
      v.marshalWith opt
        = ('[' :: joinWithComma
              ((v.arrChildren.filter (fun c => isEmitted opt.ShowNull c.IsNull)).map
                (fun c => (c.marshalWith opt).1)) ++ [']'], none) ∧
      ((∀ c ∈ v.arrChildren, isEmitted opt.ShowNull c.IsNull = false) →
        v.marshalWith opt = ("[]".data, none))) ∧
    (v.valueType = .Object →
      v.marshalWith opt
        = ('\x7b' :: joinWithComma
              (((sortObjects v.objChildren opt.SortMode).filter
                  (fun e => isEmitted opt.ShowNull e.2.IsNull)).map
                (fun e => memberText e.1 (e.2.marshalWith opt).1)) ++ ['\x7d'], none) ∧
      ((∀ e ∈ v.objChildren, isEmitted opt.ShowNull e.2.IsNull = false) →
        v.marshalWith opt = ("\x7b\x7d".data, none))) := by
  refine ⟨fun h => ⟨marshalWith_array_join opt v h, fun hall => ?_⟩,
    fun h => ⟨marshalWith_object_join opt v h, fun hall => ?_⟩⟩
  · rw [marshalWith_array_join opt v h]
    have hf : v.arrChildren.filter (fun c => isEmitted opt.ShowNull c.IsNull) = [] := by
      rw [List.filter_eq_nil_iff]
      intro c hc
      simp [hall c hc]
    rw [hf]
    rfl
  · rw [marshalWith_object_join opt v h]
    have hf : (sortObjects v.objChildren opt.SortMode).filter
        (fun e => isEmitted opt.ShowNull e.2.IsNull) = [] := by
      rw [List.filter_eq_nil_iff]
      intro e he
      have hmem : e ∈ v.objChildren := by
        cases hmode : opt.SortMode with
        | Random => rw [hmode] at he; exact he
        | DictAsc => rw [hmode] at he; exact (sortPairs_perm _ _).mem_iff.mp he
        | DictDesc => rw [hmode] at he; exact (sortPairs_perm _ _).mem_iff.mp he
      simp [hall e hmem]
    rw [hf]
    rfl

/-- C25, on examples: `[1,null,"x"]`, `[null]` and an object with the keys `b`, `n`, `a`,
where `n` is null, under `DictAsc`. -/
theorem marshalWith_joins_members_witness :
    (arrayOf [NewInt64 1, NewNull, NewString "x"]).marshalWith dftOption
      = ("[1,\"x\"]".data, none) ∧
    (arrayOf [NewNull]).marshalWith dftOption = ("[]".data, none) ∧
    (objectOf [("b", NewInt64 1), ("n", NewNull), ("a", arrayOf [])]).marshalWith
        { dftOption with SortMode := .DictAsc }
      = ("\x7b\"a\":[],\"b\":1\x7d".data, none) ∧
    (objectOf [("n", NewNull)]).marshalWith { dftOption with SortMode := .DictDesc }
      = ("\x7b\x7d".data, none) :=
  ⟨((marshalWith_joins_members dftOption
      (arrayOf [NewInt64 1, NewNull, NewString "x"])).1 rfl).1,
   ((marshalWith_joins_members dftOption (arrayOf [NewNull])).1 rfl).2 (by
      intro c hc
      simp only [arrayOf, arrChildren_setArrChildren, List.mem_singleton] at hc
      subst hc
      rfl),
   ((marshalWith_joins_members { dftOption with SortMode := .DictAsc }
      (objectOf [("b", NewInt64 1), ("n", NewNull), ("a", arrayOf [])])).2 rfl).1,
   ((marshalWith_joins_members { dftOption with SortMode := .DictDesc }
      (objectOf [("n", NewNull)])).2 rfl).2 (by
      intro e he
      simp only [objectOf, objChildren_setObjChildren, List.mem_singleton] at he
      subst he
      rfl)⟩


theorem strict_sorted_unique {α : Type} (mode : GoSort) (l1 l2 : List (GoString × α))
    (hp : l1.Perm l2)
    (s1 : List.Pairwise (fun p q => keyLess mode p.1 q.1 = true) l1)
    (s2 : List.Pairwise (fun p q => keyLess mode p.1 q.1 = true) l2) : l1 = l2 := by
  have ha : IsAntisymm (GoString × α) (fun p q => keyLess mode p.1 q.1 = true) :=
    ⟨fun p q h1 h2 => by
      rw [keyLess_asymm mode _ _ h1] at h2
      exact absurd h2 (by decide)⟩
  exact @List.eq_of_perm_of_sorted _ _ ha _ _ hp s1 s2

theorem sortObjects_filter {α : Type} (mode : GoSort) (P : GoString × α → Bool)
    (l : List (GoString × α)) (hnd : (mapKeys l).Nodup) :
    sortObjects (l.filter P) mode = (sortObjects l mode).filter P := by
  have key : mode ≠ .Random → sortPairs mode (l.filter P) = (sortPairs mode l).filter P := by
    intro hm
    have hnd2 : (mapKeys (l.filter P)).Nodup :=
      hnd.sublist (List.Sublist.map _ (List.filter_sublist l))
    refine strict_sorted_unique mode _ _ ?_ (sortPairs_strict mode hm _ hnd2)
      ((sortPairs_strict mode hm l hnd).sublist (List.filter_sublist _))
    exact (sortPairs_perm mode _).trans ((sortPairs_perm mode l).symm.filter P)
  cases mode with
  | Random => rfl
  | DictAsc => exact key (by decide)
  | DictDesc => exact key (by decide)

theorem isEmitted_false_eq (isNull : GoBool) : isEmitted false isNull = !isNull := by
  cases isNull <;> rfl

/-- C23: with `ShowNull` off, an array or an object (its keys distinct, as in a Go map)
marshals to the same text as the container with its null children removed, so a null child
adds neither text nor a comma; with `ShowNull` on, or when no child is null, every child is
emitted: the text is the bracket pair around the texts of all children (for an object, all
members in the order of `sortObjects`) joined by commas, and a null child is written as
`null`. -/
theorem marshalWith_null_children (opt : JsonOption) (v : JsonValue) :
    (v.valueType = .Array → opt.ShowNull = false →
      v.marshalWith opt
        = (v.setArrChildren (v.arrChildren.filter (fun c => !c.IsNull))).marshalWith opt) ∧
    (v.valueType = .Object → opt.ShowNull = false → (mapKeys v.objChildren).Nodup →
      v.marshalWith opt
        = (v.setObjChildren (v.objChildren.filter (fun e => !e.2.IsNull))).marshalWith opt) ∧
    (v.valueType = .Array → (opt.ShowNull = true ∨ ∀ c ∈ v.arrChildren, c.IsNull = false) →
      v.marshalWith opt
        = ('[' :: joinWithComma (v.arrChildren.map (fun c => (c.marshalWith opt).1)) ++ [']'],
            none)) ∧
    (v.valueType = .Object →
      (opt.ShowNull = true ∨ ∀ e ∈ v.objChildren, e.2.IsNull = false) →
      v.marshalWith opt
        = ('\x7b' :: joinWithComma ((sortObjects v.objChildren opt.SortMode).map
              (fun e => memberText e.1 (e.2.marshalWith opt).1)) ++ ['\x7d'], none)) ∧
    (v.IsNull = true → v.marshalWith opt = ("null".data, none)) := by
  refine ⟨?_, ?_, ?_, ?_, ?_⟩
  · intro h hs
    rw [marshalWith_array_join opt v h,
      marshalWith_array_join opt (v.setArrChildren _) (by simpa using h)]
    simp only [arrChildren_setArrChildren, hs, List.filter_filter, isEmitted_false_eq,
      Bool.and_self]
  · intro h hs hnd
    rw [marshalWith_object_join opt v h,
      marshalWith_object_join opt (v.setObjChildren _) (by simpa using h)]
    simp only [objChildren_setObjChildren]
    rw [sortObjects_filter opt.SortMode _ _ hnd]
    simp only [hs, List.filter_filter, isEmitted_false_eq, Bool.and_self]
  · intro h hall
    rw [marshalWith_array_join opt v h]
    have hf : v.arrChildren.filter (fun c => isEmitted opt.ShowNull c.IsNull) = v.arrChildren := by
      rw [List.filter_eq_self]
      intro c hc
      rcases hall with hs | hn
      · simp [isEmitted, hs]
      · simp [isEmitted, hn c hc]
    rw [hf]
  · intro h hall
    rw [marshalWith_object_join opt v h]
    have hf : (sortObjects v.objChildren opt.SortMode).filter
        (fun e => isEmitted opt.ShowNull e.2.IsNull) = sortObjects v.objChildren opt.SortMode := by
      rw [List.filter_eq_self]
      intro e he
      have hmem : e ∈ v.objChildren := by
        cases hmode : opt.SortMode with
        | Random => rw [hmode] at he; exact he
        | DictAsc => rw [hmode] at he; exact (sortPairs_perm _ _).mem_iff.mp he
        | DictDesc => rw [hmode] at he; exact (sortPairs_perm _ _).mem_iff.mp he
      rcases hall with hs | hn
      · simp [isEmitted, hs]
      · simp [isEmitted, hn e hmem]
    rw [hf]
  · intro h
    cases v with
    | mk vt s i f b u oc ac ms mu mf =>
        simp only [JsonValue.IsNull, JsonValue.valueType, decide_eq_true_eq] at h
        subst h
        rw [JsonValue.marshalWith]

/-- C23, on the examples: the object with `a` null and `b` equal to 1 marshals without
`ShowNull` as the object with the member `b` alone, in either storage order, and with
`ShowNull` and ascending keys with both members; an array of two nulls marshals as `[]`. -/
theorem marshalWith_null_children_witness :
    (objectOf [("a", NewNull), ("b", NewInt64 1)]).marshalWith dftOption
      = (objectOf [("b", NewInt64 1)]).marshalWith dftOption ∧
    (objectOf [("a", NewNull), ("b", NewInt64 1)]).marshalWith dftOption
      = ("\x7b\"b\":1\x7d".data, none) ∧
    (objectOf [("b", NewInt64 1), ("a", NewNull)]).marshalWith dftOption
      = ("\x7b\"b\":1\x7d".data, none) ∧
    (objectOf [("b", NewInt64 1), ("a", NewNull)]).marshalWith
        { dftOption with ShowNull := true, SortMode := .DictAsc }
      = ("\x7b\"a\":null,\"b\":1\x7d".data, none) ∧
    (arrayOf [NewNull, NewNull]).marshalWith dftOption = (arrayOf []).marshalWith dftOption ∧
    (arrayOf [NewNull, NewNull]).marshalWith dftOption = ("[]".data, none) ∧
    (arrayOf [NewNull, NewNull]).marshalWith { dftOption with ShowNull := true }
      = ("[null,null]".data, none) :=
  ⟨(marshalWith_null_children dftOption (objectOf [("a", NewNull), ("b", NewInt64 1)])).2.1
      rfl rfl (by decide),
   rfl, rfl,
   (marshalWith_null_children { dftOption with ShowNull := true, SortMode := .DictAsc }
      (objectOf [("b", NewInt64 1), ("a", NewNull)])).2.2.2.1 rfl (Or.inl rfl),
   (marshalWith_null_children dftOption (arrayOf [NewNull, NewNull])).1 rfl rfl,
   rfl,
   (marshalWith_null_children { dftOption with ShowNull := true }
      (arrayOf [NewNull, NewNull])).2.2.1 rfl (Or.inl rfl)⟩


/-! ## Escaping -/

theorem digitChar_hex (k : Nat) (hk : k < 16) :
    Nat.digitChar k ∈ "0123456789abcdef".data := by
  interval_cases k <;> decide

theorem toDigitsCore_hex (fuel n : Nat) (acc : List Char)
    (hacc : ∀ c ∈ acc, c ∈ "0123456789abcdef".data) :
    ∀ c ∈ Nat.toDigitsCore 16 fuel n acc, c ∈ "0123456789abcdef".data := by
  induction fuel generalizing n acc with
  | zero => simpa [Nat.toDigitsCore] using hacc
  | succ fuel ih =>
      rw [Nat.toDigitsCore]
      have hd := digitChar_hex (n % 16) (Nat.mod_lt _ (by decide))
      have hacc2 : ∀ c ∈ Nat.digitChar (n % 16) :: acc, c ∈ "0123456789abcdef".data := by
        intro c hc
        rcases List.mem_cons.mp hc with h | h
        · rw [h]; exact hd
        · exact hacc c h
      split
      · exact hacc2
      · exact ih _ _ hacc2

theorem unicodeEscape_tail (chr : Char) :
    ∃ l, unicodeEscape chr = '\x5c' :: 'u' :: l ∧ ∀ c ∈ l, c ∈ "0123456789abcdef".data := by
  refine ⟨_, rfl, ?_⟩
  intro c hc
  rcases List.mem_append.mp hc with h | h
  · rw [(List.mem_replicate.mp h).2]; decide
  · exact toDigitsCore_hex _ _ [] (by simp) c h

theorem hex_not_special (c : Char) (h : c ∈ "0123456789abcdef".data) :
    mustNotStayRaw c = false ∧ c ≠ '\x22' ∧ c ≠ '/' := by
  have hall : ∀ x ∈ "0123456789abcdef".data,
      mustNotStayRaw x = false ∧ x ≠ '\x22' ∧ x ≠ '/' := by decide
  exact hall c h

/-- Every text the encoder writes for one character either starts with a backslash and has
no quote or slash from its third character on, or is the character itself, which is then
neither a quote nor a slash; no character of it is one that must not stay raw. -/
theorem escapeRune_shape (chr : Char) :
    (∀ x ∈ escapeRune chr true, mustNotStayRaw x = false) ∧
    ((∃ x0 l, escapeRune chr true = '\x5c' :: x0 :: l ∧ ∀ x ∈ l, x ≠ '\x22' ∧ x ≠ '/') ∨
      (∃ x, escapeRune chr true = [x] ∧ x ≠ '\x22' ∧ x ≠ '/')) := by
  by_cases h1 : chr = '\x22'
  · rw [h1]
    exact ⟨by decide, Or.inl ⟨_, _, rfl, by decide⟩⟩
  by_cases h2 : chr = '/'
  · rw [h2]
    exact ⟨by decide, Or.inl ⟨_, _, rfl, by decide⟩⟩
  by_cases h3 : chr = '\x08'
  · rw [h3]
    exact ⟨by decide, Or.inl ⟨_, _, rfl, by decide⟩⟩
  by_cases h4 : chr = '\x0c'
  · rw [h4]
    exact ⟨by decide, Or.inl ⟨_, _, rfl, by decide⟩⟩
  by_cases h5 : chr = '\t'
  · rw [h5]
    exact ⟨by decide, Or.inl ⟨_, _, rfl, by decide⟩⟩
  by_cases h6 : chr = '\n'
  · rw [h6]
    exact ⟨by decide, Or.inl ⟨_, _, rfl, by decide⟩⟩
  by_cases h7 : chr = '\r'
  · rw [h7]
    exact ⟨by decide, Or.inl ⟨_, _, rfl, by decide⟩⟩
  by_cases h8 : chr = '<'
  · rw [h8]
    exact ⟨by decide, Or.inl ⟨_, _, rfl, by decide⟩⟩
  by_cases h9 : chr = '>'
  · rw [h9]
    exact ⟨by decide, Or.inl ⟨_, _, rfl, by decide⟩⟩
  by_cases h10 : chr = '&'
  · rw [h10]
    exact ⟨by decide, Or.inl ⟨_, _, rfl, by decide⟩⟩
  by_cases h11 : chr = '%'
  · rw [h11]
    exact ⟨by decide, Or.inl ⟨_, _, rfl, by decide⟩⟩
  rw [escapeRune, if_neg h1, if_neg h2, if_neg h3, if_neg h4, if_neg h5, if_neg h6, if_neg h7, if_neg h8, if_neg h9, if_neg h10, if_neg h11]
  by_cases h12 : chr.toNat > 0x127
  · rw [if_pos ⟨rfl, h12⟩]
    obtain ⟨l, hl, hmem⟩ := unicodeEscape_tail chr
    rw [hl]
    refine ⟨?_, Or.inl ⟨_, _, rfl, fun x hx => (hex_not_special x (hmem x hx)).2⟩⟩
    intro x hx
    rcases List.mem_cons.mp hx with h | h
    · rw [h]; decide
    · rcases List.mem_cons.mp h with h | h
      · rw [h]; decide
      · exact (hex_not_special x (hmem x h)).1
  · rw [if_neg (fun h => h12 h.2)]
    refine ⟨?_, Or.inr ⟨chr, rfl, h1, h2⟩⟩
    intro x hx
    rw [List.mem_singleton.mp hx]
    simp [mustNotStayRaw, h3, h4, h5, h6, h7, h8, h9, h10, h11]

theorem guarded_append (l1 l2 : List Char)
    (g1 : ∀ pre c post, l1 = pre ++ c :: post → (c = '\x22' ∨ c = '/') →
      pre.getLast? = some '\x5c')
    (g2 : ∀ pre c post, l2 = pre ++ c :: post → (c = '\x22' ∨ c = '/') →
      pre.getLast? = some '\x5c') :
    ∀ pre c post, l1 ++ l2 = pre ++ c :: post → (c = '\x22' ∨ c = '/') →
      pre.getLast? = some '\x5c' := by
  intro pre c post h hc
  rcases List.append_eq_append_iff.mp h with ⟨a, ha1, ha2⟩ | ⟨a, ha1, ha2⟩
  · have := g2 a c post ha2 hc
    rw [ha1]
    cases a with
    | nil => simp at this
    | cons x xs => rw [List.getLast?_append_of_ne_nil _ (by simp)]; exact this
  · cases a with
    | nil =>
        simp only [List.nil_append] at ha2
        have := g2 [] c post (by simpa using ha2.symm) hc
        simp at this
    | cons x xs =>
        simp only [List.cons_append, List.cons.injEq] at ha2
        exact g1 pre c (xs) (by rw [ha1, ha2.1]) hc

theorem guarded_chunk (chunk : List Char)
    (h : (∃ x0 l, chunk = '\x5c' :: x0 :: l ∧ ∀ x ∈ l, x ≠ '\x22' ∧ x ≠ '/') ∨
      (∃ x, chunk = [x] ∧ x ≠ '\x22' ∧ x ≠ '/')) :
    ∀ pre c post, chunk = pre ++ c :: post → (c = '\x22' ∨ c = '/') →
      pre.getLast? = some '\x5c' := by
  intro pre c post heq hc
  rcases h with ⟨x0, l, hl, hfree⟩ | ⟨x, hx, hq, hs⟩
  · rw [hl] at heq
    cases pre with
    | nil =>
        simp only [List.nil_append, List.cons.injEq] at heq
        rcases hc with hc | hc <;> rw [hc] at heq <;> exact absurd heq.1 (by decide)
    | cons a pre2 =>
        cases pre2 with
        | nil =>
            simp only [List.cons_append, List.nil_append, List.cons.injEq] at heq
            rw [← heq.1]; rfl
        | cons b pre3 =>
            simp only [List.cons_append, List.cons.injEq] at heq
            have hmem : c ∈ l := by rw [heq.2.2]; simp
            have := hfree c hmem
            rcases hc with hc | hc
            · exact absurd hc this.1
            · exact absurd hc this.2
  · rw [hx] at heq
    cases pre with
    | nil =>
        simp only [List.nil_append, List.cons.injEq] at heq
        rw [← heq.1] at hc
        rcases hc with hc | hc
        · exact absurd hc hq
        · exact absurd hc hs
    | cons a pre2 =>
        simp only [List.cons_append, List.cons.injEq] at heq
        exact absurd heq.2 (by simp)

theorem escapeJsonChars_guarded (s : List Char) :
    ∀ pre c post, escapeJsonChars s true = pre ++ c :: post → (c = '\x22' ∨ c = '/') →
      pre.getLast? = some '\x5c' := by
  induction s with
  | nil =>
      intro pre c post h
      simp [escapeJsonChars] at h
  | cons chr rest ih =>
      have : escapeJsonChars (chr :: rest) true
          = escapeRune chr true ++ escapeJsonChars rest true := by
        simp [escapeJsonChars]
      rw [this]
      exact guarded_append _ _ (guarded_chunk _ (escapeRune_shape chr).2) ih

/-- C22: `escapeJsonString s true` writes, for each character of `s` in turn, the text of
`escapeRune`, which is a backslash followed by the same quote or slash, by `b`, `f`, `t`,
`n`, `r` for the five control characters, and `u003c`, `u003e`, `u0026`, `u0025` for
`<`, `>`, `&`, `%`; no character of the output is one of `<`, `>`, `&`, `%` or of the five
control characters, and every quote and slash of the output stands right after a
backslash. -/
theorem escapeJsonString_escapes (s : GoString) :
    (∀ pre c post, s.data = pre ++ c :: post →
      (escapeJsonString s true).data
        = (escapeJsonString ⟨pre⟩ true).data ++ escapeRune c true
            ++ (escapeJsonString ⟨post⟩ true).data) ∧
    (escapeRune '\x22' true = ['\x5c', '\x22'] ∧ escapeRune '/' true = ['\x5c', '/'] ∧
      escapeRune '\x08' true = ['\x5c', 'b'] ∧ escapeRune '\x0c' true = ['\x5c', 'f'] ∧
      escapeRune '\t' true = ['\x5c', 't'] ∧ escapeRune '\n' true = ['\x5c', 'n'] ∧
      escapeRune '\r' true = ['\x5c', 'r'] ∧
      escapeRune '<' true = ['\x5c', 'u', '0', '0', '3', 'c'] ∧
      escapeRune '>' true = ['\x5c', 'u', '0', '0', '3', 'e'] ∧
      escapeRune '&' true = ['\x5c', 'u', '0', '0', '2', '6'] ∧
      escapeRune '%' true = ['\x5c', 'u', '0', '0', '2', '5']) ∧
    (∀ c ∈ (escapeJsonString s true).data, mustNotStayRaw c = false) ∧
    (∀ pre c post, (escapeJsonString s true).data = pre ++ c :: post →
      (c = '\x22' ∨ c = '/') → pre.getLast? = some '\x5c') := by
  refine ⟨?_, ⟨rfl, rfl, rfl, rfl, rfl, rfl, rfl, rfl, rfl, rfl, rfl⟩, ?_, ?_⟩
  · intro pre c post h
    simp [escapeJsonString, escapeJsonChars, h]
  · intro c hc
    simp only [escapeJsonString, escapeJsonChars, List.mem_flatMap] at hc
    obtain ⟨chr, _, hmem⟩ := hc
    exact (escapeRune_shape chr).1 c hmem
  · exact escapeJsonChars_guarded s.data

/-- C22, on the text `a"/<%` followed by a line feed. -/
theorem escapeJsonString_escapes_witness :
    (escapeJsonString "a\x22/<%\n" true).data
      = ['a', '\x5c', '\x22', '\x5c', '/', '\x5c', 'u', '0', '0', '3', 'c',
          '\x5c', 'u', '0', '0', '2', '5', '\x5c', 'n'] ∧
    (escapeJsonString "a\x22/<%\n" true).data
      = (escapeJsonString "a\x22" true).data ++ escapeRune '/' true
          ++ (escapeJsonString "<%\n" true).data ∧
    (['a', '\x5c'] : List Char).getLast? = some '\x5c' :=
  ⟨rfl,
   (escapeJsonString_escapes "a\x22/<%\n").1 ['a', '\x22'] '/' ['<', '%', '\n'] rfl,
   (escapeJsonString_escapes "a\x22/<%\n").2.2.2 ['a', '\x5c'] '\x22'
      ['\x5c', '/', '\x5c', 'u', '0', '0', '3', 'c', '\x5c', 'u', '0', '0', '2', '5',
        '\x5c', 'n'] rfl (Or.inl rfl)⟩


/-! ## The unicode escape of the decoder -/

theorem char_le_iff (a b : Char) : a ≤ b ↔ a.toNat ≤ b.toNat :=
  ⟨fun h => UInt32.le_def.mp (Char.le_def.mp h), fun h => Char.le_def.mpr (UInt32.le_def.mpr h)⟩

theorem hexDigitValue_some (c : Char) (d : Nat) (h : hexDigitValue c = some d) :
    digitOf c = some d ∧ d < 16 ∧ c ≠ '+' ∧ c ≠ '-' := by
  have e0 : ('0' : Char).toNat = 48 := rfl
  have e9 : ('9' : Char).toNat = 57 := rfl
  have ea : ('a' : Char).toNat = 97 := rfl
  have ef : ('f' : Char).toNat = 102 := rfl
  have ez : ('z' : Char).toNat = 122 := rfl
  have eA : ('A' : Char).toNat = 65 := rfl
  have eF : ('F' : Char).toNat = 70 := rfl
  have eZ : ('Z' : Char).toNat = 90 := rfl
  have hp : c ≠ '+' ∨ c.toNat = 43 := by
    by_cases hc : c = '+'
    · right; rw [hc]; rfl
    · left; exact hc
  have hm : c ≠ '-' ∨ c.toNat = 45 := by
    by_cases hc : c = '-'
    · right; rw [hc]; rfl
    · left; exact hc
  unfold hexDigitValue at h
  unfold digitOf
  simp only [char_le_iff, e0, e9, ea, ef, ez, eA, eF, eZ] at h ⊢
  by_cases c1 : 48 ≤ c.toNat ∧ c.toNat ≤ 57
  · rw [if_pos c1] at h
    rw [if_pos c1]
    have hd : c.toNat - 48 = d := Option.some.inj h
    refine ⟨by rw [hd], by omega, ?_, ?_⟩
    · rcases hp with hp | hp
      · exact hp
      · omega
    · rcases hm with hm | hm
      · exact hm
      · omega
  · rw [if_neg c1] at h
    rw [if_neg c1]
    by_cases c2 : 97 ≤ c.toNat ∧ c.toNat ≤ 102
    · rw [if_pos c2] at h
      rw [if_pos (by omega : 97 ≤ c.toNat ∧ c.toNat ≤ 122)]
      have hd : c.toNat - 97 + 10 = d := Option.some.inj h
      refine ⟨by rw [hd], by omega, ?_, ?_⟩
      · rcases hp with hp | hp
        · exact hp
        · omega
      · rcases hm with hm | hm
        · exact hm
        · omega
    · rw [if_neg c2] at h
      by_cases c3 : 65 ≤ c.toNat ∧ c.toNat ≤ 70
      · rw [if_pos c3] at h
        rw [if_neg (by omega : ¬ (97 ≤ c.toNat ∧ c.toNat ≤ 122)),
          if_pos (by omega : 65 ≤ c.toNat ∧ c.toNat ≤ 90)]
        have hd : c.toNat - 65 + 10 = d := Option.some.inj h
        refine ⟨by rw [hd], by omega, ?_, ?_⟩
        · rcases hp with hp | hp
          · exact hp
          · omega
        · rcases hm with hm | hm
          · exact hm
          · omega
      · rw [if_neg c3] at h
        exact absurd h (by simp)

theorem hexDigitValue_none (c : Char) (h : hexDigitValue c = none) :
    digitOf c = none ∨ ∃ d, digitOf c = some d ∧ 16 ≤ d := by
  have e0 : ('0' : Char).toNat = 48 := rfl
  have e9 : ('9' : Char).toNat = 57 := rfl
  have ea : ('a' : Char).toNat = 97 := rfl
  have ef : ('f' : Char).toNat = 102 := rfl
  have ez : ('z' : Char).toNat = 122 := rfl
  have eA : ('A' : Char).toNat = 65 := rfl
  have eF : ('F' : Char).toNat = 70 := rfl
  have eZ : ('Z' : Char).toNat = 90 := rfl
  unfold hexDigitValue at h
  unfold digitOf
  simp only [char_le_iff, e0, e9, ea, ef, ez, eA, eF, eZ] at h ⊢
  by_cases c1 : 48 ≤ c.toNat ∧ c.toNat ≤ 57
  · rw [if_pos c1] at h
    exact absurd h (by simp)
  · rw [if_neg c1] at h
    rw [if_neg c1]
    by_cases c2 : 97 ≤ c.toNat ∧ c.toNat ≤ 102
    · rw [if_pos c2] at h
      exact absurd h (by simp)
    · rw [if_neg c2] at h
      by_cases c3 : 65 ≤ c.toNat ∧ c.toNat ≤ 70
      · rw [if_pos c3] at h
        exact absurd h (by simp)
      · by_cases c4 : 97 ≤ c.toNat ∧ c.toNat ≤ 122
        · rw [if_pos c4]
          exact Or.inr ⟨_, rfl, by omega⟩
        · rw [if_neg c4]
          by_cases c5 : 65 ≤ c.toNat ∧ c.toNat ≤ 90
          · rw [if_pos c5]
            exact Or.inr ⟨_, rfl, by omega⟩
          · rw [if_neg c5]
            exact Or.inl rfl

theorem parseUintLoop_hex_step (c : Char) (cs : List Char) (n d : Nat)
    (hd : digitOf c = some d) (hlt : d < 16) (hr : n * 16 + d < 2 ^ 32) :
    parseUintLoop 16 32 (c :: cs) n = parseUintLoop 16 32 cs (n * 16 + d) := by
  rw [parseUintLoop, hd]
  simp only []
  rw [if_neg (by omega), if_neg (by omega)]

theorem parseUintLoop_bad_step (c : Char) (cs : List Char) (n : Nat)
    (h : hexDigitValue c = none) :
    parseUintLoop 16 32 (c :: cs) n = (0, some .strconvSyntaxErr) := by
  rcases hexDigitValue_none c h with hn | ⟨d, hd, hge⟩
  · rw [parseUintLoop, hn]
  · rw [parseUintLoop, hd]
    simp only []
    rw [if_pos hge]

theorem parseUintLoop_bad (cs : List Char) (n k : Nat) (hn : n < 16 ^ k)
    (hk : k + cs.length ≤ 8) (hbad : ∃ c ∈ cs, hexDigitValue c = none) :
    parseUintLoop 16 32 cs n = (0, some .strconvSyntaxErr) := by
  induction cs generalizing n k with
  | nil =>
      obtain ⟨c, hc, _⟩ := hbad
      simp at hc
  | cons c rest ih =>
      cases hv : hexDigitValue c with
      | none => exact parseUintLoop_bad_step c rest n hv
      | some d =>
          obtain ⟨hd, hlt, _, _⟩ := hexDigitValue_some c d hv
          have hn2 : n * 16 + d < 16 ^ (k + 1) := by
            rw [Nat.pow_succ]
            omega
          have hk2 : k + 1 + rest.length ≤ 8 := by
            simp only [List.length_cons] at hk
            omega
          have hle : 16 ^ (k + 1) ≤ 16 ^ 8 := Nat.pow_le_pow_right (by decide) (by omega)
          have h32 : (16 : Nat) ^ 8 = 2 ^ 32 := by decide
          rw [parseUintLoop_hex_step c rest n d hd hlt (by omega)]
          refine ih (n * 16 + d) (k + 1) hn2 hk2 ?_
          obtain ⟨x, hx, hxv⟩ := hbad
          rcases List.mem_cons.mp hx with e | e
          · rw [e, hv] at hxv
            exact absurd hxv (by simp)
          · exact ⟨x, e, hxv⟩

theorem ParseInt_hex4 (h1 h2 h3 h4 : Char) (d1 d2 d3 d4 : Nat)
    (v1 : hexDigitValue h1 = some d1) (v2 : hexDigitValue h2 = some d2)
    (v3 : hexDigitValue h3 = some d3) (v4 : hexDigitValue h4 = some d4) :
    ParseInt [h1, h2, h3, h4] 16 32
      = (((d1 * 4096 + d2 * 256 + d3 * 16 + d4 : Nat) : Int), none) := by
  obtain ⟨e1, l1, p1, m1⟩ := hexDigitValue_some h1 d1 v1
  obtain ⟨e2, l2, _, _⟩ := hexDigitValue_some h2 d2 v2
  obtain ⟨e3, l3, _, _⟩ := hexDigitValue_some h3 d3 v3
  obtain ⟨e4, l4, _, _⟩ := hexDigitValue_some h4 d4 v4
  have hu : ParseUint [h1, h2, h3, h4] 16 32
      = (d1 * 4096 + d2 * 256 + d3 * 16 + d4, none) := by
    simp only [ParseUint]
    rw [parseUintLoop_hex_step h1 _ 0 d1 e1 l1 (by omega),
      parseUintLoop_hex_step h2 _ _ d2 e2 l2 (by omega),
      parseUintLoop_hex_step h3 _ _ d3 e3 l3 (by omega),
      parseUintLoop_hex_step h4 _ _ d4 e4 l4 (by omega), parseUintLoop]
    congr 1
    omega
  have hlt : ¬ (2147483648 ≤ d1 * 4096 + d2 * 256 + d3 * 16 + d4) := by omega
  simp [ParseInt, p1, m1, hu, hlt]

theorem ParseInt_bad4 (h1 h2 h3 h4 : Char) (p1 : h1 ≠ '+') (m1 : h1 ≠ '-')
    (hbad : hexDigitValue h1 = none ∨ hexDigitValue h2 = none ∨ hexDigitValue h3 = none
      ∨ hexDigitValue h4 = none) :
    ParseInt [h1, h2, h3, h4] 16 32 = (0, some .strconvSyntaxErr) := by
  have hu : ParseUint [h1, h2, h3, h4] 16 32 = (0, some .strconvSyntaxErr) := by
    simp only [ParseUint]
    refine parseUintLoop_bad _ 0 0 (by decide) (by simp) ?_
    rcases hbad with h | h | h | h
    · exact ⟨h1, by simp, h⟩
    · exact ⟨h2, by simp, h⟩
    · exact ⟨h3, by simp, h⟩
    · exact ⟨h4, by simp, h⟩
  simp [ParseInt, p1, m1, hu]

theorem runeLen_pos (c : Char) : 1 ≤ runeLen c := by
  unfold runeLen
  split_ifs <;> omega

theorem byteLen_four (h1 h2 h3 h4 : Char) (post : List Char) :
    ¬ byteLen (h1 :: h2 :: h3 :: h4 :: post) < 4 := by
  have a1 := runeLen_pos h1
  have a2 := runeLen_pos h2
  have a3 := runeLen_pos h3
  have a4 := runeLen_pos h4
  simp only [byteLen, List.map_cons, List.sum_cons]
  omega

theorem runeOfInt_toNat (v : Nat) (h : v < 0xD800 ∨ (0xDFFF < v ∧ v < 0x110000)) :
    (runeOfInt (v : Int)).toNat = v := by
  have hv : v.isValidChar := by
    unfold Nat.isValidChar
    omega
  unfold runeOfInt
  rw [dif_pos ⟨by simpa using hv, by omega⟩]
  rfl

theorem unescapeLoop_u (rest b : List Char) :
    unescapeLoop ('u' :: rest) true 0 b
      = if byteLen rest < 4 then .error .JsonFormatError
        else
          match ParseInt (rest.take 4) 16 32 with
          | (_, some err) => .error err
          | (unicode, none) => unescapeLoop rest false 4 (b ++ [runeOfInt unicode]) := by
  rw [unescapeLoop]
  rw [if_neg (by decide), if_pos rfl, if_neg (by decide), if_pos rfl]

theorem unescapeLoop_skip4 (h1 h2 h3 h4 : Char) (post b : List Char) :
    unescapeLoop (h1 :: h2 :: h3 :: h4 :: post) false 4 b = unescapeLoop post false 0 b := by
  rw [unescapeLoop, if_pos (by decide), unescapeLoop, if_pos (by decide), unescapeLoop,
    if_pos (by decide), unescapeLoop, if_pos (by decide)]

theorem stringFromEscapedBytes_backslash (rest : List Char) :
    stringFromEscapedBytes ('\x5c' :: rest)
      = match unescapeLoop rest true 0 [] with
        | .ok b => .ok ⟨b⟩
        | .error err => .error err := by
  rw [stringFromEscapedBytes, unescapeLoop]
  rw [if_neg (by decide), if_neg (by decide), if_pos rfl]

/-- C21 (counterexample): the body backslash-u followed by `oooo`, an input of the test
suite, fails with the syntax error of `strconv.ParseInt`, which is not `JsonFormatError`;
and backslash-u followed by `+123` does not fail: it decodes to the character U+0123. -/
theorem decode_unicode_escape_other_error :
    stringFromEscapedBytes "\x5cuoooo".data = .error .strconvSyntaxErr ∧
    stringFromEscapedBytes "\x5cuoooo".data ≠ .error .JsonFormatError ∧
    stringFromEscapedBytes "\x5cu+123".data = .ok ⟨[Char.ofNat 0x123]⟩ := by
  have h1 : stringFromEscapedBytes "\x5cuoooo".data = .error .strconvSyntaxErr := rfl
  refine ⟨h1, ?_, rfl⟩
  rw [h1]
  intro h
  injection h with h
  exact absurd h (by decide)

/-- C21 (amended): in the state after a backslash, with buffer `b`, reading `u` and four
hexadecimal digits of values `d1 d2 d3 d4` appends one character to the buffer and goes on
behind the digits; the character has the code point `d1*4096 + d2*256 + d3*16 + d4` when
that is no surrogate.  When fewer than four bytes follow the `u`, decoding fails with
`JsonFormatError`.  When four characters follow, the first is no sign and one of the four
is no hexadecimal digit, decoding fails with the syntax error of `strconv.ParseInt`. -/
theorem decode_unicode_escape (h1 h2 h3 h4 : Char) (post b : List Char) :
    (∀ d1 d2 d3 d4 : Nat, hexDigitValue h1 = some d1 → hexDigitValue h2 = some d2 →
      hexDigitValue h3 = some d3 → hexDigitValue h4 = some d4 →
      unescapeLoop ('u' :: h1 :: h2 :: h3 :: h4 :: post) true 0 b
        = unescapeLoop post false 0
            (b ++ [runeOfInt ((d1 * 4096 + d2 * 256 + d3 * 16 + d4 : Nat) : Int)]) ∧
      stringFromEscapedBytes ['\x5c', 'u', h1, h2, h3, h4]
        = .ok ⟨[runeOfInt ((d1 * 4096 + d2 * 256 + d3 * 16 + d4 : Nat) : Int)]⟩ ∧
      (¬ (0xD800 ≤ d1 * 4096 + d2 * 256 + d3 * 16 + d4 ∧
          d1 * 4096 + d2 * 256 + d3 * 16 + d4 ≤ 0xDFFF) →
        (runeOfInt ((d1 * 4096 + d2 * 256 + d3 * 16 + d4 : Nat) : Int)).toNat
          = d1 * 4096 + d2 * 256 + d3 * 16 + d4)) ∧
    (∀ rest : List Char, byteLen rest < 4 →
      unescapeLoop ('u' :: rest) true 0 b = .error .JsonFormatError ∧
      stringFromEscapedBytes ('\x5c' :: 'u' :: rest) = .error .JsonFormatError) ∧
    (h1 ≠ '+' → h1 ≠ '-' →
      (hexDigitValue h1 = none ∨ hexDigitValue h2 = none ∨ hexDigitValue h3 = none
        ∨ hexDigitValue h4 = none) →
      unescapeLoop ('u' :: h1 :: h2 :: h3 :: h4 :: post) true 0 b = .error .strconvSyntaxErr ∧
      stringFromEscapedBytes ('\x5c' :: 'u' :: h1 :: h2 :: h3 :: h4 :: post)
        = .error .strconvSyntaxErr) := by
  have hgood : ∀ (b2 : List Char) (d1 d2 d3 d4 : Nat), hexDigitValue h1 = some d1 →
      hexDigitValue h2 = some d2 → hexDigitValue h3 = some d3 → hexDigitValue h4 = some d4 →
      ∀ post2 : List Char,
      unescapeLoop ('u' :: h1 :: h2 :: h3 :: h4 :: post2) true 0 b2
        = unescapeLoop post2 false 0
            (b2 ++ [runeOfInt ((d1 * 4096 + d2 * 256 + d3 * 16 + d4 : Nat) : Int)]) := by
    intro b2 d1 d2 d3 d4 v1 v2 v3 v4 post2
    rw [unescapeLoop_u, if_neg (byteLen_four h1 h2 h3 h4 post2)]
    have ht : (h1 :: h2 :: h3 :: h4 :: post2).take 4 = [h1, h2, h3, h4] := rfl
    rw [ht, ParseInt_hex4 h1 h2 h3 h4 d1 d2 d3 d4 v1 v2 v3 v4]
    simp only []
    rw [unescapeLoop_skip4]
  have hbad : ∀ b2 : List Char, h1 ≠ '+' → h1 ≠ '-' →
      (hexDigitValue h1 = none ∨ hexDigitValue h2 = none ∨ hexDigitValue h3 = none
        ∨ hexDigitValue h4 = none) →
      unescapeLoop ('u' :: h1 :: h2 :: h3 :: h4 :: post) true 0 b2
        = .error .strconvSyntaxErr := by
    intro b2 p1 m1 hb
    rw [unescapeLoop_u, if_neg (byteLen_four h1 h2 h3 h4 post)]
    have ht : (h1 :: h2 :: h3 :: h4 :: post).take 4 = [h1, h2, h3, h4] := rfl
    rw [ht, ParseInt_bad4 h1 h2 h3 h4 p1 m1 hb]
  refine ⟨?_, ?_, ?_⟩
  · intro d1 d2 d3 d4 v1 v2 v3 v4
    refine ⟨hgood b d1 d2 d3 d4 v1 v2 v3 v4 post, ?_, ?_⟩
    · rw [stringFromEscapedBytes_backslash, hgood [] d1 d2 d3 d4 v1 v2 v3 v4 []]
      rfl
    · intro hs
      obtain ⟨_, l1, _, _⟩ := hexDigitValue_some h1 d1 v1
      obtain ⟨_, l2, _, _⟩ := hexDigitValue_some h2 d2 v2
      obtain ⟨_, l3, _, _⟩ := hexDigitValue_some h3 d3 v3
      obtain ⟨_, l4, _, _⟩ := hexDigitValue_some h4 d4 v4
      exact runeOfInt_toNat _ (by omega)
  · intro rest hlen
    refine ⟨by rw [unescapeLoop_u, if_pos hlen], ?_⟩
    rw [stringFromEscapedBytes_backslash, unescapeLoop_u, if_pos hlen]
  · intro p1 m1 hb
    refine ⟨hbad b p1 m1 hb, ?_⟩
    rw [stringFromEscapedBytes_backslash, hbad [] p1 m1 hb]

/-- C21 (amended), on examples: backslash-u `00e9` decodes to U+00E9, also inside a text;
backslash-u `o` is too short; backslash-u `00g0` fails with the syntax error. -/
theorem decode_unicode_escape_witness :
    stringFromEscapedBytes "\x5cu00e9".data = .ok ⟨[runeOfInt 233]⟩ ∧
    (runeOfInt 233).toNat = 233 ∧
    stringFromEscapedBytes "a\x5cu00E9b".data = .ok ⟨['a', Char.ofNat 0xE9, 'b']⟩ ∧
    stringFromEscapedBytes "\x5cuo".data = .error .JsonFormatError ∧
    stringFromEscapedBytes "\x5cu00g0".data = .error .strconvSyntaxErr :=
  ⟨((decode_unicode_escape '0' '0' 'e' '9' [] []).1 0 0 14 9 rfl rfl rfl rfl).2.1,
   ((decode_unicode_escape '0' '0' 'e' '9' [] []).1 0 0 14 9 rfl rfl rfl rfl).2.2
      (by decide),
   rfl,
   ((decode_unicode_escape '0' '0' '0' '0' [] []).2.1 ['o'] (by decide)).2,
   ((decode_unicode_escape '0' '0' 'g' '0' [] []).2.2 (by decide) (by decide)
      (Or.inr (Or.inr (Or.inl rfl)))).2⟩

end jsonconv
